import Mathlib

/-!
# WarpX collision engine: a shallow embedding

The development follows three source files:

* `Source/Particles/Collision/BackgroundMCC/MCCScattering.H`
* `Source/Particles/Collision/BinaryCollision/Coulomb/UpdateMomentumPerezElastic.H`
* `Source/Particles/Collision/BinaryCollision/ParticleCreationFunc.H`

Real quantities (`amrex::Real`, `amrex::ParticleReal`, the template type `T_R`)
are read in exact arithmetic: every definition is polymorphic in a linearly
ordered field `R`, so it can be evaluated over the rationals and reasoned
about over the reals.  The transcendental functions of `<cmath>` and the
constants of `Utils/WarpXConst.H` are not part of the three files; they are
passed in as the records `MathFns` and `PhysConst`.

Division is total in this reading (`x / 0 = 0`), where the code computes an
infinity or a NaN: a theorem that depends on a quotient names its denominator
and assumes it non-zero, and `rotationDenominator` is the one by which the
rotation of `UpdateMomentumPerezElastic` divides.  Exact arithmetic neither
rounds nor underflows; the inputs of the counterexamples are chosen so that
a run in IEEE doubles takes the same branches.
-/

set_option autoImplicit false

namespace WarpX

/-! ## Numeric environment -/

/-- The functions of `<cmath>` used by the collision kernels, together with
`std::numeric_limits<T_R>::min()`, the smallest positive normal value of the
floating-point format. -/
structure MathFns (R : Type) where
  sqrt : R → R
  cbrt : R → R
  log : R → R
  exp : R → R
  sinh : R → R
  cos : R → R
  sin : R → R
  pow : R → R → R
  numeric_limits_min : R

/-- The constants of `Utils/WarpXConst.H` (`PhysConst::c`, `PhysConst::ep0`,
`PhysConst::hbar`, `PhysConst::q_e`, `MathConst::pi`). -/
structure PhysConst (R : Type) where
  c : R
  ep0 : R
  hbar : R
  q_e : R
  pi : R

/-- The state of `amrex::RandomEngine`: the sequence of uniform draws it will
deliver and the number of draws already consumed. -/
structure RandomEngine (R : Type) where
  draws : Nat → R
  pos : Nat

/-- The call `amrex::Random(engine)`: the next draw and the advanced engine. -/
def Random {R : Type} (engine : RandomEngine R) : R × RandomEngine R :=
  (engine.draws engine.pos, { engine with pos := engine.pos + 1 })

/-- Three velocity (or momentum) components `(x, y, z)`. -/
structure Vec3 (R : Type) where
  x : R
  y : R
  z : R

/-- The squared length `x*x + y*y + z*z`. -/
def Vec3.normSq {R : Type} [LinearOrderedField R] (v : Vec3 R) : R :=
  v.x * v.x + v.y * v.y + v.z * v.z

/-- Componentwise difference. -/
def Vec3.sub {R : Type} [LinearOrderedField R] (a b : Vec3 R) : Vec3 R :=
  ⟨a.x - b.x, a.y - b.y, a.z - b.z⟩

/-- The magnitude `sqrt(x*x + y*y + z*z)`, with the square root of the
numeric environment. -/
def Vec3.mag {R : Type} [LinearOrderedField R] (F : MathFns R) (v : Vec3 R) : R :=
  F.sqrt v.normSq

/-! ## `MCCScattering.H`: the scattering kernels -/

/-- `ElasticScattering` (MCCScattering.H, lines 33-54).  The velocity is moved
to the COM frame, its magnitude is taken, `ParticleUtils::RandomizeVelocity`
(a helper outside the three files, passed as `RandomizeVelocity`) overwrites
the three components, and the velocity is moved back to the lab frame. -/
def ElasticScattering {R : Type} [LinearOrderedField R] (F : MathFns R)
    (RandomizeVelocity : Vec3 R → R → RandomEngine R → Vec3 R × RandomEngine R)
    (u uCOM : Vec3 R) (engine : RandomEngine R) : Vec3 R × RandomEngine R :=
  -- transform to center of momentum frame
  let ux := u.x - uCOM.x
  let uy := u.y - uCOM.y
  let uz := u.z - uCOM.z
  -- isotropically scatter the particle
  let mag := F.sqrt (ux * ux + uy * uy + uz * uz)
  let scattered := RandomizeVelocity ⟨ux, uy, uz⟩ mag engine
  -- transform back to lab frame
  (⟨scattered.1.x + uCOM.x, scattered.1.y + uCOM.y, scattered.1.z + uCOM.z⟩, scattered.2)

/-- `BackScattering` (MCCScattering.H, lines 66-78): the velocity is reversed
in the COM frame.  The function takes no random engine. -/
def BackScattering {R : Type} [LinearOrderedField R] (u uCOM : Vec3 R) : Vec3 R :=
  ⟨-1 * u.x + 2 * uCOM.x, -1 * u.y + 2 * uCOM.y, -1 * u.z + 2 * uCOM.z⟩

/-- `ChargeExchange` (MCCScattering.H, lines 86-97): the ion velocity is
swapped for the neutral velocity. -/
def ChargeExchange {R : Type} (_u ua : Vec3 R) : Vec3 R :=
  ⟨ua.x, ua.y, ua.z⟩

/-! ## `UpdateMomentumPerezElastic.H`: the pairwise Coulomb update

The body of `UpdateMomentumPerezElastic` is transcribed block by block; each
definition names the source lines it stands for, and the local variables keep
their source names. -/

/-- The scalar arguments of `UpdateMomentumPerezElastic` other than the two
velocities: densities, charges, masses, weights, time step, Coulomb logarithm
and Debye length. -/
structure PairArgs (R : Type) where
  n1 : R
  n2 : R
  n12 : R
  q1 : R
  m1 : R
  w1 : R
  q2 : R
  m2 : R
  w2 : R
  dt : R
  L : R
  lmdD : R

/-- Lines 39-46: the test that makes the function return at once,
`diffm < numeric_limits::min() || diffm/summm < 1.0e-10`. -/
def noRelativeMotion {R : Type} [LinearOrderedField R] (F : MathFns R)
    (u1 u2 : Vec3 R) : Bool :=
  let diffx := |u1.x - u2.x|
  let diffy := |u1.y - u2.y|
  let diffz := |u1.z - u2.z|
  let diffm := F.sqrt (diffx * diffx + diffy * diffy + diffz * diffz)
  let summm := F.sqrt (u1.x * u1.x + u1.y * u1.y + u1.z * u1.z)
    + F.sqrt (u2.x * u2.x + u2.y * u2.y + u2.z * u2.z)
  decide (diffm < F.numeric_limits_min) || decide (diffm / summm < 1.0e-10)

/-- Line 48: `inv_c2 = 1 / (c * c)`. -/
def inv_c2 {R : Type} [LinearOrderedField R] (P : PhysConst R) : R :=
  1 / (P.c * P.c)

/-- The locals computed by lines 50-96: Lorentz factors, momenta, the COM
velocity and its Lorentz factor, the COM-frame momentum of particle 1 and the
COM-frame Lorentz factors. -/
structure ComFrame (R : Type) where
  g1 : R
  g2 : R
  p1x : R
  p1y : R
  p1z : R
  p2x : R
  p2y : R
  p2z : R
  mass_g : R
  vcx : R
  vcy : R
  vcz : R
  vcms : R
  gc : R
  vcDv1 : R
  vcDv2 : R
  p1sx : R
  p1sy : R
  p1sz : R
  p1sm : R
  g1s : R
  g2s : R

/-- Lines 50-96 of `UpdateMomentumPerezElastic`. -/
def comFrame {R : Type} [LinearOrderedField R] (F : MathFns R) (P : PhysConst R)
    (u1 u2 : Vec3 R) (m1 m2 : R) : ComFrame R :=
  -- Compute Lorentz factor gamma
  let g1 := F.sqrt (1 + (u1.x * u1.x + u1.y * u1.y + u1.z * u1.z) * inv_c2 P)
  let g2 := F.sqrt (1 + (u2.x * u2.x + u2.y * u2.y + u2.z * u2.z) * inv_c2 P)
  -- Compute momenta
  let p1x := u1.x * m1
  let p1y := u1.y * m1
  let p1z := u1.z * m1
  let p2x := u2.x * m2
  let p2y := u2.y * m2
  let p2z := u2.z * m2
  -- Compute center-of-mass (COM) velocity and gamma
  let mass_g := m1 * g1 + m2 * g2
  let vcx := (p1x + p2x) / mass_g
  let vcy := (p1y + p2y) / mass_g
  let vcz := (p1z + p2z) / mass_g
  let vcms := vcx * vcx + vcy * vcy + vcz * vcz
  let gc := 1 / F.sqrt (1 - vcms * inv_c2 P)
  -- Compute vc dot v1 and v2
  let vcDv1 := (vcx * u1.x + vcy * u1.y + vcz * u1.z) / g1
  let vcDv2 := (vcx * u2.x + vcy * u2.y + vcz * u2.z) / g2
  -- Compute p1 star
  let lorentz_tansform_factor := ((gc - 1) / vcms * vcDv1 - gc) * m1 * g1
  let p1sx := if vcms > F.numeric_limits_min then p1x + vcx * lorentz_tansform_factor else p1x
  let p1sy := if vcms > F.numeric_limits_min then p1y + vcy * lorentz_tansform_factor else p1y
  let p1sz := if vcms > F.numeric_limits_min then p1z + vcz * lorentz_tansform_factor else p1z
  let p1sm := F.sqrt (p1sx * p1sx + p1sy * p1sy + p1sz * p1sz)
  -- Compute gamma star
  let g1s := (1 - vcDv1 * inv_c2 P) * gc * g1
  let g2s := (1 - vcDv2 * inv_c2 P) * gc * g2
  { g1 := g1, g2 := g2, p1x := p1x, p1y := p1y, p1z := p1z,
    p2x := p2x, p2y := p2y, p2z := p2z, mass_g := mass_g,
    vcx := vcx, vcy := vcy, vcz := vcz, vcms := vcms, gc := gc,
    vcDv1 := vcDv1, vcDv2 := vcDv2,
    p1sx := p1sx, p1sy := p1sy, p1sz := p1sz, p1sm := p1sm,
    g1s := g1s, g2s := g2s }

/-- Lines 98-114: the Coulomb logarithm `lnLmd`. -/
def coulombLog {R : Type} [LinearOrderedField R] (F : MathFns R) (P : PhysConst R)
    (cf : ComFrame R) (a : PairArgs R) : R :=
  if a.L > 0 then a.L
  else
    -- Compute b0
    let b0 := |a.q1 * a.q2| * inv_c2 P / (4 * P.pi * P.ep0) * cf.gc / cf.mass_g *
      (a.m1 * cf.g1s * a.m2 * cf.g2s / (cf.p1sm * cf.p1sm * inv_c2 P) + 1)
    -- Compute the minimal impact parameter
    let bmin := max (P.hbar * P.pi / cf.p1sm) b0
    -- Compute the Coulomb log lnLmd
    max 2 (0.5 * F.log (1 + a.lmdD * a.lmdD / (bmin * bmin)))

/-- Lines 116-121: the Nanbu-Perez value of `s`. -/
def sNanbu {R : Type} [LinearOrderedField R] (P : PhysConst R)
    (cf : ComFrame R) (a : PairArgs R) (lnLmd : R) : R :=
  let tts := a.m1 * cf.g1s * a.m2 * cf.g2s / (inv_c2 P * cf.p1sm * cf.p1sm) + 1
  let tts2 := tts * tts
  a.n1 * a.n2 / a.n12 * a.dt * lnLmd * a.q1 * a.q1 * a.q2 * a.q2 /
    (4 * P.pi * P.ep0 * P.ep0 * a.m1 * cf.g1 * a.m2 * cf.g2 / (inv_c2 P * inv_c2 P)) *
    cf.gc * cf.p1sm / cf.mass_g * tts2

/-- Lines 123-131: the density-limited bound `sp` (s prime). -/
def sPrime {R : Type} [LinearOrderedField R] (F : MathFns R) (P : PhysConst R)
    (cf : ComFrame R) (a : PairArgs R) : R :=
  let cbrt_n1 := F.cbrt a.n1
  let cbrt_n2 := F.cbrt a.n2
  let coeff := F.pow (4.0 * P.pi / 3.0) (1.0 / 3.0)
  let vrel := cf.mass_g * cf.p1sm / (a.m1 * cf.g1s * a.m2 * cf.g2s * cf.gc)
  coeff * a.n1 * a.n2 / a.n12 * a.dt * vrel * (a.m1 + a.m2) /
    max (a.m1 * cbrt_n1 * cbrt_n1) (a.m2 * cbrt_n2 * cbrt_n2)

/-- Lines 116-134: the collision strength after `s = amrex::min(s, sp)`. -/
def collisionStrength {R : Type} [LinearOrderedField R] (F : MathFns R)
    (P : PhysConst R) (cf : ComFrame R) (a : PairArgs R) : R :=
  min (sNanbu P cf a (coulombLog F P cf a)) (sPrime F P cf a)

/-- Lines 144-150: the retry loop of the small-angle regime.  `fuel` bounds
the number of times the loop body runs; `none` means the bound was reached. -/
def smallAngleLoop {R : Type} [LinearOrderedField R] (F : MathFns R) (s : R) :
    Nat → R → RandomEngine R → Option (R × RandomEngine R)
  | 0, _, _ => none
  | fuel + 1, r, engine =>
    let cosXs := 1 + s * F.log r
    -- Avoid the bug when r is too small such that cosXs < -1
    if cosXs ≥ -1 then some (cosXs, engine)
    else smallAngleLoop F s fuel (Random engine).1 (Random engine).2

/-- Lines 139-169: the deflection cosine `cosXs` for collision strength `s`
and first draw `r`. -/
def sampleCosXs {R : Type} [LinearOrderedField R] (F : MathFns R) (s : R)
    (fuel : Nat) (r : R) (engine : RandomEngine R) : Option (R × RandomEngine R) :=
  if s ≤ 0.1 then smallAngleLoop F s fuel r engine
  else if s > 0.1 ∧ s ≤ 3.0 then
    let Ainv := 0.0056958 + 0.9560202 * s - 0.508139 * s * s +
      0.47913906 * s * s * s - 0.12788975 * s * s * s * s + 0.02389567 * s * s * s * s * s
    some (Ainv * F.log (F.exp (-1.0 / Ainv) + 2.0 * r * F.sinh (1.0 / Ainv)), engine)
  else if s > 3.0 ∧ s ≤ 6.0 then
    let A := 3.0 * F.exp (-s)
    some (1.0 / A * F.log (F.exp (-A) + 2.0 * r * F.sinh A), engine)
  else
    some (2.0 * r - 1.0, engine)

/-- Lines 177-214: the post-collision COM momentum `p1fs` of particle 1. -/
def rotateCom {R : Type} [LinearOrderedField R] (F : MathFns R) (cf : ComFrame R)
    (cosXs sinXs cosphis sinphis : R) : Vec3 R :=
  -- p1sp is the p1s perpendicular
  let p1sp := F.sqrt (cf.p1sx * cf.p1sx + cf.p1sy * cf.p1sy)
  -- Make sure p1sp is not almost zero
  if p1sp > F.numeric_limits_min then
    { x := (cf.p1sx * cf.p1sz / p1sp) * sinXs * cosphis +
           (cf.p1sy * cf.p1sm / p1sp) * sinXs * sinphis +
           (cf.p1sx) * cosXs
      y := (cf.p1sy * cf.p1sz / p1sp) * sinXs * cosphis +
           (-cf.p1sx * cf.p1sm / p1sp) * sinXs * sinphis +
           (cf.p1sy) * cosXs
      z := (-p1sp) * sinXs * cosphis +
           (0) * sinXs * sinphis +
           (cf.p1sz) * cosXs }
  else
    -- x->y  y->z  z->x
    let p1sp := F.sqrt (cf.p1sy * cf.p1sy + cf.p1sz * cf.p1sz)
    { y := (cf.p1sy * cf.p1sx / p1sp) * sinXs * cosphis +
           (cf.p1sz * cf.p1sm / p1sp) * sinXs * sinphis +
           (cf.p1sy) * cosXs
      z := (cf.p1sz * cf.p1sx / p1sp) * sinXs * cosphis +
           (-cf.p1sy * cf.p1sm / p1sp) * sinXs * sinphis +
           (cf.p1sz) * cosXs
      x := (-p1sp) * sinXs * cosphis +
           (0) * sinXs * sinphis +
           (cf.p1sx) * cosXs }

/-- Lines 216-246: the lab-frame momenta `(p1f, p2f)` after the collision. -/
def labFrame {R : Type} [LinearOrderedField R] (F : MathFns R) (cf : ComFrame R)
    (m1 m2 : R) (p1fs : Vec3 R) : Vec3 R × Vec3 R :=
  let p2fsx := -p1fs.x
  let p2fsy := -p1fs.y
  let p2fsz := -p1fs.z
  -- Transform from COM to lab frame
  if cf.vcms > F.numeric_limits_min then
    let vcDp1fs := cf.vcx * p1fs.x + cf.vcy * p1fs.y + cf.vcz * p1fs.z
    let vcDp2fs := cf.vcx * p2fsx + cf.vcy * p2fsy + cf.vcz * p2fsz
    let factor := (cf.gc - 1) / cf.vcms
    let factor1 := factor * vcDp1fs + m1 * cf.g1s * cf.gc
    let factor2 := factor * vcDp2fs + m2 * cf.g2s * cf.gc
    (⟨p1fs.x + cf.vcx * factor1, p1fs.y + cf.vcy * factor1, p1fs.z + cf.vcz * factor1⟩,
     ⟨p2fsx + cf.vcx * factor2, p2fsy + cf.vcy * factor2, p2fsz + cf.vcz * factor2⟩)
  else -- If vcms = 0, don't do Lorentz-transform.
    (⟨p1fs.x, p1fs.y, p1fs.z⟩, ⟨p2fsx, p2fsy, p2fsz⟩)

/-- Lines 170-270: everything after the deflection cosine has been sampled:
the azimuthal draw, the rotation, the transform back to the lab frame and the
two rejection tests, each with a fresh draw. -/
def scatterAndReject {R : Type} [LinearOrderedField R] (F : MathFns R)
    (P : PhysConst R) (cf : ComFrame R) (a : PairArgs R) (u1 u2 : Vec3 R)
    (cosXs : R) (engine : RandomEngine R) : Vec3 R × Vec3 R × RandomEngine R :=
  let sinXs := F.sqrt (1 - cosXs * cosXs)
  -- Get random azimuthal angle
  let phis := (Random engine).1 * 2 * P.pi
  let engine := (Random engine).2
  let cosphis := F.cos phis
  let sinphis := F.sin phis
  -- Compute post-collision momenta pfs in COM
  let p1fs := rotateCom F cf cosXs sinXs cosphis sinphis
  let pf := labFrame F cf a.m1 a.m2 p1fs
  -- Rejection method
  let r := (Random engine).1
  let engine := (Random engine).2
  let u1f : Vec3 R :=
    if a.w2 > r * max a.w1 a.w2 then ⟨pf.1.x / a.m1, pf.1.y / a.m1, pf.1.z / a.m1⟩ else u1
  let r := (Random engine).1
  let engine := (Random engine).2
  let u2f : Vec3 R :=
    if a.w1 > r * max a.w1 a.w2 then ⟨pf.2.x / a.m2, pf.2.y / a.m2, pf.2.z / a.m2⟩ else u2
  (u1f, u2f, engine)

/-- `UpdateMomentumPerezElastic` (lines 28-272).  The result is the pair of
velocities after the call and the advanced random engine; `none` only when the
small-angle retry loop did not finish within `fuel` rounds. -/
def UpdateMomentumPerezElastic {R : Type} [LinearOrderedField R] (F : MathFns R)
    (P : PhysConst R) (fuel : Nat) (u1 u2 : Vec3 R) (a : PairArgs R)
    (engine : RandomEngine R) : Option (Vec3 R × Vec3 R × RandomEngine R) :=
  -- If g = u1 - u2 = 0, do not collide.
  if noRelativeMotion F u1 u2 then some (u1, u2, engine)
  else
    let cf := comFrame F P u1 u2 a.m1 a.m2
    let s := collisionStrength F P cf a
    -- Get random numbers
    let r := (Random engine).1
    let engine := (Random engine).2
    match sampleCosXs F s fuel r engine with
    | none => none
    | some (cosXs, engine) => some (scatterAndReject F P cf a u1 u2 cosXs engine)

/-! ## `ParticleCreationFunc.H`: creation of product particles

Particle counts and indices (`index_type`, `int`) are natural numbers: the
counts of one tile are taken to fit their machine types.  The kernel of
`amrex::ParallelForRNG` is run for the events `0, 1, ..., n_total_pairs - 1`
one after another, on two parent tiles that are distinct from each other and
from the product tiles. -/

/-- The C loop `for (int i = 0; i < n; i++) body(i)` acting on a state. -/
def forLoop {σ : Type} (body : Nat → σ → σ) : Nat → σ → σ
  | 0, init => init
  | n + 1, init => body n (forLoop body n init)

/-- The data of one particle tile (`ParticleTileType`, seen through
`getParticleTileData()` and the particle pointer): the number of particles,
the weights `m_rdata[PIdx::w]`, the momenta, the positions and the
identifiers. -/
structure ParticleTile (R : Type) where
  np : Nat
  w : Nat → R
  u : Nat → Vec3 R
  pos : Nat → Vec3 R
  id : Nat → Int

/-- The call `tile->resize(n)`: the number of particles becomes `n`, the
stored data is kept. -/
def ParticleTile.resize {R : Type} (t : ParticleTile R) (n : Nat) : ParticleTile R :=
  { t with np := n }

/-- The assignment `m_rdata[PIdx::w][i] = v`. -/
def ParticleTile.setW {R : Type} (t : ParticleTile R) (i : Nat) (v : R) : ParticleTile R :=
  { t with w := Function.update t.w i v }

/-- The call `atomicSetID(v)` on particle `i`. -/
def ParticleTile.atomicSetID {R : Type} (t : ParticleTile R) (i : Nat) (v : Int) :
    ParticleTile R :=
  { t with id := Function.update t.id i v }

/-- The enumeration `CollisionType` of `BinaryCollisionUtils.H`; the kernel
only asks whether the type is `ProtonBoronFusion`. -/
inductive CollisionType where
  | ProtonBoronFusion
  | Undefined
  deriving DecidableEq

/-- The type of a `SmartCopy` functor call
`copy(dst, src, i_src, i_dst, engine)`: the destination tile and the engine
after the call. -/
abbrev SmartCopy (R : Type) :=
  ParticleTile R → ParticleTile R → Nat → Nat → RandomEngine R →
    ParticleTile R × RandomEngine R

/-- The type of `ProtonBoronFusionInitializeMomentum(soa_1, soa_2, soa_alpha,
idx_1, idx_2, idx_alpha_start, m1, m2, engine)`: the product tile and the
engine after the call. -/
abbrev MomentumInit (R : Type) :=
  ParticleTile R → ParticleTile R → ParticleTile R → Nat → Nat → Nat → R → R →
    RandomEngine R → ParticleTile R × RandomEngine R

/-- The members of `ParticleCreationFunc` together with the external functors
its kernel calls: the per-species `SmartCopy` arrays `copy_species1` and
`copy_species2` (arguments of `operator()`), and the momentum initialiser of
`ProtonBoronFusionInitializeMomentum.H`. -/
structure ParticleCreationFunc (R : Type) where
  m_num_product_species : Nat
  m_num_products : Nat → Nat
  m_collision_type : CollisionType
  copy_species1 : Nat → SmartCopy R
  copy_species2 : Nat → SmartCopy R
  ProtonBoronFusionInitializeMomentum : MomentumInit R

/-- The particle storage `operator()` works on: the two parent tiles (`soa_1`
with `particle_ptr_1`, `soa_2` with `particle_ptr_2`), the product tiles
`tile_products[j]` and the random engine. -/
structure CreationState (R : Type) where
  tile1 : ParticleTile R
  tile2 : ParticleTile R
  products : Nat → ParticleTile R
  engine : RandomEngine R

/-- The event arrays handed to `operator()`. -/
structure PairEvents (R : Type) where
  n_total_pairs : Nat
  p_mask : Nat → Nat
  products_np : Nat → Nat
  p_pair_indices_1 : Nat → Nat
  p_pair_indices_2 : Nat → Nat
  p_pair_reaction_weight : Nat → R

/-- The result of `amrex::Scan::ExclusiveSum(n, in, out)`: `out[i]` is the sum
of `in[0..i-1]`, and the value returned is `exclusiveSum in n`. -/
def exclusiveSum (p_mask : Nat → Nat) : Nat → Nat
  | 0 => 0
  | i + 1 => exclusiveSum p_mask i + p_mask i

/-- Lines 174-175: the slot `product_index` for event `i`, product species `j`
and product index `k`, with `p_offsets` the exclusive sum of the mask. -/
def productIndex {R : Type} (f : ParticleCreationFunc R) (ev : PairEvents R)
    (i j k : Nat) : Nat :=
  ev.products_np j + 2 * (exclusiveSum ev.p_mask i * f.m_num_products j + k)

/-- Lines 174-187: the body of the loop over the product index `k`, for event
`i` and product species `j`, acting on the product tile of species `j`. -/
def productBody {R : Type} [LinearOrderedField R] (f : ParticleCreationFunc R)
    (ev : PairEvents R) (soa_1 soa_2 : ParticleTile R) (i j k : Nat)
    (s : ParticleTile R × RandomEngine R) : ParticleTile R × RandomEngine R :=
  let product_index := productIndex f ev i j k
  -- Create product particle at position of particle 1
  let s1 := f.copy_species1 j s.1 soa_1 (ev.p_pair_indices_1 i) product_index s.2
  -- Create another product particle at position of particle 2
  let s2 := f.copy_species2 j s1.1 soa_2 (ev.p_pair_indices_2 i) (product_index + 1) s1.2
  -- Set the weight of the new particles to p_pair_reaction_weight[i]/2
  let t3 := s2.1.setW product_index (ev.p_pair_reaction_weight i / 2)
  let t4 := t3.setW (product_index + 1) (ev.p_pair_reaction_weight i / 2)
  (t4, s2.2)

/-- Lines 168-189: the body of the loop over the product species `j` for
event `i`: the loop over `k` runs on `soa_products_data[j]`. -/
def speciesBody {R : Type} [LinearOrderedField R] (f : ParticleCreationFunc R)
    (ev : PairEvents R) (i j : Nat) (st : CreationState R) : CreationState R :=
  let s := forLoop (productBody f ev st.tile1 st.tile2 i j) (f.m_num_products j)
    (st.products j, st.engine)
  { st with products := Function.update st.products j s.1, engine := s.2 }

/-- Lines 191-207: the reaction weight is removed from both parents, and a
parent whose weight is then `<= 0` gets the identifier `-1`. -/
def removeParentWeight {R : Type} [LinearOrderedField R]
    (ev : PairEvents R) (i : Nat) (st : CreationState R) : CreationState R :=
  -- Remove p_pair_reaction_weight[i] from the colliding particles' weights
  let t1 := st.tile1.setW (ev.p_pair_indices_1 i)
    (st.tile1.w (ev.p_pair_indices_1 i) + -ev.p_pair_reaction_weight i)
  let t2 := st.tile2.setW (ev.p_pair_indices_2 i)
    (st.tile2.w (ev.p_pair_indices_2 i) + -ev.p_pair_reaction_weight i)
  -- If the colliding particle weight decreases to zero, remove particle by
  -- setting its id to -1
  let t1 := if t1.w (ev.p_pair_indices_1 i) ≤ 0
    then t1.atomicSetID (ev.p_pair_indices_1 i) (-1) else t1
  let t2 := if t2.w (ev.p_pair_indices_2 i) ≤ 0
    then t2.atomicSetID (ev.p_pair_indices_2 i) (-1) else t2
  { st with tile1 := t1, tile2 := t2 }

/-- Lines 209-218: the momentum of the products of event `i` is initialised
when the collision is a proton-boron fusion. -/
def initProductMomentum {R : Type} [LinearOrderedField R] (f : ParticleCreationFunc R)
    (ev : PairEvents R) (m1 m2 : R) (i : Nat) (st : CreationState R) : CreationState R :=
  if f.m_collision_type = CollisionType.ProtonBoronFusion then
    let product_start_index := ev.products_np 0
      + 2 * exclusiveSum ev.p_mask i * f.m_num_products 0
    let s := f.ProtonBoronFusionInitializeMomentum st.tile1 st.tile2 (st.products 0)
      (ev.p_pair_indices_1 i) (ev.p_pair_indices_2 i) product_start_index m1 m2 st.engine
    { st with products := Function.update st.products 0 s.1, engine := s.2 }
  else st

/-- Lines 164-220: the kernel run for event `i`. -/
def eventKernel {R : Type} [LinearOrderedField R] (f : ParticleCreationFunc R)
    (ev : PairEvents R) (m1 m2 : R) (i : Nat) (st : CreationState R) : CreationState R :=
  if ev.p_mask i ≠ 0 then
    initProductMomentum f ev m1 m2 i
      (removeParentWeight ev i
        (forLoop (speciesBody f ev i) f.m_num_product_species st))
  else st

/-- Lines 121-131: the body of the loop that fills `num_added_vec` and
resizes the product tiles.  The vector, created with `m_num_product_species`
entries and assigned in increasing order, is built by appending. -/
def resizeBody {R : Type} (f : ParticleCreationFunc R) (ev : PairEvents R)
    (total : Nat) (i : Nat) (s : List Nat × (Nat → ParticleTile R)) :
    List Nat × (Nat → ParticleTile R) :=
  -- How many particles of product species i are created.
  let num_added := total * f.m_num_products i * 2
  (s.1 ++ [num_added],
   Function.update s.2 i ((s.2 i).resize (ev.products_np i + num_added)))

/-- `ParticleCreationFunc::operator()` (lines 99-225): the vector
`num_added_vec` that is returned, and the particle storage after the call. -/
def ParticleCreationFunc.call {R : Type} [LinearOrderedField R]
    (f : ParticleCreationFunc R) (ev : PairEvents R) (m1 m2 : R)
    (st : CreationState R) : List Nat × CreationState R :=
  if ev.n_total_pairs = 0 then (List.replicate f.m_num_product_species 0, st)
  else
    -- Compute offset array and allocate memory for the produced species
    let total := exclusiveSum ev.p_mask ev.n_total_pairs
    let r := forLoop (resizeBody f ev total) f.m_num_product_species ([], st.products)
    let st1 : CreationState R := { st with products := r.2 }
    (r.1, forLoop (eventKernel f ev m1 m2) ev.n_total_pairs st1)

/-! ## `MCCScattering.H`: the impact-ionization filter -/

/-- The members of `ImpactIonizationFilterFunc`.  `m_mcc_process` stands for
`MCCProcess::Executor::getCrossSection` (the cross-section as a function of
the energy) and `m_n_a_func` for the `ParserExecutor<4>` of the background
density; both come from outside the file. -/
structure ImpactIonizationFilterFunc (R : Type) where
  m_mcc_process : R → R
  m_mass : R
  m_total_collision_prob : R
  m_nu_max : R
  m_n_a_func : R → R → R → R → R
  m_t : R

/-- `ImpactIonizationFilterFunc::operator()` (MCCScattering.H, lines 144-182):
whether particle `i` of the tile data `ptd` undergoes an ionization collision,
and the engine after the call.  `get_particle_position` delivers the stored
position of the particle. -/
def ImpactIonizationFilterFunc.call {R : Type} [LinearOrderedField R] (F : MathFns R)
    (P : PhysConst R) (flt : ImpactIonizationFilterFunc R) (ptd : ParticleTile R) (i : Nat)
    (engine : RandomEngine R) : Bool × RandomEngine R :=
  -- determine if this particle should collide
  if (Random engine).1 > flt.m_total_collision_prob then (false, (Random engine).2)
  else
    let engine := (Random engine).2
    -- get references to the particle to get its position
    let x := (ptd.pos i).x
    let y := (ptd.pos i).y
    let z := (ptd.pos i).z
    -- calculate neutral density at particle location
    let n_a := flt.m_n_a_func x y z flt.m_t
    -- get the particle velocity
    let ux := (ptd.u i).x
    let uy := (ptd.u i).y
    let uz := (ptd.u i).z
    -- calculate kinetic energy
    let v_coll2 := ux * ux + uy * uy + uz * uz
    let E_coll := 0.5 * flt.m_mass * v_coll2 / P.q_e
    let v_coll := F.sqrt v_coll2
    -- get collision cross-section
    let sigma_E := flt.m_mcc_process E_coll
    -- calculate normalized collision frequency
    let nu_i := n_a * sigma_E * v_coll / flt.m_nu_max
    -- check if this collision should be performed
    (decide ((Random engine).1 ≤ nu_i), (Random engine).2)

/-! ## Concrete numeric environments -/

/-- The numeric environment of exact real arithmetic: the real functions of
Mathlib for `<cmath>`, and the smallest positive normal `double`, `2^(-1022)`,
for `std::numeric_limits<double>::min()`. -/
noncomputable def realFns : MathFns ℝ where
  sqrt := Real.sqrt
  cbrt := fun x => if 0 ≤ x then Real.rpow x (1 / 3) else -Real.rpow (-x) (1 / 3)
  log := Real.log
  exp := Real.exp
  sinh := Real.sinh
  cos := Real.cos
  sin := Real.sin
  pow := Real.rpow
  numeric_limits_min := 1 / 2 ^ 1022

/-- The SI values of the constants of `Utils/WarpXConst.H`. -/
def siConst (R : Type) [LinearOrderedField R] : PhysConst R where
  c := 299792458
  ep0 := 8.8541878128e-12
  hbar := 1.054571817e-34
  q_e := 1.602176634e-19
  pi := 3.14159265358979323846

/-- A stand-in for `ParticleUtils::RandomizeVelocity` used to instantiate the
theorems: it consumes two draws and returns the vector of length `vp` along
the x axis. -/
def axisRandomizeVelocity {R : Type} [LinearOrderedField R]
    (_u : Vec3 R) (vp : R) (engine : RandomEngine R) : Vec3 R × RandomEngine R :=
  (⟨vp, 0, 0⟩, (Random (Random engine).2).2)

/-- The law of an exact square root on the non-negative numbers. -/
def SqrtExact {R : Type} [LinearOrderedField R] (F : MathFns R) : Prop :=
  ∀ x : R, 0 ≤ x → 0 ≤ F.sqrt x ∧ F.sqrt x * F.sqrt x = x

/-- A pair of arguments with every scalar equal to one, used to instantiate
the theorems. -/
def unitPairArgs (R : Type) [LinearOrderedField R] : PairArgs R where
  n1 := 1
  n2 := 1
  n12 := 1
  q1 := 1
  m1 := 1
  w1 := 1
  q2 := 1
  m2 := 1
  w2 := 1
  dt := 1
  L := 1
  lmdD := 1

/-- The engine whose every draw is `1/2`, with no draw consumed yet. -/
def halfEngine (R : Type) [LinearOrderedField R] : RandomEngine R :=
  ⟨fun _ => 1 / 2, 0⟩

/-! ## Frame conditions and concrete instances for `ParticleCreationFunc` -/

/-- The frame of a `SmartCopy` call: the number of particles of the
destination tile is unchanged and no weight other than the one at `i_dst` is
written. -/
def WritesOnlySlot {R : Type} (c : SmartCopy R) : Prop :=
  ∀ (dst src : ParticleTile R) (i_src i_dst : Nat) (e : RandomEngine R),
    (c dst src i_src i_dst e).1.np = dst.np
    ∧ ∀ n, n ≠ i_dst → (c dst src i_src i_dst e).1.w n = dst.w n

/-- The frame of the momentum initialiser: it changes neither the number of
particles nor any weight of the product tile. -/
def KeepsWeights {R : Type} (m : MomentumInit R) : Prop :=
  ∀ (s1 s2 p : ParticleTile R) (i1 i2 start : Nat) (m1 m2 : R) (e : RandomEngine R),
    (m s1 s2 p i1 i2 start m1 m2 e).1.np = p.np
    ∧ (m s1 s2 p i1 i2 start m1 m2 e).1.w = p.w

/-- The frame conditions on the three external functors of a
`ParticleCreationFunc`. -/
def ParticleCreationFunc.ExternalsFramed {R : Type} (f : ParticleCreationFunc R) : Prop :=
  (∀ j, WritesOnlySlot (f.copy_species1 j))
  ∧ (∀ j, WritesOnlySlot (f.copy_species2 j))
  ∧ KeepsWeights f.ProtonBoronFusionInitializeMomentum

/-- Slot `n` of the product tile of species `j` is one of the slots written
for event `i`: `product_index` or `product_index + 1` for some product index
`k` below the number of products of species `j`. -/
def InBlock {R : Type} (f : ParticleCreationFunc R) (ev : PairEvents R)
    (i j n : Nat) : Prop :=
  ∃ k, k < f.m_num_products j
    ∧ (n = productIndex f ev i j k ∨ n = productIndex f ev i j k + 1)

instance InBlock.decidable {R : Type} (f : ParticleCreationFunc R) (ev : PairEvents R)
    (i j n : Nat) : Decidable (InBlock f ev i j n) := by
  unfold InBlock
  infer_instance

/-- A stand-in for a `SmartCopy` functor used to instantiate the theorems: every
component of the source particle is copied to the destination slot. -/
def copyFromParent {R : Type} : SmartCopy R :=
  fun dst src i_src i_dst e =>
    ({ np := dst.np
       w := Function.update dst.w i_dst (src.w i_src)
       u := Function.update dst.u i_dst (src.u i_src)
       pos := Function.update dst.pos i_dst (src.pos i_src)
       id := Function.update dst.id i_dst (src.id i_src) }, e)

/-- A stand-in for the momentum initialiser used to instantiate the theorems:
the product tile is returned as it is. -/
def keepMomentum {R : Type} : MomentumInit R :=
  fun _ _ p _ _ _ _ _ e => (p, e)

/-- A reaction with one product species and one product per event. -/
def oneProductFunc (R : Type) : ParticleCreationFunc R where
  m_num_product_species := 1
  m_num_products := fun _ => 1
  m_collision_type := CollisionType.Undefined
  copy_species1 := fun _ => copyFromParent
  copy_species2 := fun _ => copyFromParent
  ProtonBoronFusionInitializeMomentum := keepMomentum

/-- One firing event between particle 0 of each parent tile, with reaction
weight 1; the product tile holds no particle beforehand. -/
def oneEvent (R : Type) [LinearOrderedField R] : PairEvents R where
  n_total_pairs := 1
  p_mask := fun _ => 1
  products_np := fun _ => 0
  p_pair_indices_1 := fun _ => 0
  p_pair_indices_2 := fun _ => 0
  p_pair_reaction_weight := fun _ => 1

/-- An empty event list. -/
def noEvent (R : Type) [LinearOrderedField R] : PairEvents R where
  n_total_pairs := 0
  p_mask := fun _ => 0
  products_np := fun _ => 0
  p_pair_indices_1 := fun _ => 0
  p_pair_indices_2 := fun _ => 0
  p_pair_reaction_weight := fun _ => 0

/-- A tile of `n` particles at rest at the origin, each with weight `w0` and
identifier `id0`. -/
def uniformTile {R : Type} [LinearOrderedField R] (n : Nat) (w0 : R) (id0 : Int) :
    ParticleTile R where
  np := n
  w := fun _ => w0
  u := fun _ => ⟨0, 0, 0⟩
  pos := fun _ => ⟨0, 0, 0⟩
  id := fun _ => id0

/-- Two parent tiles of one particle of weight 1 each, and empty product
tiles. -/
def twoParents (R : Type) [LinearOrderedField R] : CreationState R where
  tile1 := uniformTile 1 1 1
  tile2 := uniformTile 1 1 2
  products := fun _ => uniformTile 0 0 0
  engine := halfEngine R

/-- A filter with constant cross-section 1, mass 1, maximum collision
frequency 1, and a uniform background density `n_a`. -/
def uniformFilter {R : Type} [LinearOrderedField R] (prob n_a : R) :
    ImpactIonizationFilterFunc R where
  m_mcc_process := fun _ => 1
  m_mass := 1
  m_total_collision_prob := prob
  m_nu_max := 1
  m_n_a_func := fun _ _ _ _ => n_a
  m_t := 0

/-- A tile of one particle of weight 1 at the origin with velocity `(1, 0, 0)`. -/
def movingTile (R : Type) [LinearOrderedField R] : ParticleTile R where
  np := 1
  w := fun _ => 1
  u := fun _ => ⟨1, 0, 0⟩
  pos := fun _ => ⟨0, 0, 0⟩
  id := fun _ => 1

/-- The engine whose first draw is `r0` and whose every later draw is `r1`. -/
def twoDrawEngine {R : Type} (r0 r1 : R) : RandomEngine R :=
  ⟨fun k => if k = 0 then r0 else r1, 0⟩

/-- One firing event between particle 0 of each parent tile, with reaction
weight `rw`; the product tile holds no particle beforehand. -/
def oneEventOfWeight {R : Type} [LinearOrderedField R] (rw : R) : PairEvents R where
  n_total_pairs := 1
  p_mask := fun _ => 1
  products_np := fun _ => 0
  p_pair_indices_1 := fun _ => 0
  p_pair_indices_2 := fun _ => 0
  p_pair_reaction_weight := fun _ => rw

/-- The draws examined by the retry loop of lines 144-150, in order: the draw
`r` made before the loop, then the draws the engine delivers. -/
def loopDraw {R : Type} (r : R) (engine : RandomEngine R) : Nat → R
  | 0 => r
  | k + 1 => engine.draws (engine.pos + k)

/-- Lines 170-246 with the right-hand sides of lines 252-254 and 263-265: the
velocities `p1f/m1` and `p2f/m2` that the rejection tests may assign, for the
deflection cosine `cosXs` and the azimuthal draw delivered by `engine`. -/
def candidateVelocities {R : Type} [LinearOrderedField R] (F : MathFns R)
    (P : PhysConst R) (cf : ComFrame R) (a : PairArgs R) (cosXs : R)
    (engine : RandomEngine R) : Vec3 R × Vec3 R :=
  let sinXs := F.sqrt (1 - cosXs * cosXs)
  let phis := (Random engine).1 * 2 * P.pi
  let p1fs := rotateCom F cf cosXs sinXs (F.cos phis) (F.sin phis)
  let pf := labFrame F cf a.m1 a.m2 p1fs
  (⟨pf.1.x / a.m1, pf.1.y / a.m1, pf.1.z / a.m1⟩,
   ⟨pf.2.x / a.m2, pf.2.y / a.m2, pf.2.z / a.m2⟩)

/-- Lines 182-204: the value of `p1sp` by which the rotation of lines 186-213
divides, in the branch that is taken. -/
def rotationDenominator {R : Type} [LinearOrderedField R] (F : MathFns R)
    (cf : ComFrame R) : R :=
  let p1sp := F.sqrt (cf.p1sx * cf.p1sx + cf.p1sy * cf.p1sy)
  if p1sp > F.numeric_limits_min then p1sp
  else F.sqrt (cf.p1sy * cf.p1sy + cf.p1sz * cf.p1sz)

/-- The scalar product of two vectors. -/
def Vec3.dot {R : Type} [LinearOrderedField R] (a b : Vec3 R) : R :=
  a.x * b.x + a.y * b.y + a.z * b.z

/-! ## `MCCScattering.H`: the impact-ionization transform -/

/-- The assignment of the three components `m_rdata[PIdx::ux..uz][i]`. -/
def ParticleTile.setU {R : Type} (t : ParticleTile R) (i : Nat) (v : Vec3 R) :
    ParticleTile R :=
  { t with u := Function.update t.u i v }

/-- The members of `ImpactIonizationTransformFunc`.  `m_T_a_func` stands for
the `ParserExecutor<4>` of the background temperature, which comes from
outside the file. -/
structure ImpactIonizationTransformFunc (R : Type) where
  m_energy_cost : R
  m_mass1 : R
  m_sqrt_kb_m : R
  m_T_a_func : R → R → R → R → R
  m_t : R

/-- The three tiles and the engine after a call of
`ImpactIonizationTransformFunc::operator()`. -/
structure IonizationState (R : Type) where
  dst1 : ParticleTile R
  dst2 : ParticleTile R
  src : ParticleTile R
  engine : RandomEngine R

/-- Lines 270-272: the kinetic energy `E_coll` of particle `i_src` of `src`. -/
def ImpactIonizationTransformFunc.E_coll {R : Type} [LinearOrderedField R]
    (f : ImpactIonizationTransformFunc R) (P : PhysConst R) (src : ParticleTile R)
    (i_src : Nat) : R :=
  let ux := (src.u i_src).x
  let uy := (src.u i_src).y
  let uz := (src.u i_src).z
  let v_coll2 := ux * ux + uy * uy + uz * uz
  0.5 * f.m_mass1 * v_coll2 / P.q_e

/-- Lines 274-280: the speed `vp` given to each of the two electrons. -/
def ImpactIonizationTransformFunc.vp {R : Type} [LinearOrderedField R]
    (f : ImpactIonizationTransformFunc R) (F : MathFns R) (P : PhysConst R)
    (src : ParticleTile R) (i_src : Nat) : R :=
  -- get the left over energy
  let E_remaining := f.E_coll P src i_src - f.m_energy_cost
  -- each electron gets half the energy
  F.sqrt (2.0 / f.m_mass1 * P.q_e * E_remaining / 2.0)

/-- `ImpactIonizationTransformFunc::operator()` (MCCScattering.H, lines
241-290).  `ParticleUtils::RandomizeVelocity` and `amrex::RandomNormal` come
from outside the file and are passed as parameters; each returns its value
and the engine after its draws.  The three tiles are distinct objects. -/
def ImpactIonizationTransformFunc.call {R : Type} [LinearOrderedField R] (F : MathFns R)
    (P : PhysConst R)
    (RandomizeVelocity : Vec3 R → R → RandomEngine R → Vec3 R × RandomEngine R)
    (RandomNormal : R → R → RandomEngine R → R × RandomEngine R)
    (f : ImpactIonizationTransformFunc R) (dst1 dst2 src : ParticleTile R)
    (i_src i_dst1 i_dst2 : Nat) (engine : RandomEngine R) : IonizationState R :=
  -- get references to the particle to get its position
  let x := (src.pos i_src).x
  let y := (src.pos i_src).y
  let z := (src.pos i_src).z
  -- calculate standard deviation in neutral velocity distribution
  let ion_vel_std := f.m_sqrt_kb_m * F.sqrt (f.m_T_a_func x y z f.m_t)
  let vp := f.vp F P src i_src
  -- isotropically scatter electrons
  let s := RandomizeVelocity (src.u i_src) vp engine
  let e := RandomizeVelocity (dst1.u i_dst1) vp s.2
  -- get velocities for the ion from a Maxwellian distribution
  let n1 := RandomNormal 0 1.0 e.2
  let n2 := RandomNormal 0 1.0 n1.2
  let n3 := RandomNormal 0 1.0 n2.2
  { dst1 := dst1.setU i_dst1 e.1
    dst2 := dst2.setU i_dst2 ⟨ion_vel_std * n1.1, ion_vel_std * n2.1, ion_vel_std * n3.1⟩
    src := src.setU i_src s.1
    engine := n3.2 }

/-- A stand-in for `amrex::RandomNormal` used to instantiate the theorems: it
consumes one draw and returns the mean. -/
def meanRandomNormal {R : Type} (mean _stddev : R) (engine : RandomEngine R) :
    R × RandomEngine R :=
  (mean, (Random engine).2)

/-- A transform functor with mass 1, no energy cost and a uniform background
temperature of 1. -/
def unitTransform (R : Type) [LinearOrderedField R] : ImpactIonizationTransformFunc R where
  m_energy_cost := 0
  m_mass1 := 1
  m_sqrt_kb_m := 1
  m_T_a_func := fun _ _ _ _ => 1
  m_t := 0

/-- Two engine states deliver the same sequence of values from now on: the
`k`-th next draw of one equals the `k`-th next draw of the other, for every
`k`. -/
def SameDraws {R : Type} (e1 e2 : RandomEngine R) : Prop :=
  ∀ k, e1.draws (e1.pos + k) = e2.draws (e2.pos + k)

/-- Two results of a sampling step agree: both ran out of fuel, or both
returned the same value and engines that deliver the same draws. -/
def SameOutcome {R A : Type} (o1 o2 : Option (A × RandomEngine R)) : Prop :=
  (o1 = none ∧ o2 = none)
    ∨ ∃ a e1 e2, o1 = some (a, e1) ∧ o2 = some (a, e2) ∧ SameDraws e1 e2

/-- Lines 154-156: the fitted coefficient `Ainv` of the regime
`0.1 < s <= 3.0`. -/
def sampleCosXs_Ainv {R : Type} [LinearOrderedField R] (s : R) : R :=
  0.0056958 + 0.9560202 * s - 0.508139 * s * s +
    0.47913906 * s * s * s - 0.12788975 * s * s * s * s + 0.02389567 * s * s * s * s * s

/-- Line 162: the fitted coefficient `A` of the regime `3.0 < s <= 6.0`. -/
def sampleCosXs_A {R : Type} [LinearOrderedField R] (F : MathFns R) (s : R) : R :=
  3.0 * F.exp (-s)

/-- A pair of arguments with every scalar equal to one except the two masses,
which are `2^(-1030)`. -/
def tinyMassArgs (R : Type) [LinearOrderedField R] : PairArgs R where
  n1 := 1
  n2 := 1
  n12 := 1
  q1 := 1
  m1 := 1 / 2 ^ 1030
  w1 := 1
  q2 := 1
  m2 := 1 / 2 ^ 1030
  w2 := 1
  dt := 1
  L := 1
  lmdD := 1

section Scattering

variable {R : Type} [LinearOrderedField R]

/-- C2. `ElasticScattering` preserves the magnitude of the COM-frame velocity:
for every velocity `u`, COM velocity `uCOM` and engine state,
`|u' - uCOM| = |u - uCOM|`, provided `RandomizeVelocity` returns a vector of
exactly the magnitude passed to it (and the square root is non-negative, so
that this magnitude is one a vector can have). -/
theorem ElasticScattering_preserves_com_speed (F : MathFns R)
    (RandomizeVelocity : Vec3 R → R → RandomEngine R → Vec3 R × RandomEngine R)
    (u uCOM : Vec3 R) (engine : RandomEngine R)
    (hsqrt : ∀ x : R, 0 ≤ F.sqrt x)
    (hrv : ∀ (v : Vec3 R) (mag : R) (e : RandomEngine R), 0 ≤ mag →
      Vec3.mag F (RandomizeVelocity v mag e).1 = mag) :
    Vec3.mag F ((ElasticScattering F RandomizeVelocity u uCOM engine).1.sub uCOM)
      = Vec3.mag F (u.sub uCOM) := by
  have h := hrv ⟨u.x - uCOM.x, u.y - uCOM.y, u.z - uCOM.z⟩
    (F.sqrt ((u.x - uCOM.x) * (u.x - uCOM.x) + (u.y - uCOM.y) * (u.y - uCOM.y)
      + (u.z - uCOM.z) * (u.z - uCOM.z))) engine (hsqrt _)
  simp only [Vec3.mag, Vec3.normSq, Vec3.sub, ElasticScattering, add_sub_cancel_right] at h ⊢
  exact h

/-- Witness for C2 over the reals: the velocity `(1, 2, 3)` scattered about
the COM velocity `(1, 0, 0)` with the stand-in `axisRandomizeVelocity`. -/
theorem ElasticScattering_preserves_com_speed_witness :
    Vec3.mag realFns
        ((ElasticScattering realFns axisRandomizeVelocity ⟨1, 2, 3⟩ ⟨1, 0, 0⟩
          ⟨fun _ => 0, 0⟩).1.sub ⟨1, 0, 0⟩)
      = Vec3.mag realFns ((⟨1, 2, 3⟩ : Vec3 ℝ).sub ⟨1, 0, 0⟩) :=
  ElasticScattering_preserves_com_speed realFns axisRandomizeVelocity ⟨1, 2, 3⟩ ⟨1, 0, 0⟩
    ⟨fun _ => 0, 0⟩ (fun x => Real.sqrt_nonneg x)
    (fun _ mag _ hmag => by
      simp only [Vec3.mag, Vec3.normSq, axisRandomizeVelocity, realFns, mul_zero, add_zero]
      exact Real.sqrt_mul_self hmag)

/-- C3. `BackScattering` applied twice with the same COM velocity returns the
original velocity. -/
theorem BackScattering_involutive (u uCOM : Vec3 R) :
    BackScattering (BackScattering u uCOM) uCOM = u := by
  cases u
  simp only [BackScattering, Vec3.mk.injEq]
  refine ⟨?_, ?_, ?_⟩ <;> ring

/-- C4. `BackScattering` reverses the velocity about the COM velocity: the
result `u'` satisfies `u' - uCOM = -(u - uCOM)`, that is `u' = 2*uCOM - u`
in each component; hence the squared COM-frame speed, and with it the
COM-frame speed under any square-root function, is unchanged.  The function
has no engine argument: its result is determined by `u` and `uCOM` alone. -/
theorem BackScattering_reverses_about_com (F : MathFns R) (u uCOM : Vec3 R) :
    (BackScattering u uCOM).sub uCOM = ⟨-(u.x - uCOM.x), -(u.y - uCOM.y), -(u.z - uCOM.z)⟩
    ∧ BackScattering u uCOM = ⟨2 * uCOM.x - u.x, 2 * uCOM.y - u.y, 2 * uCOM.z - u.z⟩
    ∧ ((BackScattering u uCOM).sub uCOM).normSq = (u.sub uCOM).normSq
    ∧ Vec3.mag F ((BackScattering u uCOM).sub uCOM) = Vec3.mag F (u.sub uCOM) := by
  have hn : ((BackScattering u uCOM).sub uCOM).normSq = (u.sub uCOM).normSq := by
    simp only [BackScattering, Vec3.sub, Vec3.normSq]
    ring
  refine ⟨?_, ?_, hn, ?_⟩
  · simp only [BackScattering, Vec3.sub, Vec3.mk.injEq]
    refine ⟨?_, ?_, ?_⟩ <;> ring
  · simp only [BackScattering, Vec3.mk.injEq]
    refine ⟨?_, ?_, ?_⟩ <;> ring
  · simp only [Vec3.mag, hn]

/-- C5. `ChargeExchange` sets the velocity to the neutral velocity `ua`,
whatever the prior ion velocity was; applying it twice with the same `ua` is
the same as applying it once. -/
theorem ChargeExchange_sets_neutral_velocity {S : Type} (u v ua : Vec3 S) :
    ChargeExchange u ua = ua
    ∧ ChargeExchange u ua = ChargeExchange v ua
    ∧ ChargeExchange (ChargeExchange u ua) ua = ChargeExchange u ua := by
  refine ⟨?_, ?_, ?_⟩ <;> rfl

end Scattering

/-! ## Theorems: momentum in `UpdateMomentumPerezElastic` -/

section Perez

variable {R : Type} [LinearOrderedField R]

theorem labFrame_sum_boost (F : MathFns R) (cf : ComFrame R) (m1 m2 : R) (p : Vec3 R)
    (h : cf.vcms > F.numeric_limits_min) :
    (labFrame F cf m1 m2 p).1.x + (labFrame F cf m1 m2 p).2.x
        = cf.vcx * ((m1 * cf.g1s + m2 * cf.g2s) * cf.gc)
    ∧ (labFrame F cf m1 m2 p).1.y + (labFrame F cf m1 m2 p).2.y
        = cf.vcy * ((m1 * cf.g1s + m2 * cf.g2s) * cf.gc)
    ∧ (labFrame F cf m1 m2 p).1.z + (labFrame F cf m1 m2 p).2.z
        = cf.vcz * ((m1 * cf.g1s + m2 * cf.g2s) * cf.gc) := by
  simp only [labFrame, h, if_true]
  refine ⟨?_, ?_, ?_⟩ <;> ring

theorem labFrame_sum_rest (F : MathFns R) (cf : ComFrame R) (m1 m2 : R) (p : Vec3 R)
    (h : ¬ cf.vcms > F.numeric_limits_min) :
    (labFrame F cf m1 m2 p).1.x + (labFrame F cf m1 m2 p).2.x = 0
    ∧ (labFrame F cf m1 m2 p).1.y + (labFrame F cf m1 m2 p).2.y = 0
    ∧ (labFrame F cf m1 m2 p).1.z + (labFrame F cf m1 m2 p).2.z = 0 := by
  simp only [labFrame, h, if_false]
  refine ⟨?_, ?_, ?_⟩ <;> ring

theorem com_boost_algebra (ic m1 m2 g1 g2 M vx vy vz vcms gc d1 d2
    u1x u1y u1z u2x u2y u2z : R)
    (hM : M = m1 * g1 + m2 * g2)
    (hvx : vx * M = u1x * m1 + u2x * m2)
    (hvy : vy * M = u1y * m1 + u2y * m2)
    (hvz : vz * M = u1z * m1 + u2z * m2)
    (hvcms : vcms = vx * vx + vy * vy + vz * vz)
    (hd1 : d1 * g1 = vx * u1x + vy * u1y + vz * u1z)
    (hd2 : d2 * g2 = vx * u2x + vy * u2y + vz * u2z)
    (hgc : gc * gc * (1 - vcms * ic) = 1) (w W : R) (hw : w * M = W) :
    w * ((m1 * ((1 - d1 * ic) * gc * g1) + m2 * ((1 - d2 * ic) * gc * g2)) * gc) = W := by
  have hK : m1 * ((1 - d1 * ic) * gc * g1) + m2 * ((1 - d2 * ic) * gc * g2)
      = gc * M * (1 - vcms * ic) := by
    have e1 : m1 * ((1 - d1 * ic) * gc * g1) + m2 * ((1 - d2 * ic) * gc * g2)
        = gc * ((m1 * g1 + m2 * g2) - ic * (m1 * (d1 * g1) + m2 * (d2 * g2))) := by ring
    have e2 : m1 * (vx * u1x + vy * u1y + vz * u1z) + m2 * (vx * u2x + vy * u2y + vz * u2z)
        = vx * (u1x * m1 + u2x * m2) + vy * (u1y * m1 + u2y * m2)
          + vz * (u1z * m1 + u2z * m2) := by ring
    rw [e1, hd1, hd2, e2, ← hvx, ← hvy, ← hvz, ← hM, hvcms]
    ring
  rw [hK, ← hw]
  calc w * (gc * M * (1 - vcms * ic) * gc) = w * M * (gc * gc * (1 - vcms * ic)) := by ring
    _ = w * M := by rw [hgc, mul_one]

theorem subluminal_algebra (ic m1 m2 g1 g2 M vx vy vz
    u1x u1y u1z u2x u2y u2z : R)
    (hic : 0 < ic) (hm1 : 0 < m1) (hm2 : 0 < m2)
    (hg1 : 0 ≤ g1) (hg2 : 0 ≤ g2)
    (hg1s : g1 * g1 = 1 + (u1x * u1x + u1y * u1y + u1z * u1z) * ic)
    (hg2s : g2 * g2 = 1 + (u2x * u2x + u2y * u2y + u2z * u2z) * ic)
    (hM : M = m1 * g1 + m2 * g2)
    (hvx : vx * M = u1x * m1 + u2x * m2)
    (hvy : vy * M = u1y * m1 + u2y * m2)
    (hvz : vz * M = u1z * m1 + u2z * m2) :
    0 < 1 - (vx * vx + vy * vy + vz * vz) * ic := by
  have hcs : (u1x * u2x + u1y * u2y + u1z * u2z) ^ 2
      ≤ (u1x * u1x + u1y * u1y + u1z * u1z) * (u2x * u2x + u2y * u2y + u2z * u2z) := by
    nlinarith [sq_nonneg (u1x * u2y - u1y * u2x), sq_nonneg (u1x * u2z - u1z * u2x),
      sq_nonneg (u1y * u2z - u1z * u2y)]
  have hU1 : 0 ≤ u1x * u1x + u1y * u1y + u1z * u1z :=
    add_nonneg (add_nonneg (mul_self_nonneg _) (mul_self_nonneg _)) (mul_self_nonneg _)
  have hU2 : 0 ≤ u2x * u2x + u2y * u2y + u2z * u2z :=
    add_nonneg (add_nonneg (mul_self_nonneg _) (mul_self_nonneg _)) (mul_self_nonneg _)
  have hgg : 0 ≤ g1 * g2 := mul_nonneg hg1 hg2
  have hggs : (g1 * g2) ^ 2 = (1 + (u1x * u1x + u1y * u1y + u1z * u1z) * ic)
      * (1 + (u2x * u2x + u2y * u2y + u2z * u2z) * ic) := by
    rw [← hg1s, ← hg2s]; ring
  have hdot : ic * (u1x * u2x + u1y * u2y + u1z * u2z) ≤ g1 * g2 := by
    by_contra hlt
    push_neg at hlt
    have h1 : (g1 * g2) ^ 2 < (ic * (u1x * u2x + u1y * u2y + u1z * u2z)) ^ 2 := by
      rw [sq, sq]
      exact mul_self_lt_mul_self hgg hlt
    have h2 : (ic * (u1x * u2x + u1y * u2y + u1z * u2z)) ^ 2
        ≤ ic ^ 2 * ((u1x * u1x + u1y * u1y + u1z * u1z)
          * (u2x * u2x + u2y * u2y + u2z * u2z)) := by
      rw [mul_pow]
      exact mul_le_mul_of_nonneg_left hcs (by positivity)
    have h3 : 0 ≤ (u1x * u1x + u1y * u1y + u1z * u1z) * ic := mul_nonneg hU1 hic.le
    have h4 : 0 ≤ (u2x * u2x + u2y * u2y + u2z * u2z) * ic := mul_nonneg hU2 hic.le
    rw [hggs] at h1
    have h5 : (1 + (u1x * u1x + u1y * u1y + u1z * u1z) * ic)
        * (1 + (u2x * u2x + u2y * u2y + u2z * u2z) * ic)
        = 1 + (u1x * u1x + u1y * u1y + u1z * u1z) * ic
          + (u2x * u2x + u2y * u2y + u2z * u2z) * ic
          + ic ^ 2 * ((u1x * u1x + u1y * u1y + u1z * u1z)
            * (u2x * u2x + u2y * u2y + u2z * u2z)) := by ring
    rw [h5] at h1
    linarith
  have hMpos : 0 < M := by
    have h1 : 0 < g1 := by
      rcases hg1.lt_or_eq with h | h
      · exact h
      · exfalso
        rw [← h] at hg1s
        have := mul_nonneg hU1 hic.le
        linarith
    rw [hM]
    have := mul_pos hm1 h1
    have := mul_nonneg hm2.le hg2
    linarith
  have hkey : M * M * (1 - (vx * vx + vy * vy + vz * vz) * ic)
      = m1 * m1 + m2 * m2
        + 2 * m1 * m2 * (g1 * g2 - ic * (u1x * u2x + u1y * u2y + u1z * u2z)) := by
    have e : M * M * (1 - (vx * vx + vy * vy + vz * vz) * ic)
        = M * M - ic * ((vx * M) * (vx * M) + (vy * M) * (vy * M) + (vz * M) * (vz * M)) := by
      ring
    rw [e, hvx, hvy, hvz, hM]
    linear_combination (m1 * m1) * hg1s + (m2 * m2) * hg2s
  have hpos : 0 < M * M * (1 - (vx * vx + vy * vy + vz * vz) * ic) := by
    rw [hkey]
    have h1 := mul_nonneg (mul_nonneg (mul_nonneg zero_le_two hm1.le) hm2.le)
      (sub_nonneg.mpr hdot)
    have h2 := mul_pos hm1 hm1
    have h3 := mul_pos hm2 hm2
    linarith
  exact (pos_iff_pos_of_mul_pos hpos).mp (mul_pos hMpos hMpos)

theorem comFrame_total_momentum (F : MathFns R) (P : PhysConst R) (u1 u2 : Vec3 R)
    (m1 m2 : R) (hs : SqrtExact F) (hc : 0 < P.c) (hm1 : 0 < m1) (hm2 : 0 < m2) :
    (comFrame F P u1 u2 m1 m2).vcx * ((m1 * (comFrame F P u1 u2 m1 m2).g1s
        + m2 * (comFrame F P u1 u2 m1 m2).g2s) * (comFrame F P u1 u2 m1 m2).gc)
      = m1 * u1.x + m2 * u2.x
    ∧ (comFrame F P u1 u2 m1 m2).vcy * ((m1 * (comFrame F P u1 u2 m1 m2).g1s
        + m2 * (comFrame F P u1 u2 m1 m2).g2s) * (comFrame F P u1 u2 m1 m2).gc)
      = m1 * u1.y + m2 * u2.y
    ∧ (comFrame F P u1 u2 m1 m2).vcz * ((m1 * (comFrame F P u1 u2 m1 m2).g1s
        + m2 * (comFrame F P u1 u2 m1 m2).g2s) * (comFrame F P u1 u2 m1 m2).gc)
      = m1 * u1.z + m2 * u2.z := by
  have hic : 0 < inv_c2 P := by
    unfold inv_c2
    exact one_div_pos.mpr (mul_pos hc hc)
  have hU1 : 0 ≤ u1.x * u1.x + u1.y * u1.y + u1.z * u1.z :=
    add_nonneg (add_nonneg (mul_self_nonneg _) (mul_self_nonneg _)) (mul_self_nonneg _)
  have hU2 : 0 ≤ u2.x * u2.x + u2.y * u2.y + u2.z * u2.z :=
    add_nonneg (add_nonneg (mul_self_nonneg _) (mul_self_nonneg _)) (mul_self_nonneg _)
  have hA1 : (1 : R) ≤ 1 + (u1.x * u1.x + u1.y * u1.y + u1.z * u1.z) * inv_c2 P :=
    le_add_of_nonneg_right (mul_nonneg hU1 hic.le)
  have hA2 : (1 : R) ≤ 1 + (u2.x * u2.x + u2.y * u2.y + u2.z * u2.z) * inv_c2 P :=
    le_add_of_nonneg_right (mul_nonneg hU2 hic.le)
  obtain ⟨hg1, hg1s⟩ := hs _ (zero_le_one.trans hA1)
  obtain ⟨hg2, hg2s⟩ := hs _ (zero_le_one.trans hA2)
  have hg1p : 0 < (comFrame F P u1 u2 m1 m2).g1 := by
    rcases hg1.lt_or_eq with h | h
    · exact h
    · exfalso
      rw [← h, mul_zero] at hg1s
      linarith
  have hg2p : 0 < (comFrame F P u1 u2 m1 m2).g2 := by
    rcases hg2.lt_or_eq with h | h
    · exact h
    · exfalso
      rw [← h, mul_zero] at hg2s
      linarith
  have hMp : 0 < (comFrame F P u1 u2 m1 m2).mass_g :=
    add_pos (mul_pos hm1 hg1p) (mul_pos hm2 hg2p)
  have hvx : (comFrame F P u1 u2 m1 m2).vcx * (comFrame F P u1 u2 m1 m2).mass_g
      = u1.x * m1 + u2.x * m2 := div_mul_cancel₀ _ hMp.ne'
  have hvy : (comFrame F P u1 u2 m1 m2).vcy * (comFrame F P u1 u2 m1 m2).mass_g
      = u1.y * m1 + u2.y * m2 := div_mul_cancel₀ _ hMp.ne'
  have hvz : (comFrame F P u1 u2 m1 m2).vcz * (comFrame F P u1 u2 m1 m2).mass_g
      = u1.z * m1 + u2.z * m2 := div_mul_cancel₀ _ hMp.ne'
  have hd1 : (comFrame F P u1 u2 m1 m2).vcDv1 * (comFrame F P u1 u2 m1 m2).g1
      = (comFrame F P u1 u2 m1 m2).vcx * u1.x + (comFrame F P u1 u2 m1 m2).vcy * u1.y
        + (comFrame F P u1 u2 m1 m2).vcz * u1.z := div_mul_cancel₀ _ hg1p.ne'
  have hd2 : (comFrame F P u1 u2 m1 m2).vcDv2 * (comFrame F P u1 u2 m1 m2).g2
      = (comFrame F P u1 u2 m1 m2).vcx * u2.x + (comFrame F P u1 u2 m1 m2).vcy * u2.y
        + (comFrame F P u1 u2 m1 m2).vcz * u2.z := div_mul_cancel₀ _ hg2p.ne'
  have hD : 0 < 1 - (comFrame F P u1 u2 m1 m2).vcms * inv_c2 P :=
    subluminal_algebra (inv_c2 P) m1 m2 _ _ _ _ _ _ u1.x u1.y u1.z u2.x u2.y u2.z
      hic hm1 hm2 hg1 hg2 hg1s hg2s rfl hvx hvy hvz
  obtain ⟨hsD, hsDs⟩ := hs _ hD.le
  have hsDne : F.sqrt (1 - (comFrame F P u1 u2 m1 m2).vcms * inv_c2 P) ≠ 0 := by
    intro h0
    rw [h0, mul_zero] at hsDs
    exact hD.ne hsDs
  have hgc : (comFrame F P u1 u2 m1 m2).gc * (comFrame F P u1 u2 m1 m2).gc
      * (1 - (comFrame F P u1 u2 m1 m2).vcms * inv_c2 P) = 1 := by
    have e : (comFrame F P u1 u2 m1 m2).gc
        = 1 / F.sqrt (1 - (comFrame F P u1 u2 m1 m2).vcms * inv_c2 P) := rfl
    rw [e]
    nth_rewrite 3 [← hsDs]
    field_simp
  refine ⟨?_, ?_, ?_⟩
  · exact com_boost_algebra (inv_c2 P) m1 m2 _ _ _ _ _ _ _ _ _ _ u1.x u1.y u1.z u2.x u2.y u2.z
      rfl hvx hvy hvz rfl hd1 hd2 hgc _ _ (hvx.trans (by ring))
  · exact com_boost_algebra (inv_c2 P) m1 m2 _ _ _ _ _ _ _ _ _ _ u1.x u1.y u1.z u2.x u2.y u2.z
      rfl hvx hvy hvz rfl hd1 hd2 hgc _ _ (hvy.trans (by ring))
  · exact com_boost_algebra (inv_c2 P) m1 m2 _ _ _ _ _ _ _ _ _ _ u1.x u1.y u1.z u2.x u2.y u2.z
      rfl hvx hvy hvz rfl hd1 hd2 hgc _ _ (hvz.trans (by ring))

theorem vcms_zero_components (F : MathFns R) (P : PhysConst R) (u1 u2 : Vec3 R) (m1 m2 : R)
    (h : (comFrame F P u1 u2 m1 m2).vcms = 0) :
    (comFrame F P u1 u2 m1 m2).vcx = 0 ∧ (comFrame F P u1 u2 m1 m2).vcy = 0
      ∧ (comFrame F P u1 u2 m1 m2).vcz = 0 := by
  have e : (comFrame F P u1 u2 m1 m2).vcms
      = (comFrame F P u1 u2 m1 m2).vcx * (comFrame F P u1 u2 m1 m2).vcx
        + (comFrame F P u1 u2 m1 m2).vcy * (comFrame F P u1 u2 m1 m2).vcy
        + (comFrame F P u1 u2 m1 m2).vcz * (comFrame F P u1 u2 m1 m2).vcz := rfl
  rw [e] at h
  have hx := mul_self_nonneg (comFrame F P u1 u2 m1 m2).vcx
  have hy := mul_self_nonneg (comFrame F P u1 u2 m1 m2).vcy
  have hz := mul_self_nonneg (comFrame F P u1 u2 m1 m2).vcz
  refine ⟨mul_self_eq_zero.mp ?_, mul_self_eq_zero.mp ?_, mul_self_eq_zero.mp ?_⟩ <;> linarith

end Perez

theorem realFns_sqrtExact : SqrtExact realFns := fun x hx =>
  ⟨Real.sqrt_nonneg x, Real.mul_self_sqrt hx⟩

theorem sampleCosXs_half (s : ℝ) (k : ℕ) :
    ∃ c, sampleCosXs realFns s 1 (1 / 2) ⟨fun _ => 1 / 2, k⟩
      = some (c, ⟨fun _ => 1 / 2, k⟩) := by
  unfold sampleCosXs
  split_ifs with h1 h2 h3
  · have hl0 : Real.log (1 / 2) ≤ 0 := Real.log_nonpos (by norm_num) (by norm_num)
    have hl1 : -1 ≤ Real.log (1 / 2) := by
      have h := Real.log_le_sub_one_of_pos (show (0 : ℝ) < 2 by norm_num)
      rw [one_div, Real.log_inv]
      linarith
    have hc : 1 + s * realFns.log (1 / 2) ≥ -1 := by
      show 1 + s * Real.log (1 / 2) ≥ -1
      norm_num at h1
      rcases le_or_lt 0 s with hs | hs
      · nlinarith
      · nlinarith
    refine ⟨1 + s * realFns.log (1 / 2), ?_⟩
    simp only [smallAngleLoop, hc, if_true]
  · exact ⟨_, rfl⟩
  · exact ⟨_, rfl⟩
  · exact ⟨_, rfl⟩

theorem noRelativeMotion_unit :
    noRelativeMotion realFns ⟨1, 0, 0⟩ ⟨0, 0, 0⟩ = false := by
  simp only [noRelativeMotion, realFns, sub_zero, abs_zero, abs_one, mul_zero, add_zero,
    mul_one, Real.sqrt_one, Real.sqrt_zero, div_one]
  norm_num

theorem vcms_unit_above_threshold :
    realFns.numeric_limits_min
      < (comFrame realFns (siConst ℝ) ⟨1, 0, 0⟩ ⟨0, 0, 0⟩ 1 1).vcms := by
  simp only [comFrame, realFns, mul_zero, zero_mul, add_zero, mul_one, one_mul,
    zero_div, Real.sqrt_one]
  have hic : inv_c2 (siConst ℝ) ≤ 1 := by
    simp only [inv_c2, siConst]
    norm_num
  have hg : Real.sqrt (1 + inv_c2 (siConst ℝ)) ≤ 2 := by
    rw [Real.sqrt_le_iff]
    constructor
    · norm_num
    · linarith
  have hg0 : 0 ≤ Real.sqrt (1 + inv_c2 (siConst ℝ)) := Real.sqrt_nonneg _
  have h3 : (1 : ℝ) / 3 ≤ 1 / (Real.sqrt (1 + inv_c2 (siConst ℝ)) + 1) := by
    apply one_div_le_one_div_of_le
    · linarith
    · linarith
  calc (1 : ℝ) / 2 ^ 1022 < 1 / 3 * (1 / 3) := by norm_num
    _ ≤ _ := mul_le_mul h3 h3 (by norm_num) (le_trans (by norm_num) h3)

/-! ## Theorems: `ParticleCreationFunc::operator()` -/

section Creation

variable {R : Type} [LinearOrderedField R]

theorem productBody_frame (f : ParticleCreationFunc R) (ev : PairEvents R)
    (soa_1 soa_2 : ParticleTile R) (i j k : Nat) (s : ParticleTile R × RandomEngine R)
    (hf : f.ExternalsFramed) :
    (productBody f ev soa_1 soa_2 i j k s).1.np = s.1.np
    ∧ ∀ n, (productBody f ev soa_1 soa_2 i j k s).1.w n
        = if n = productIndex f ev i j k ∨ n = productIndex f ev i j k + 1
          then ev.p_pair_reaction_weight i / 2 else s.1.w n := by
  obtain ⟨h1, h2, _⟩ := hf
  have c1 := h1 j s.1 soa_1 (ev.p_pair_indices_1 i) (productIndex f ev i j k) s.2
  have c2 := h2 j (f.copy_species1 j s.1 soa_1 (ev.p_pair_indices_1 i)
    (productIndex f ev i j k) s.2).1 soa_2 (ev.p_pair_indices_2 i)
    (productIndex f ev i j k + 1)
    (f.copy_species1 j s.1 soa_1 (ev.p_pair_indices_1 i) (productIndex f ev i j k) s.2).2
  constructor
  · show (f.copy_species2 j _ soa_2 _ _ _).1.np = s.1.np
    exact c2.1.trans c1.1
  · intro n
    show Function.update (Function.update (f.copy_species2 j _ soa_2 _ _ _).1.w
        (productIndex f ev i j k) _) (productIndex f ev i j k + 1) _ n = _
    by_cases hb : n = productIndex f ev i j k + 1
    · subst hb
      simp only [Function.update_same, or_true, if_true]
    · by_cases ha : n = productIndex f ev i j k
      · subst ha
        simp only [Function.update_noteq hb, Function.update_same, true_or, if_true]
      · simp only [Function.update_noteq hb, Function.update_noteq ha, ha, hb, or_self,
          if_false]
        exact (c2.2 n hb).trans (c1.2 n ha)

theorem productLoop_frame (f : ParticleCreationFunc R) (ev : PairEvents R)
    (soa_1 soa_2 : ParticleTile R) (i j : Nat) (s : ParticleTile R × RandomEngine R)
    (hf : f.ExternalsFramed) (K : Nat) :
    (forLoop (productBody f ev soa_1 soa_2 i j) K s).1.np = s.1.np
    ∧ ∀ n, (forLoop (productBody f ev soa_1 soa_2 i j) K s).1.w n
        = if ∃ k, k < K ∧ (n = productIndex f ev i j k ∨ n = productIndex f ev i j k + 1)
          then ev.p_pair_reaction_weight i / 2 else s.1.w n := by
  induction K with
  | zero =>
    refine ⟨rfl, fun n => ?_⟩
    have : ¬ ∃ k, k < 0 ∧ (n = productIndex f ev i j k ∨ n = productIndex f ev i j k + 1) := by
      rintro ⟨k, hk, _⟩
      exact Nat.not_lt_zero k hk
    rw [if_neg this]
    rfl
  | succ K ih =>
    obtain ⟨b1, b2⟩ := productBody_frame f ev soa_1 soa_2 i j K
      (forLoop (productBody f ev soa_1 soa_2 i j) K s) hf
    refine ⟨b1.trans ih.1, fun n => ?_⟩
    show (productBody f ev soa_1 soa_2 i j K
      (forLoop (productBody f ev soa_1 soa_2 i j) K s)).1.w n = _
    rw [b2 n, ih.2 n]
    by_cases hK : n = productIndex f ev i j K ∨ n = productIndex f ev i j K + 1
    · rw [if_pos hK, if_pos ⟨K, Nat.lt_succ_self K, hK⟩]
    · rw [if_neg hK]
      by_cases hE : ∃ k, k < K ∧ (n = productIndex f ev i j k ∨ n = productIndex f ev i j k + 1)
      · obtain ⟨k, hk, hn⟩ := hE
        rw [if_pos ⟨k, hk, hn⟩, if_pos ⟨k, Nat.lt_succ_of_lt hk, hn⟩]
      · rw [if_neg hE, if_neg]
        rintro ⟨k, hk, hn⟩
        rcases Nat.lt_succ_iff_lt_or_eq.mp hk with h | h
        · exact hE ⟨k, h, hn⟩
        · subst h
          exact hK hn

theorem speciesLoop_parents (f : ParticleCreationFunc R) (ev : PairEvents R) (i : Nat)
    (st : CreationState R) (J : Nat) :
    (forLoop (speciesBody f ev i) J st).tile1 = st.tile1
    ∧ (forLoop (speciesBody f ev i) J st).tile2 = st.tile2 := by
  induction J with
  | zero => exact ⟨rfl, rfl⟩
  | succ J ih => exact ih

theorem speciesLoop_frame (f : ParticleCreationFunc R) (ev : PairEvents R) (i : Nat)
    (st : CreationState R) (hf : f.ExternalsFramed) (J : Nat) (j : Nat) :
    ((forLoop (speciesBody f ev i) J st).products j).np = (st.products j).np
    ∧ ∀ n, ((forLoop (speciesBody f ev i) J st).products j).w n
        = if j < J ∧ InBlock f ev i j n
          then ev.p_pair_reaction_weight i / 2 else (st.products j).w n := by
  induction J with
  | zero =>
    refine ⟨rfl, fun n => ?_⟩
    rw [if_neg (fun h => Nat.not_lt_zero j h.1)]
    rfl
  | succ J ih =>
    by_cases hj : j = J
    · subst hj
      obtain ⟨l1, l2⟩ := productLoop_frame f ev
        (forLoop (speciesBody f ev i) j st).tile1 (forLoop (speciesBody f ev i) j st).tile2 i j
        ((forLoop (speciesBody f ev i) j st).products j,
          (forLoop (speciesBody f ev i) j st).engine) hf (f.m_num_products j)
      constructor
      · show ((speciesBody f ev i j (forLoop (speciesBody f ev i) j st)).products j).np = _
        simp only [speciesBody, Function.update_same]
        exact l1.trans ih.1
      · intro n
        show ((speciesBody f ev i j (forLoop (speciesBody f ev i) j st)).products j).w n = _
        simp only [speciesBody, Function.update_same]
        rw [l2 n]
        show (if InBlock f ev i j n then _ else _) = _
        by_cases hB : InBlock f ev i j n
        · rw [if_pos hB, if_pos ⟨Nat.lt_succ_self j, hB⟩]
        · rw [if_neg hB, if_neg (fun h => hB h.2), ih.2 n,
            if_neg (fun h => Nat.lt_irrefl j h.1)]
    · constructor
      · show ((speciesBody f ev i J (forLoop (speciesBody f ev i) J st)).products j).np = _
        simp only [speciesBody, Function.update_noteq hj]
        exact ih.1
      · intro n
        show ((speciesBody f ev i J (forLoop (speciesBody f ev i) J st)).products j).w n = _
        simp only [speciesBody, Function.update_noteq hj]
        rw [ih.2 n]
        have hiff : (j < J + 1 ∧ InBlock f ev i j n) ↔ (j < J ∧ InBlock f ev i j n) := by
          constructor
          · rintro ⟨h1, h2⟩
            exact ⟨lt_of_le_of_ne (Nat.lt_succ_iff.mp h1) hj, h2⟩
          · rintro ⟨h1, h2⟩
            exact ⟨Nat.lt_succ_of_lt h1, h2⟩
        by_cases hc : j < J ∧ InBlock f ev i j n
        · rw [if_pos hc, if_pos (hiff.mpr hc)]
        · rw [if_neg hc, if_neg (fun h => hc (hiff.mp h))]

theorem initProductMomentum_frame (f : ParticleCreationFunc R) (ev : PairEvents R)
    (m1 m2 : R) (i : Nat) (st : CreationState R) (hf : f.ExternalsFramed) :
    (initProductMomentum f ev m1 m2 i st).tile1 = st.tile1
    ∧ (initProductMomentum f ev m1 m2 i st).tile2 = st.tile2
    ∧ ∀ j, ((initProductMomentum f ev m1 m2 i st).products j).np = (st.products j).np
      ∧ ((initProductMomentum f ev m1 m2 i st).products j).w = (st.products j).w := by
  unfold initProductMomentum
  split_ifs with h
  · refine ⟨rfl, rfl, fun j => ?_⟩
    by_cases hj : j = 0
    · subst hj
      simp only [Function.update_same]
      exact hf.2.2 _ _ _ _ _ _ _ _ _
    · simp [Function.update_noteq hj]
  · exact ⟨rfl, rfl, fun j => ⟨rfl, rfl⟩⟩

theorem initProductMomentum_parents (f : ParticleCreationFunc R) (ev : PairEvents R)
    (m1 m2 : R) (i : Nat) (st : CreationState R) :
    (initProductMomentum f ev m1 m2 i st).tile1 = st.tile1
    ∧ (initProductMomentum f ev m1 m2 i st).tile2 = st.tile2 := by
  unfold initProductMomentum
  split_ifs with h
  · exact ⟨rfl, rfl⟩
  · exact ⟨rfl, rfl⟩

theorem eventKernel_products (f : ParticleCreationFunc R) (ev : PairEvents R)
    (m1 m2 : R) (i : Nat) (st : CreationState R) (hf : f.ExternalsFramed) (j : Nat) :
    ((eventKernel f ev m1 m2 i st).products j).np = (st.products j).np
    ∧ ∀ n, ((eventKernel f ev m1 m2 i st).products j).w n
        = if ev.p_mask i ≠ 0 ∧ j < f.m_num_product_species ∧ InBlock f ev i j n
          then ev.p_pair_reaction_weight i / 2 else (st.products j).w n := by
  unfold eventKernel
  by_cases hm : ev.p_mask i ≠ 0
  · rw [if_pos hm]
    obtain ⟨_, _, h3⟩ := initProductMomentum_frame f ev m1 m2 i
      (removeParentWeight ev i (forLoop (speciesBody f ev i) f.m_num_product_species st)) hf
    obtain ⟨k1, k2⟩ := speciesLoop_frame f ev i st hf f.m_num_product_species j
    refine ⟨(h3 j).1.trans k1, fun n => ?_⟩
    rw [(h3 j).2]
    show ((forLoop (speciesBody f ev i) f.m_num_product_species st).products j).w n = _
    rw [k2 n]
    by_cases hc : j < f.m_num_product_species ∧ InBlock f ev i j n
    · rw [if_pos hc, if_pos ⟨hm, hc⟩]
    · rw [if_neg hc, if_neg (fun h => hc h.2)]
  · rw [if_neg hm]
    refine ⟨rfl, fun n => ?_⟩
    rw [if_neg (fun h => hm h.1)]

theorem eventKernel_tile1 (f : ParticleCreationFunc R) (ev : PairEvents R)
    (m1 m2 : R) (i : Nat) (st : CreationState R) (p : Nat) :
    (eventKernel f ev m1 m2 i st).tile1.np = st.tile1.np
    ∧ (eventKernel f ev m1 m2 i st).tile1.w p
        = (if ev.p_mask i ≠ 0 ∧ ev.p_pair_indices_1 i = p
            then st.tile1.w p - ev.p_pair_reaction_weight i else st.tile1.w p)
    ∧ (eventKernel f ev m1 m2 i st).tile1.id p
        = (if ev.p_mask i ≠ 0 ∧ ev.p_pair_indices_1 i = p
              ∧ st.tile1.w p - ev.p_pair_reaction_weight i ≤ 0
            then -1 else st.tile1.id p) := by
  unfold eventKernel
  by_cases hm : ev.p_mask i ≠ 0
  · rw [if_pos hm, (initProductMomentum_parents f ev m1 m2 i _).1]
    have e1 := (speciesLoop_parents f ev i st f.m_num_product_species).1
    simp only [removeParentWeight, e1, ParticleTile.setW, ParticleTile.atomicSetID,
      Function.update_same, ← sub_eq_add_neg]
    by_cases hp : ev.p_pair_indices_1 i = p
    · subst hp
      split_ifs <;> simp_all
    · split_ifs <;> simp_all [Function.update_noteq (Ne.symm hp)]
  · rw [if_neg hm]
    simp [hm]

theorem eventKernel_tile2 (f : ParticleCreationFunc R) (ev : PairEvents R)
    (m1 m2 : R) (i : Nat) (st : CreationState R) (p : Nat) :
    (eventKernel f ev m1 m2 i st).tile2.np = st.tile2.np
    ∧ (eventKernel f ev m1 m2 i st).tile2.w p
        = (if ev.p_mask i ≠ 0 ∧ ev.p_pair_indices_2 i = p
            then st.tile2.w p - ev.p_pair_reaction_weight i else st.tile2.w p)
    ∧ (eventKernel f ev m1 m2 i st).tile2.id p
        = (if ev.p_mask i ≠ 0 ∧ ev.p_pair_indices_2 i = p
              ∧ st.tile2.w p - ev.p_pair_reaction_weight i ≤ 0
            then -1 else st.tile2.id p) := by
  unfold eventKernel
  by_cases hm : ev.p_mask i ≠ 0
  · rw [if_pos hm, (initProductMomentum_parents f ev m1 m2 i _).2]
    have e2 := (speciesLoop_parents f ev i st f.m_num_product_species).2
    simp only [removeParentWeight, e2, ParticleTile.setW, ParticleTile.atomicSetID,
      Function.update_same, ← sub_eq_add_neg]
    by_cases hp : ev.p_pair_indices_2 i = p
    · subst hp
      split_ifs <;> simp_all
    · split_ifs <;> simp_all [Function.update_noteq (Ne.symm hp)]
  · rw [if_neg hm]
    simp [hm]

theorem exclusiveSum_step_lt (p_mask : Nat → Nat) (i n : Nat) (hi : i < n)
    (hm : p_mask i ≠ 0) : exclusiveSum p_mask i + 1 ≤ exclusiveSum p_mask n := by
  induction n with
  | zero => exact absurd hi (Nat.not_lt_zero i)
  | succ n ih =>
    show exclusiveSum p_mask i + 1 ≤ exclusiveSum p_mask n + p_mask n
    rcases Nat.lt_succ_iff_lt_or_eq.mp hi with h | h
    · exact le_trans (ih h) (Nat.le_add_right _ _)
    · subst h
      exact Nat.add_le_add_left (Nat.one_le_iff_ne_zero.mpr hm) _

theorem exclusiveSum_eq_card (p_mask : Nat → Nat) (n : Nat)
    (h01 : ∀ i, i < n → p_mask i = 0 ∨ p_mask i = 1) :
    exclusiveSum p_mask n = ((Finset.range n).filter (fun i => p_mask i ≠ 0)).card := by
  induction n with
  | zero => rfl
  | succ n ih =>
    have ih1 := ih (fun i hi => h01 i (Nat.lt_succ_of_lt hi))
    show exclusiveSum p_mask n + p_mask n = _
    rw [Finset.range_succ, Finset.filter_insert, ih1]
    rcases h01 n (Nat.lt_succ_self n) with h | h
    · simp [h]
    · have hne : p_mask n ≠ 0 := by rw [h]; exact one_ne_zero
      rw [if_pos hne, Finset.card_insert_of_not_mem, h]
      simp

theorem blocks_disjoint {S : Type} (f : ParticleCreationFunc S) (ev : PairEvents S)
    (i n j slot : Nat)
    (hi : i < n) (hm : ev.p_mask i ≠ 0) (hI : InBlock f ev i j slot) :
    ¬ InBlock f ev n j slot := by
  rintro ⟨k2, _, h2⟩
  obtain ⟨k1, hk1, h1⟩ := hI
  have hoff := exclusiveSum_step_lt ev.p_mask i n hi hm
  have hmul : (exclusiveSum ev.p_mask i + 1) * f.m_num_products j
      ≤ exclusiveSum ev.p_mask n * f.m_num_products j := Nat.mul_le_mul_right _ hoff
  rw [Nat.add_mul, Nat.one_mul] at hmul
  unfold productIndex at h1 h2
  generalize exclusiveSum ev.p_mask i * f.m_num_products j = a at hmul h1
  generalize exclusiveSum ev.p_mask n * f.m_num_products j = b at hmul h2
  omega

theorem eventsLoop_parents_np (f : ParticleCreationFunc R) (ev : PairEvents R) (m1 m2 : R)
    (st : CreationState R) (n : Nat) :
    (forLoop (eventKernel f ev m1 m2) n st).tile1.np = st.tile1.np
    ∧ (forLoop (eventKernel f ev m1 m2) n st).tile2.np = st.tile2.np := by
  induction n with
  | zero => exact ⟨rfl, rfl⟩
  | succ n ih =>
    exact ⟨((eventKernel_tile1 f ev m1 m2 n _ 0).1).trans ih.1,
      ((eventKernel_tile2 f ev m1 m2 n _ 0).1).trans ih.2⟩

theorem eventsLoop_tile1_w (f : ParticleCreationFunc R) (ev : PairEvents R) (m1 m2 : R)
    (st : CreationState R) (p n : Nat) :
    (forLoop (eventKernel f ev m1 m2) n st).tile1.w p
      = st.tile1.w p - ∑ i in (Finset.range n).filter
          (fun i => ev.p_mask i ≠ 0 ∧ ev.p_pair_indices_1 i = p),
          ev.p_pair_reaction_weight i := by
  induction n with
  | zero => simp [forLoop]
  | succ n ih =>
    show (eventKernel f ev m1 m2 n (forLoop (eventKernel f ev m1 m2) n st)).tile1.w p = _
    rw [(eventKernel_tile1 f ev m1 m2 n _ p).2.1, ih, Finset.range_succ, Finset.filter_insert]
    by_cases hc : ev.p_mask n ≠ 0 ∧ ev.p_pair_indices_1 n = p
    · rw [if_pos hc, if_pos hc, Finset.sum_insert (by simp)]
      ring
    · rw [if_neg hc, if_neg hc]

theorem eventsLoop_tile2_w (f : ParticleCreationFunc R) (ev : PairEvents R) (m1 m2 : R)
    (st : CreationState R) (p n : Nat) :
    (forLoop (eventKernel f ev m1 m2) n st).tile2.w p
      = st.tile2.w p - ∑ i in (Finset.range n).filter
          (fun i => ev.p_mask i ≠ 0 ∧ ev.p_pair_indices_2 i = p),
          ev.p_pair_reaction_weight i := by
  induction n with
  | zero => simp [forLoop]
  | succ n ih =>
    show (eventKernel f ev m1 m2 n (forLoop (eventKernel f ev m1 m2) n st)).tile2.w p = _
    rw [(eventKernel_tile2 f ev m1 m2 n _ p).2.1, ih, Finset.range_succ, Finset.filter_insert]
    by_cases hc : ev.p_mask n ≠ 0 ∧ ev.p_pair_indices_2 n = p
    · rw [if_pos hc, if_pos hc, Finset.sum_insert (by simp)]
      ring
    · rw [if_neg hc, if_neg hc]

theorem eventsLoop_tile1_flag (f : ParticleCreationFunc R) (ev : PairEvents R) (m1 m2 : R)
    (st : CreationState R) (p n : Nat)
    (hex : ∃ i, i < n ∧ ev.p_mask i ≠ 0 ∧ ev.p_pair_indices_1 i = p)
    (hw : (forLoop (eventKernel f ev m1 m2) n st).tile1.w p ≤ 0) :
    (forLoop (eventKernel f ev m1 m2) n st).tile1.id p = -1 := by
  induction n with
  | zero =>
    obtain ⟨i, hi, _⟩ := hex
    exact absurd hi (Nat.not_lt_zero i)
  | succ n ih =>
    obtain ⟨_, kw, kid⟩ := eventKernel_tile1 f ev m1 m2 n
      (forLoop (eventKernel f ev m1 m2) n st) p
    have hw1 : (eventKernel f ev m1 m2 n (forLoop (eventKernel f ev m1 m2) n st)).tile1.w p
        ≤ 0 := hw
    show (eventKernel f ev m1 m2 n (forLoop (eventKernel f ev m1 m2) n st)).tile1.id p = -1
    rw [kid]
    by_cases hc : ev.p_mask n ≠ 0 ∧ ev.p_pair_indices_1 n = p
    · rw [kw, if_pos hc] at hw1
      rw [if_pos ⟨hc.1, hc.2, hw1⟩]
    · rw [kw, if_neg hc] at hw1
      rw [if_neg (fun h => hc ⟨h.1, h.2.1⟩)]
      apply ih _ hw1
      obtain ⟨i, hi, hmi, hpi⟩ := hex
      rcases Nat.lt_succ_iff_lt_or_eq.mp hi with h | h
      · exact ⟨i, h, hmi, hpi⟩
      · subst h
        exact absurd ⟨hmi, hpi⟩ hc

theorem eventsLoop_tile2_flag (f : ParticleCreationFunc R) (ev : PairEvents R) (m1 m2 : R)
    (st : CreationState R) (p n : Nat)
    (hex : ∃ i, i < n ∧ ev.p_mask i ≠ 0 ∧ ev.p_pair_indices_2 i = p)
    (hw : (forLoop (eventKernel f ev m1 m2) n st).tile2.w p ≤ 0) :
    (forLoop (eventKernel f ev m1 m2) n st).tile2.id p = -1 := by
  induction n with
  | zero =>
    obtain ⟨i, hi, _⟩ := hex
    exact absurd hi (Nat.not_lt_zero i)
  | succ n ih =>
    obtain ⟨_, kw, kid⟩ := eventKernel_tile2 f ev m1 m2 n
      (forLoop (eventKernel f ev m1 m2) n st) p
    have hw1 : (eventKernel f ev m1 m2 n (forLoop (eventKernel f ev m1 m2) n st)).tile2.w p
        ≤ 0 := hw
    show (eventKernel f ev m1 m2 n (forLoop (eventKernel f ev m1 m2) n st)).tile2.id p = -1
    rw [kid]
    by_cases hc : ev.p_mask n ≠ 0 ∧ ev.p_pair_indices_2 n = p
    · rw [kw, if_pos hc] at hw1
      rw [if_pos ⟨hc.1, hc.2, hw1⟩]
    · rw [kw, if_neg hc] at hw1
      rw [if_neg (fun h => hc ⟨h.1, h.2.1⟩)]
      apply ih _ hw1
      obtain ⟨i, hi, hmi, hpi⟩ := hex
      rcases Nat.lt_succ_iff_lt_or_eq.mp hi with h | h
      · exact ⟨i, h, hmi, hpi⟩
      · subst h
        exact absurd ⟨hmi, hpi⟩ hc

theorem eventsLoop_products_np (f : ParticleCreationFunc R) (ev : PairEvents R) (m1 m2 : R)
    (st : CreationState R) (hf : f.ExternalsFramed) (j n : Nat) :
    ((forLoop (eventKernel f ev m1 m2) n st).products j).np = (st.products j).np := by
  induction n with
  | zero => rfl
  | succ n ih => exact ((eventKernel_products f ev m1 m2 n _ hf j).1).trans ih

theorem eventsLoop_products_w (f : ParticleCreationFunc R) (ev : PairEvents R) (m1 m2 : R)
    (st : CreationState R) (hf : f.ExternalsFramed) (i j slot n : Nat)
    (hi : i < n) (hm : ev.p_mask i ≠ 0) (hj : j < f.m_num_product_species)
    (hb : InBlock f ev i j slot) :
    ((forLoop (eventKernel f ev m1 m2) n st).products j).w slot
      = ev.p_pair_reaction_weight i / 2 := by
  induction n with
  | zero => exact absurd hi (Nat.not_lt_zero i)
  | succ n ih =>
    show ((eventKernel f ev m1 m2 n (forLoop (eventKernel f ev m1 m2) n st)).products j).w slot
      = _
    rw [(eventKernel_products f ev m1 m2 n _ hf j).2 slot]
    rcases Nat.lt_succ_iff_lt_or_eq.mp hi with h | h
    · rw [if_neg (fun hc => blocks_disjoint f ev i n j slot h hm hb hc.2.2)]
      exact ih h
    · subst h
      rw [if_pos ⟨hm, hj, hb⟩]

theorem resizeLoop_eq {S : Type} (f : ParticleCreationFunc S) (ev : PairEvents S)
    (total : Nat) (prods : Nat → ParticleTile S) (J : Nat) :
    (forLoop (resizeBody f ev total) J ([], prods)).1
        = (List.range J).map (fun j => total * f.m_num_products j * 2)
    ∧ ∀ j, (forLoop (resizeBody f ev total) J ([], prods)).2 j
        = if j < J then (prods j).resize (ev.products_np j + total * f.m_num_products j * 2)
          else prods j := by
  induction J with
  | zero => exact ⟨rfl, fun j => rfl⟩
  | succ J ih =>
    constructor
    · show (forLoop (resizeBody f ev total) J ([], prods)).1 ++ [_] = _
      rw [ih.1, List.range_succ, List.map_append]
      rfl
    · intro j
      show Function.update (forLoop (resizeBody f ev total) J ([], prods)).2 J _ j = _
      by_cases hj : j = J
      · subst hj
        rw [Function.update_same, ih.2 j, if_neg (Nat.lt_irrefl j), if_pos (Nat.lt_succ_self j)]
      · rw [Function.update_noteq hj, ih.2 j]
        by_cases hlt : j < J
        · rw [if_pos hlt, if_pos (Nat.lt_succ_of_lt hlt)]
        · rw [if_neg hlt, if_neg]
          intro h
          exact hlt (lt_of_le_of_ne (Nat.lt_succ_iff.mp h) hj)

theorem oneProductFunc_framed (S : Type) : (oneProductFunc S).ExternalsFramed := by
  refine ⟨fun j => ?_, fun j => ?_, ?_⟩
  · intro dst src i_src i_dst e
    exact ⟨rfl, fun n hn => Function.update_noteq hn _ _⟩
  · intro dst src i_src i_dst e
    exact ⟨rfl, fun n hn => Function.update_noteq hn _ _⟩
  · intro s1 s2 p i1 i2 start m1 m2 e
    exact ⟨rfl, rfl⟩

/-- C6. For a non-empty event list with a 0/1 mask, the vector returned by
`ParticleCreationFunc::operator()` holds, for each product species `j`,
`2 * (number of firing events) * (products per event of species j)`, and the
tile of species `j` ends with `products_np[j]` plus that number of particles
(the external functors keeping the tile sizes). -/
theorem ParticleCreationFunc_num_added (f : ParticleCreationFunc R) (ev : PairEvents R)
    (m1 m2 : R) (st : CreationState R)
    (hn : 0 < ev.n_total_pairs)
    (h01 : ∀ i, i < ev.n_total_pairs → ev.p_mask i = 0 ∨ ev.p_mask i = 1)
    (hf : f.ExternalsFramed) :
    (f.call ev m1 m2 st).1
        = (List.range f.m_num_product_species).map (fun j =>
            2 * ((Finset.range ev.n_total_pairs).filter (fun i => ev.p_mask i ≠ 0)).card
              * f.m_num_products j)
    ∧ ∀ j, j < f.m_num_product_species →
        ((f.call ev m1 m2 st).2.products j).np
          = ev.products_np j
            + 2 * ((Finset.range ev.n_total_pairs).filter (fun i => ev.p_mask i ≠ 0)).card
              * f.m_num_products j := by
  have hne : ev.n_total_pairs ≠ 0 := Nat.pos_iff_ne_zero.mp hn
  have hcard := exclusiveSum_eq_card ev.p_mask ev.n_total_pairs h01
  obtain ⟨r1, r2⟩ := resizeLoop_eq f ev (exclusiveSum ev.p_mask ev.n_total_pairs)
    st.products f.m_num_product_species
  unfold ParticleCreationFunc.call
  rw [if_neg hne]
  constructor
  · show (forLoop (resizeBody f ev _) f.m_num_product_species ([], st.products)).1 = _
    rw [r1, hcard]
    apply List.map_congr_left
    intro j _
    ring
  · intro j hj
    show ((forLoop (eventKernel f ev m1 m2) ev.n_total_pairs _).products j).np = _
    rw [eventsLoop_products_np f ev m1 m2 _ hf j ev.n_total_pairs]
    show ((forLoop (resizeBody f ev _) f.m_num_product_species ([], st.products)).2 j).np = _
    rw [r2 j, if_pos hj, hcard]
    show ev.products_np j + _ = _
    ring

/-- Witness for C6: one firing event, one product species, one product per
event. -/
theorem ParticleCreationFunc_num_added_witness :
    ((oneProductFunc ℚ).call (oneEvent ℚ) 1 1 (twoParents ℚ)).1
        = (List.range (oneProductFunc ℚ).m_num_product_species).map (fun j =>
            2 * ((Finset.range (oneEvent ℚ).n_total_pairs).filter
              (fun i => (oneEvent ℚ).p_mask i ≠ 0)).card * (oneProductFunc ℚ).m_num_products j)
    ∧ ∀ j, j < (oneProductFunc ℚ).m_num_product_species →
        (((oneProductFunc ℚ).call (oneEvent ℚ) 1 1 (twoParents ℚ)).2.products j).np
          = (oneEvent ℚ).products_np j
            + 2 * ((Finset.range (oneEvent ℚ).n_total_pairs).filter
              (fun i => (oneEvent ℚ).p_mask i ≠ 0)).card * (oneProductFunc ℚ).m_num_products j :=
  ParticleCreationFunc_num_added (oneProductFunc ℚ) (oneEvent ℚ) 1 1 (twoParents ℚ)
    Nat.one_pos (fun _ _ => Or.inr rfl) (oneProductFunc_framed ℚ)

/-- C7. For every firing event `i`, product species `j` and product index `k`,
the two particles created in the slots `product_index` and `product_index + 1`
end with weight `p_pair_reaction_weight[i] / 2`; the weight created in species
`j` by event `i` sums to `(products per event of species j) *
p_pair_reaction_weight[i]`.  The external functors are taken to write no
weight other than that of their destination slot. -/
theorem ParticleCreationFunc_product_weights (f : ParticleCreationFunc R) (ev : PairEvents R)
    (m1 m2 : R) (st : CreationState R) (i j k : Nat)
    (hf : f.ExternalsFramed)
    (hi : i < ev.n_total_pairs) (hm : ev.p_mask i ≠ 0)
    (hj : j < f.m_num_product_species) (hk : k < f.m_num_products j) :
    ((f.call ev m1 m2 st).2.products j).w (productIndex f ev i j k)
        = ev.p_pair_reaction_weight i / 2
    ∧ ((f.call ev m1 m2 st).2.products j).w (productIndex f ev i j k + 1)
        = ev.p_pair_reaction_weight i / 2
    ∧ ∑ k' in Finset.range (f.m_num_products j),
        (((f.call ev m1 m2 st).2.products j).w (productIndex f ev i j k')
          + ((f.call ev m1 m2 st).2.products j).w (productIndex f ev i j k' + 1))
        = (f.m_num_products j : R) * ev.p_pair_reaction_weight i := by
  have hne : ev.n_total_pairs ≠ 0 := Nat.pos_iff_ne_zero.mp (Nat.zero_lt_of_lt hi)
  have key : ∀ slot, InBlock f ev i j slot →
      ((f.call ev m1 m2 st).2.products j).w slot = ev.p_pair_reaction_weight i / 2 := by
    intro slot hb
    unfold ParticleCreationFunc.call
    rw [if_neg hne]
    exact eventsLoop_products_w f ev m1 m2 _ hf i j slot ev.n_total_pairs hi hm hj hb
  refine ⟨key _ ⟨k, hk, Or.inl rfl⟩, key _ ⟨k, hk, Or.inr rfl⟩, ?_⟩
  have hsum : ∀ k' ∈ Finset.range (f.m_num_products j),
      ((f.call ev m1 m2 st).2.products j).w (productIndex f ev i j k')
        + ((f.call ev m1 m2 st).2.products j).w (productIndex f ev i j k' + 1)
      = ev.p_pair_reaction_weight i := by
    intro k' hk'
    rw [key _ ⟨k', Finset.mem_range.mp hk', Or.inl rfl⟩,
      key _ ⟨k', Finset.mem_range.mp hk', Or.inr rfl⟩]
    ring
  rw [Finset.sum_congr rfl hsum, Finset.sum_const, Finset.card_range, nsmul_eq_mul]

/-- Witness for C7: the single event of `oneEvent`, species 0, product 0. -/
theorem ParticleCreationFunc_product_weights_witness :
    (((oneProductFunc ℚ).call (oneEvent ℚ) 1 1 (twoParents ℚ)).2.products 0).w
        (productIndex (oneProductFunc ℚ) (oneEvent ℚ) 0 0 0)
        = (oneEvent ℚ).p_pair_reaction_weight 0 / 2
    ∧ (((oneProductFunc ℚ).call (oneEvent ℚ) 1 1 (twoParents ℚ)).2.products 0).w
        (productIndex (oneProductFunc ℚ) (oneEvent ℚ) 0 0 0 + 1)
        = (oneEvent ℚ).p_pair_reaction_weight 0 / 2
    ∧ ∑ k' in Finset.range ((oneProductFunc ℚ).m_num_products 0),
        ((((oneProductFunc ℚ).call (oneEvent ℚ) 1 1 (twoParents ℚ)).2.products 0).w
            (productIndex (oneProductFunc ℚ) (oneEvent ℚ) 0 0 k')
          + (((oneProductFunc ℚ).call (oneEvent ℚ) 1 1 (twoParents ℚ)).2.products 0).w
            (productIndex (oneProductFunc ℚ) (oneEvent ℚ) 0 0 k' + 1))
        = ((oneProductFunc ℚ).m_num_products 0 : ℚ) * (oneEvent ℚ).p_pair_reaction_weight 0 :=
  ParticleCreationFunc_product_weights (oneProductFunc ℚ) (oneEvent ℚ) 1 1 (twoParents ℚ)
    0 0 0 (oneProductFunc_framed ℚ) Nat.one_pos Nat.one_ne_zero Nat.one_pos Nat.one_pos

/-- C8. After all events have been processed one after another, the weight of
every parent `p` of species 1 is its initial weight minus the sum of
`p_pair_reaction_weight[i]` over the firing events `i` with
`p_pair_indices_1[i] = p`, and likewise for species 2 with `p_pair_indices_2`:
no subtraction is lost when several events name the same parent. -/
theorem ParticleCreationFunc_parent_weights (f : ParticleCreationFunc R) (ev : PairEvents R)
    (m1 m2 : R) (st : CreationState R) (p : Nat) :
    (f.call ev m1 m2 st).2.tile1.w p
        = st.tile1.w p - ∑ i in (Finset.range ev.n_total_pairs).filter
            (fun i => ev.p_mask i ≠ 0 ∧ ev.p_pair_indices_1 i = p),
            ev.p_pair_reaction_weight i
    ∧ (f.call ev m1 m2 st).2.tile2.w p
        = st.tile2.w p - ∑ i in (Finset.range ev.n_total_pairs).filter
            (fun i => ev.p_mask i ≠ 0 ∧ ev.p_pair_indices_2 i = p),
            ev.p_pair_reaction_weight i := by
  unfold ParticleCreationFunc.call
  by_cases hne : ev.n_total_pairs = 0
  · rw [if_pos hne, hne]
    simp
  · rw [if_neg hne]
    exact ⟨eventsLoop_tile1_w f ev m1 m2 _ p ev.n_total_pairs,
      eventsLoop_tile2_w f ev m1 m2 _ p ev.n_total_pairs⟩

/-- C9. After the call, every parent that a firing event refers to and whose
weight is `<= 0` has the identifier `-1`; the parent tiles keep their number
of particles, so the parent stays in storage. -/
theorem ParticleCreationFunc_flags_exhausted_parents (f : ParticleCreationFunc R)
    (ev : PairEvents R) (m1 m2 : R) (st : CreationState R) (p : Nat) :
    ((∃ i, i < ev.n_total_pairs ∧ ev.p_mask i ≠ 0 ∧ ev.p_pair_indices_1 i = p) →
        (f.call ev m1 m2 st).2.tile1.w p ≤ 0 → (f.call ev m1 m2 st).2.tile1.id p = -1)
    ∧ ((∃ i, i < ev.n_total_pairs ∧ ev.p_mask i ≠ 0 ∧ ev.p_pair_indices_2 i = p) →
        (f.call ev m1 m2 st).2.tile2.w p ≤ 0 → (f.call ev m1 m2 st).2.tile2.id p = -1)
    ∧ (f.call ev m1 m2 st).2.tile1.np = st.tile1.np
    ∧ (f.call ev m1 m2 st).2.tile2.np = st.tile2.np := by
  unfold ParticleCreationFunc.call
  by_cases hne : ev.n_total_pairs = 0
  · rw [if_pos hne, hne]
    refine ⟨?_, ?_, rfl, rfl⟩
    · rintro ⟨i, hi, _⟩
      exact absurd hi (Nat.not_lt_zero i)
    · rintro ⟨i, hi, _⟩
      exact absurd hi (Nat.not_lt_zero i)
  · rw [if_neg hne]
    exact ⟨eventsLoop_tile1_flag f ev m1 m2 _ p ev.n_total_pairs,
      eventsLoop_tile2_flag f ev m1 m2 _ p ev.n_total_pairs,
      (eventsLoop_parents_np f ev m1 m2 _ ev.n_total_pairs).1,
      (eventsLoop_parents_np f ev m1 m2 _ ev.n_total_pairs).2⟩

/-- C10. When `n_total_pairs = 0` the call returns a vector of
`m_num_product_species` zeros and leaves the particle storage as it was: no
tile is resized, no weight and no identifier is changed. -/
theorem ParticleCreationFunc_no_pairs (f : ParticleCreationFunc R) (ev : PairEvents R)
    (m1 m2 : R) (st : CreationState R) (h0 : ev.n_total_pairs = 0) :
    (f.call ev m1 m2 st).1.length = f.m_num_product_species
    ∧ (∀ x, x ∈ (f.call ev m1 m2 st).1 → x = 0)
    ∧ (f.call ev m1 m2 st).2 = st := by
  unfold ParticleCreationFunc.call
  rw [if_pos h0]
  refine ⟨List.length_replicate _ _, fun x hx => List.eq_of_mem_replicate hx, rfl⟩

/-- Witness for C10: the empty event list on the two-parent storage. -/
theorem ParticleCreationFunc_no_pairs_witness :
    ((oneProductFunc ℚ).call (noEvent ℚ) 1 1 (twoParents ℚ)).1.length
        = (oneProductFunc ℚ).m_num_product_species
    ∧ (∀ x, x ∈ ((oneProductFunc ℚ).call (noEvent ℚ) 1 1 (twoParents ℚ)).1 → x = 0)
    ∧ ((oneProductFunc ℚ).call (noEvent ℚ) 1 1 (twoParents ℚ)).2 = twoParents ℚ :=
  ParticleCreationFunc_no_pairs (oneProductFunc ℚ) (noEvent ℚ) 1 1 (twoParents ℚ) rfl

end Creation

theorem oneEvent_outcome :
    ((oneProductFunc ℚ).call (oneEvent ℚ) 1 1 (twoParents ℚ)).1 = [2]
    ∧ (((oneProductFunc ℚ).call (oneEvent ℚ) 1 1 (twoParents ℚ)).2.products 0).np = 2
    ∧ (((oneProductFunc ℚ).call (oneEvent ℚ) 1 1 (twoParents ℚ)).2.products 0).w 0 = 1 / 2
    ∧ (((oneProductFunc ℚ).call (oneEvent ℚ) 1 1 (twoParents ℚ)).2.products 0).w 1 = 1 / 2
    ∧ ((oneProductFunc ℚ).call (oneEvent ℚ) 1 1 (twoParents ℚ)).2.tile1.w 0 = 0
    ∧ ((oneProductFunc ℚ).call (oneEvent ℚ) 1 1 (twoParents ℚ)).2.tile2.w 0 = 0 := by
  refine ⟨rfl, rfl, ?_, ?_, ?_, ?_⟩ <;>
  simp [ParticleCreationFunc.call, oneEvent, oneProductFunc, twoParents, forLoop, eventKernel,
    initProductMomentum, removeParentWeight, speciesBody, productBody, resizeBody,
    copyFromParent, keepMomentum, uniformTile, exclusiveSum, productIndex, ParticleTile.setW,
    ParticleTile.resize, ParticleTile.atomicSetID]

/-- Witness for C9: two parents of weight 1 each, one firing event of reaction
weight 1, one product species with one product per event.  Exactly 2 particles
are created, each of weight 1/2, and both parents end with weight 0 and
identifier -1, still in their tiles. -/
theorem ParticleCreationFunc_flags_exhausted_parents_witness :
    ((oneProductFunc ℚ).call (oneEvent ℚ) 1 1 (twoParents ℚ)).1 = [2]
    ∧ (((oneProductFunc ℚ).call (oneEvent ℚ) 1 1 (twoParents ℚ)).2.products 0).np = 2
    ∧ (((oneProductFunc ℚ).call (oneEvent ℚ) 1 1 (twoParents ℚ)).2.products 0).w 0 = 1 / 2
    ∧ (((oneProductFunc ℚ).call (oneEvent ℚ) 1 1 (twoParents ℚ)).2.products 0).w 1 = 1 / 2
    ∧ ((oneProductFunc ℚ).call (oneEvent ℚ) 1 1 (twoParents ℚ)).2.tile1.w 0 = 0
    ∧ ((oneProductFunc ℚ).call (oneEvent ℚ) 1 1 (twoParents ℚ)).2.tile2.w 0 = 0
    ∧ ((oneProductFunc ℚ).call (oneEvent ℚ) 1 1 (twoParents ℚ)).2.tile1.id 0 = -1
    ∧ ((oneProductFunc ℚ).call (oneEvent ℚ) 1 1 (twoParents ℚ)).2.tile2.id 0 = -1
    ∧ ((oneProductFunc ℚ).call (oneEvent ℚ) 1 1 (twoParents ℚ)).2.tile1.np = 1
    ∧ ((oneProductFunc ℚ).call (oneEvent ℚ) 1 1 (twoParents ℚ)).2.tile2.np = 1 := by
  obtain ⟨h1, h2, h3, h4, h5, h6⟩ := oneEvent_outcome
  obtain ⟨f1, f2, f3, f4⟩ := ParticleCreationFunc_flags_exhausted_parents
    (oneProductFunc ℚ) (oneEvent ℚ) 1 1 (twoParents ℚ) 0
  exact ⟨h1, h2, h3, h4, h5, h6,
    f1 ⟨0, Nat.one_pos, Nat.one_ne_zero, rfl⟩ (le_of_eq h5),
    f2 ⟨0, Nat.one_pos, Nat.one_ne_zero, rfl⟩ (le_of_eq h6), f3, f4⟩

/-! ## Theorems: the impact-ionization filter -/

section Filter

variable {R : Type} [LinearOrderedField R]

/-- C12 (amended). With `total_collision_prob = 0` the filter returns false for
every particle and every pair of draws whose first draw is positive. -/
theorem ImpactIonizationFilterFunc_zero_prob (F : MathFns R) (P : PhysConst R)
    (flt : ImpactIonizationFilterFunc R) (ptd : ParticleTile R) (i : Nat)
    (engine : RandomEngine R)
    (h0 : flt.m_total_collision_prob = 0)
    (hr : 0 < engine.draws engine.pos) :
    (flt.call F P ptd i engine).1 = false := by
  unfold ImpactIonizationFilterFunc.call
  have hgate : (Random engine).1 > flt.m_total_collision_prob := by
    rw [h0]
    exact hr
  rw [if_pos hgate]

/-- C13. When the first draw exceeds `total_collision_prob` the filter returns
false, whatever the particle, the density function, the cross-section and the
second draw are. -/
theorem ImpactIonizationFilterFunc_gate (F : MathFns R) (P : PhysConst R)
    (flt : ImpactIonizationFilterFunc R) (ptd : ParticleTile R) (i : Nat)
    (engine : RandomEngine R)
    (hgate : engine.draws engine.pos > flt.m_total_collision_prob) :
    (flt.call F P ptd i engine).1 = false := by
  unfold ImpactIonizationFilterFunc.call
  have h : (Random engine).1 > flt.m_total_collision_prob := hgate
  rw [if_pos h]

/-- C14. When the first draw `r0` passes the gate (`r0 <= total_collision_prob`)
the filter returns true exactly when the second draw `r1` satisfies
`r1 <= nu`, with `nu = n_a * sigma(E) * |v| / nu_max`, `n_a` the density
function at the particle position and time `t`, `|v|` the magnitude of the
particle velocity and `E = 0.5 * mass * |v|^2 / q_e` (the square root being
exact). -/
theorem ImpactIonizationFilterFunc_accept_iff (F : MathFns R) (P : PhysConst R)
    (flt : ImpactIonizationFilterFunc R) (ptd : ParticleTile R) (i : Nat)
    (engine : RandomEngine R)
    (hs : SqrtExact F)
    (hpass : engine.draws engine.pos ≤ flt.m_total_collision_prob) :
    (flt.call F P ptd i engine).1 = true
      ↔ engine.draws (engine.pos + 1)
          ≤ flt.m_n_a_func (ptd.pos i).x (ptd.pos i).y (ptd.pos i).z flt.m_t
            * flt.m_mcc_process
                (0.5 * flt.m_mass * (Vec3.mag F (ptd.u i) * Vec3.mag F (ptd.u i)) / P.q_e)
            * Vec3.mag F (ptd.u i) / flt.m_nu_max := by
  have hn : 0 ≤ (ptd.u i).normSq :=
    add_nonneg (add_nonneg (mul_self_nonneg _) (mul_self_nonneg _)) (mul_self_nonneg _)
  have hsq : Vec3.mag F (ptd.u i) * Vec3.mag F (ptd.u i) = (ptd.u i).normSq := (hs _ hn).2
  unfold ImpactIonizationFilterFunc.call
  have h : ¬ (Random engine).1 > flt.m_total_collision_prob := not_lt.mpr hpass
  rw [if_neg h, hsq]
  simp only [Random, Vec3.mag, Vec3.normSq, decide_eq_true_eq]

/-- C15 (amended). When the density function returns 0 at the particle
position (`nu = 0`), the filter returns false for every pair of draws whose
second draw is positive or whose first draw fails the gate test. -/
theorem ImpactIonizationFilterFunc_zero_density (F : MathFns R) (P : PhysConst R)
    (flt : ImpactIonizationFilterFunc R) (ptd : ParticleTile R) (i : Nat)
    (engine : RandomEngine R)
    (hna : flt.m_n_a_func (ptd.pos i).x (ptd.pos i).y (ptd.pos i).z flt.m_t = 0)
    (hr : 0 < engine.draws (engine.pos + 1)
      ∨ engine.draws engine.pos > flt.m_total_collision_prob) :
    (flt.call F P ptd i engine).1 = false := by
  unfold ImpactIonizationFilterFunc.call
  split_ifs with h
  · rfl
  · rcases hr with hr | hr
    · simp only [Random, hna, zero_mul, zero_div, decide_eq_false_iff_not, not_le]
      exact hr
    · exact absurd hr h

end Filter

/-- Witness for C12 (amended): probability 0, both draws `1/2`. -/
theorem ImpactIonizationFilterFunc_zero_prob_witness :
    ((uniformFilter (0 : ℝ) 1).call realFns (siConst ℝ) (movingTile ℝ) 0
      (twoDrawEngine (1 / 2) (1 / 2))).1 = false :=
  ImpactIonizationFilterFunc_zero_prob realFns (siConst ℝ) (uniformFilter 0 1) (movingTile ℝ) 0
    (twoDrawEngine (1 / 2) (1 / 2)) rfl
    (by simp only [twoDrawEngine, if_true]; norm_num)

/-- C12 as stated fails: with `total_collision_prob = 0`, first draw `0` and
second draw `1/2` (both in `[0,1)`), unit density, cross-section and maximum
frequency and velocity `(1, 0, 0)`, the gate test `0 > 0` does not hold,
`nu = 1`, and the filter returns true. -/
theorem ImpactIonizationFilterFunc_zero_prob_counterexample :
    (uniformFilter (0 : ℝ) 1).m_total_collision_prob = 0
    ∧ (0 : ℝ) ≤ (twoDrawEngine (0 : ℝ) (1 / 2)).draws 0
    ∧ (twoDrawEngine (0 : ℝ) (1 / 2)).draws 0 < 1
    ∧ (0 : ℝ) ≤ (twoDrawEngine (0 : ℝ) (1 / 2)).draws 1
    ∧ (twoDrawEngine (0 : ℝ) (1 / 2)).draws 1 < 1
    ∧ ((uniformFilter (0 : ℝ) 1).call realFns (siConst ℝ) (movingTile ℝ) 0
        (twoDrawEngine 0 (1 / 2))).1 = true := by
  refine ⟨rfl, ?_, ?_, ?_, ?_, ?_⟩
  · simp [twoDrawEngine]
  · simp [twoDrawEngine]
  · simp [twoDrawEngine]
  · simp [twoDrawEngine]; norm_num
  · simp [ImpactIonizationFilterFunc.call, uniformFilter, movingTile, twoDrawEngine, Random,
      realFns]
    norm_num

/-- Witness for C13: probability `1/4`, first draw `1/2`. -/
theorem ImpactIonizationFilterFunc_gate_witness :
    ((uniformFilter (1 / 4 : ℝ) 1).call realFns (siConst ℝ) (movingTile ℝ) 0
      (twoDrawEngine (1 / 2) (1 / 2))).1 = false :=
  ImpactIonizationFilterFunc_gate realFns (siConst ℝ) (uniformFilter (1 / 4) 1) (movingTile ℝ) 0
    (twoDrawEngine (1 / 2) (1 / 2))
    (by simp only [twoDrawEngine, uniformFilter, if_true]; norm_num)

/-- Witness for C14: probability `1/2`, draws `1/4` and `1/2`. -/
theorem ImpactIonizationFilterFunc_accept_iff_witness :
    ((uniformFilter (1 / 2 : ℝ) 1).call realFns (siConst ℝ) (movingTile ℝ) 0
        (twoDrawEngine (1 / 4) (1 / 2))).1 = true
      ↔ (twoDrawEngine (1 / 4 : ℝ) (1 / 2)).draws ((twoDrawEngine (1 / 4 : ℝ) (1 / 2)).pos + 1)
          ≤ (uniformFilter (1 / 2 : ℝ) 1).m_n_a_func ((movingTile ℝ).pos 0).x
              ((movingTile ℝ).pos 0).y ((movingTile ℝ).pos 0).z (uniformFilter (1 / 2 : ℝ) 1).m_t
            * (uniformFilter (1 / 2 : ℝ) 1).m_mcc_process
                (0.5 * (uniformFilter (1 / 2 : ℝ) 1).m_mass
                  * (Vec3.mag realFns ((movingTile ℝ).u 0) * Vec3.mag realFns ((movingTile ℝ).u 0))
                  / (siConst ℝ).q_e)
            * Vec3.mag realFns ((movingTile ℝ).u 0) / (uniformFilter (1 / 2 : ℝ) 1).m_nu_max :=
  ImpactIonizationFilterFunc_accept_iff realFns (siConst ℝ) (uniformFilter (1 / 2) 1)
    (movingTile ℝ) 0 (twoDrawEngine (1 / 4) (1 / 2)) realFns_sqrtExact
    (by simp only [twoDrawEngine, uniformFilter, if_true]; norm_num)

/-- Witness for C15 (amended): zero density, probability `1/2`, draws `1/4`
and `1/2`. -/
theorem ImpactIonizationFilterFunc_zero_density_witness :
    ((uniformFilter (1 / 2 : ℝ) 0).call realFns (siConst ℝ) (movingTile ℝ) 0
      (twoDrawEngine (1 / 4) (1 / 2))).1 = false :=
  ImpactIonizationFilterFunc_zero_density realFns (siConst ℝ) (uniformFilter (1 / 2) 0)
    (movingTile ℝ) 0 (twoDrawEngine (1 / 4) (1 / 2)) rfl
    (Or.inl (by simp only [twoDrawEngine]; norm_num))

/-- C15 as stated fails: with zero density, `total_collision_prob = 1/2`, first
draw `1/4` and second draw `0` (both in `[0,1)`), the gate is passed, `nu = 0`,
the test `0 <= 0` holds and the filter returns true. -/
theorem ImpactIonizationFilterFunc_zero_density_counterexample :
    (uniformFilter (1 / 2 : ℝ) 0).m_n_a_func ((movingTile ℝ).pos 0).x
        ((movingTile ℝ).pos 0).y ((movingTile ℝ).pos 0).z (uniformFilter (1 / 2 : ℝ) 0).m_t = 0
    ∧ (0 : ℝ) ≤ (twoDrawEngine (1 / 4 : ℝ) 0).draws 0
    ∧ (twoDrawEngine (1 / 4 : ℝ) 0).draws 0 < 1
    ∧ (0 : ℝ) ≤ (twoDrawEngine (1 / 4 : ℝ) 0).draws 1
    ∧ (twoDrawEngine (1 / 4 : ℝ) 0).draws 1 < 1
    ∧ ((uniformFilter (1 / 2 : ℝ) 0).call realFns (siConst ℝ) (movingTile ℝ) 0
        (twoDrawEngine (1 / 4) 0)).1 = true := by
  refine ⟨rfl, ?_, ?_, ?_, ?_, ?_⟩
  · simp [twoDrawEngine]
  · simp [twoDrawEngine]; norm_num
  · simp [twoDrawEngine]
  · simp [twoDrawEngine]
  · simp [ImpactIonizationFilterFunc.call, uniformFilter, movingTile, twoDrawEngine, Random]
    norm_num

/-! ## Theorems: weights stay non-negative in `ParticleCreationFunc` -/

section CreationSign

variable {R : Type} [LinearOrderedField R]

theorem eventsLoop_tile1_nonneg (f : ParticleCreationFunc R) (ev : PairEvents R) (m1 m2 : R)
    (st : CreationState R) (n : Nat)
    (hw : ∀ p, 0 ≤ st.tile1.w p)
    (hr : ∀ i, i < n → ev.p_mask i ≠ 0 →
      ev.p_pair_reaction_weight i ≤ st.tile1.w (ev.p_pair_indices_1 i)
        - ∑ i' in (Finset.range i).filter
            (fun i' => ev.p_mask i' ≠ 0 ∧ ev.p_pair_indices_1 i' = ev.p_pair_indices_1 i),
            ev.p_pair_reaction_weight i')
    (m : Nat) (hm : m ≤ n) (p : Nat) :
    0 ≤ (forLoop (eventKernel f ev m1 m2) m st).tile1.w p := by
  induction m with
  | zero => exact hw p
  | succ m ih =>
    have ihm := ih (Nat.le_of_succ_le hm)
    show 0 ≤ (eventKernel f ev m1 m2 m (forLoop (eventKernel f ev m1 m2) m st)).tile1.w p
    rw [(eventKernel_tile1 f ev m1 m2 m _ p).2.1]
    by_cases hc : ev.p_mask m ≠ 0 ∧ ev.p_pair_indices_1 m = p
    · rw [if_pos hc]
      have h1 := hr m (Nat.lt_of_succ_le hm) hc.1
      rw [← eventsLoop_tile1_w f ev m1 m2 st (ev.p_pair_indices_1 m) m, hc.2] at h1
      exact sub_nonneg.mpr h1
    · rw [if_neg hc]
      exact ihm

theorem eventsLoop_tile2_nonneg (f : ParticleCreationFunc R) (ev : PairEvents R) (m1 m2 : R)
    (st : CreationState R) (n : Nat)
    (hw : ∀ p, 0 ≤ st.tile2.w p)
    (hr : ∀ i, i < n → ev.p_mask i ≠ 0 →
      ev.p_pair_reaction_weight i ≤ st.tile2.w (ev.p_pair_indices_2 i)
        - ∑ i' in (Finset.range i).filter
            (fun i' => ev.p_mask i' ≠ 0 ∧ ev.p_pair_indices_2 i' = ev.p_pair_indices_2 i),
            ev.p_pair_reaction_weight i')
    (m : Nat) (hm : m ≤ n) (p : Nat) :
    0 ≤ (forLoop (eventKernel f ev m1 m2) m st).tile2.w p := by
  induction m with
  | zero => exact hw p
  | succ m ih =>
    have ihm := ih (Nat.le_of_succ_le hm)
    show 0 ≤ (eventKernel f ev m1 m2 m (forLoop (eventKernel f ev m1 m2) m st)).tile2.w p
    rw [(eventKernel_tile2 f ev m1 m2 m _ p).2.1]
    by_cases hc : ev.p_mask m ≠ 0 ∧ ev.p_pair_indices_2 m = p
    · rw [if_pos hc]
      have h1 := hr m (Nat.lt_of_succ_le hm) hc.1
      rw [← eventsLoop_tile2_w f ev m1 m2 st (ev.p_pair_indices_2 m) m, hc.2] at h1
      exact sub_nonneg.mpr h1
    · rw [if_neg hc]
      exact ihm

/-- C11 (amended). If all parent weights are `>= 0` before the call and every
firing event's reaction weight does not exceed the weight either of its two
parents has when the event is reached (the parent's initial weight minus the
reaction weights of the earlier firing events that name it), then after
`ParticleCreationFunc::operator()` every parent weight is `>= 0`, and the
weight in every slot created for a firing event whose reaction weight is
`>= 0` is `>= 0`.  The external functors are taken to write no weight other
than that of their destination slot. -/
theorem ParticleCreationFunc_weights_nonneg (f : ParticleCreationFunc R) (ev : PairEvents R)
    (m1 m2 : R) (st : CreationState R)
    (hf : f.ExternalsFramed)
    (hw1 : ∀ p, 0 ≤ st.tile1.w p) (hw2 : ∀ p, 0 ≤ st.tile2.w p)
    (hr1 : ∀ i, i < ev.n_total_pairs → ev.p_mask i ≠ 0 →
      ev.p_pair_reaction_weight i ≤ st.tile1.w (ev.p_pair_indices_1 i)
        - ∑ i' in (Finset.range i).filter
            (fun i' => ev.p_mask i' ≠ 0 ∧ ev.p_pair_indices_1 i' = ev.p_pair_indices_1 i),
            ev.p_pair_reaction_weight i')
    (hr2 : ∀ i, i < ev.n_total_pairs → ev.p_mask i ≠ 0 →
      ev.p_pair_reaction_weight i ≤ st.tile2.w (ev.p_pair_indices_2 i)
        - ∑ i' in (Finset.range i).filter
            (fun i' => ev.p_mask i' ≠ 0 ∧ ev.p_pair_indices_2 i' = ev.p_pair_indices_2 i),
            ev.p_pair_reaction_weight i') :
    (∀ p, 0 ≤ (f.call ev m1 m2 st).2.tile1.w p)
    ∧ (∀ p, 0 ≤ (f.call ev m1 m2 st).2.tile2.w p)
    ∧ (∀ i j slot, i < ev.n_total_pairs → ev.p_mask i ≠ 0 → j < f.m_num_product_species →
        InBlock f ev i j slot → 0 ≤ ev.p_pair_reaction_weight i →
        0 ≤ ((f.call ev m1 m2 st).2.products j).w slot) := by
  unfold ParticleCreationFunc.call
  by_cases hne : ev.n_total_pairs = 0
  · rw [if_pos hne]
    refine ⟨hw1, hw2, fun i j slot hi => ?_⟩
    rw [hne] at hi
    exact absurd hi (Nat.not_lt_zero i)
  · rw [if_neg hne]
    refine ⟨fun p => ?_, fun p => ?_, fun i j slot hi hm hj hb hpos => ?_⟩
    · show 0 ≤ (forLoop (eventKernel f ev m1 m2) ev.n_total_pairs _).tile1.w p
      refine eventsLoop_tile1_nonneg f ev m1 m2 _ ev.n_total_pairs ?_ ?_ _ (le_refl _) p
      · exact hw1
      · exact hr1
    · show 0 ≤ (forLoop (eventKernel f ev m1 m2) ev.n_total_pairs _).tile2.w p
      refine eventsLoop_tile2_nonneg f ev m1 m2 _ ev.n_total_pairs ?_ ?_ _ (le_refl _) p
      · exact hw2
      · exact hr2
    · show 0 ≤ ((forLoop (eventKernel f ev m1 m2) ev.n_total_pairs _).products j).w slot
      rw [eventsLoop_products_w f ev m1 m2 _ hf i j slot ev.n_total_pairs hi hm hj hb]
      exact div_nonneg hpos zero_le_two

end CreationSign

/-- Witness for C11 (amended): two parents of weight 1, one firing event of
reaction weight 1. -/
theorem ParticleCreationFunc_weights_nonneg_witness :
    (∀ p, 0 ≤ ((oneProductFunc ℚ).call (oneEvent ℚ) 1 1 (twoParents ℚ)).2.tile1.w p)
    ∧ (∀ p, 0 ≤ ((oneProductFunc ℚ).call (oneEvent ℚ) 1 1 (twoParents ℚ)).2.tile2.w p)
    ∧ (∀ i j slot, i < (oneEvent ℚ).n_total_pairs → (oneEvent ℚ).p_mask i ≠ 0 →
        j < (oneProductFunc ℚ).m_num_product_species →
        InBlock (oneProductFunc ℚ) (oneEvent ℚ) i j slot →
        0 ≤ (oneEvent ℚ).p_pair_reaction_weight i →
        0 ≤ (((oneProductFunc ℚ).call (oneEvent ℚ) 1 1 (twoParents ℚ)).2.products j).w slot) :=
  ParticleCreationFunc_weights_nonneg (oneProductFunc ℚ) (oneEvent ℚ) 1 1 (twoParents ℚ)
    (oneProductFunc_framed ℚ)
    (fun _ => zero_le_one) (fun _ => zero_le_one)
    (fun i hi _ => by
      have h0 : i = 0 := Nat.lt_one_iff.mp hi
      subst h0
      simp [oneEvent, twoParents, uniformTile])
    (fun i hi _ => by
      have h0 : i = 0 := Nat.lt_one_iff.mp hi
      subst h0
      simp [oneEvent, twoParents, uniformTile])

/-- C11 as stated fails: two parents of weight 1 and one firing event of
reaction weight `-1`.  All parent weights are `>= 0`, the reaction weight does
not exceed either parent's weight, and the product created in slot
`product_index` of species 0 has weight `-1/2`. -/
theorem ParticleCreationFunc_weights_nonneg_counterexample :
    (∀ p, (0 : ℚ) ≤ (twoParents ℚ).tile1.w p)
    ∧ (∀ p, (0 : ℚ) ≤ (twoParents ℚ).tile2.w p)
    ∧ (oneEventOfWeight (-1 : ℚ)).p_mask 0 ≠ 0
    ∧ (oneEventOfWeight (-1 : ℚ)).p_pair_reaction_weight 0
        ≤ (twoParents ℚ).tile1.w ((oneEventOfWeight (-1 : ℚ)).p_pair_indices_1 0)
    ∧ (oneEventOfWeight (-1 : ℚ)).p_pair_reaction_weight 0
        ≤ (twoParents ℚ).tile2.w ((oneEventOfWeight (-1 : ℚ)).p_pair_indices_2 0)
    ∧ (((oneProductFunc ℚ).call (oneEventOfWeight (-1)) 1 1 (twoParents ℚ)).2.products 0).w
        (productIndex (oneProductFunc ℚ) (oneEventOfWeight (-1)) 0 0 0) < 0 := by
  refine ⟨fun _ => zero_le_one, fun _ => zero_le_one, Nat.one_ne_zero, ?_, ?_, ?_⟩
  · simp [oneEventOfWeight, twoParents, uniformTile]
  · simp [oneEventOfWeight, twoParents, uniformTile]
  · simp [ParticleCreationFunc.call, oneEventOfWeight, oneProductFunc, twoParents, forLoop,
      eventKernel, initProductMomentum, removeParentWeight, speciesBody, productBody,
      resizeBody, copyFromParent, keepMomentum, uniformTile, exclusiveSum, productIndex,
      ParticleTile.setW, ParticleTile.resize, ParticleTile.atomicSetID]
    norm_num

/-! ## Theorems: skip test, Coulomb logarithm and collision strength -/

section PerezStages

variable {R : Type} [LinearOrderedField R]

theorem noRelativeMotion_eq (F : MathFns R) (u1 u2 : Vec3 R) :
    noRelativeMotion F u1 u2
      = (decide (Vec3.mag F (u1.sub u2) < F.numeric_limits_min)
          || decide (Vec3.mag F (u1.sub u2) / (Vec3.mag F u1 + Vec3.mag F u2) < 1.0e-10)) := by
  simp only [noRelativeMotion, Vec3.mag, Vec3.normSq, Vec3.sub, abs_mul_abs_self]

/-- C16. `UpdateMomentumPerezElastic` returns both velocities unchanged, and
consumes no draw, for every pair with `u1 = u2` (both zero included) and, more
generally, whenever `|u1 - u2| / (|u1| + |u2|) < 1e-10`, for all values of the
densities, charges, masses, weights, `dt`, `L` and `lmdD`.  (The square root
of 0 is 0 and `numeric_limits::min()` is positive.) -/
theorem UpdateMomentumPerezElastic_no_relative_motion (F : MathFns R) (P : PhysConst R)
    (fuel : Nat) (u1 u2 : Vec3 R) (a : PairArgs R) (engine : RandomEngine R)
    (hs0 : F.sqrt 0 = 0) (hmin : 0 < F.numeric_limits_min)
    (h : u1 = u2 ∨ Vec3.mag F (u1.sub u2) / (Vec3.mag F u1 + Vec3.mag F u2) < 1.0e-10) :
    UpdateMomentumPerezElastic F P fuel u1 u2 a engine = some (u1, u2, engine) := by
  have hskip : noRelativeMotion F u1 u2 = true := by
    rw [noRelativeMotion_eq]
    rcases h with h | h
    · subst h
      have hz : Vec3.mag F (u1.sub u1) = 0 := by
        simp only [Vec3.mag, Vec3.normSq, Vec3.sub, sub_self, mul_zero, add_zero, hs0]
      rw [hz]
      simp [hmin]
    · simp [h]
  unfold UpdateMomentumPerezElastic
  rw [if_pos hskip]

/-- C17. The Coulomb logarithm `lnLmd` of `UpdateMomentumPerezElastic` is the
supplied `L` whenever `L > 0`; for every `L <= 0` it is
`max(2, 0.5*ln(1 + lmdD^2/bmin^2))` with `bmin = max(hbar*pi/|p1s|, b0)` and
`b0` the value of lines 104-106, so it is at least 2; and it is the value the
collision strength is computed from. -/
theorem coulombLog_value (F : MathFns R) (P : PhysConst R) (cf : ComFrame R)
    (a : PairArgs R) :
    (a.L > 0 → coulombLog F P cf a = a.L)
    ∧ (a.L ≤ 0 →
        coulombLog F P cf a
          = max 2 (0.5 * F.log (1 + a.lmdD * a.lmdD /
              (max (P.hbar * P.pi / cf.p1sm)
                  (|a.q1 * a.q2| * inv_c2 P / (4 * P.pi * P.ep0) * cf.gc / cf.mass_g *
                    (a.m1 * cf.g1s * a.m2 * cf.g2s / (cf.p1sm * cf.p1sm * inv_c2 P) + 1))
                * max (P.hbar * P.pi / cf.p1sm)
                  (|a.q1 * a.q2| * inv_c2 P / (4 * P.pi * P.ep0) * cf.gc / cf.mass_g *
                    (a.m1 * cf.g1s * a.m2 * cf.g2s / (cf.p1sm * cf.p1sm * inv_c2 P) + 1)))))
        ∧ 2 ≤ coulombLog F P cf a)
    ∧ collisionStrength F P cf a
        = min (sNanbu P cf a (coulombLog F P cf a)) (sPrime F P cf a) := by
  refine ⟨fun hL => ?_, fun hL => ?_, rfl⟩
  · unfold coulombLog
    rw [if_pos hL]
  · have hn : ¬ a.L > 0 := not_lt.mpr hL
    unfold coulombLog
    rw [if_neg hn]
    exact ⟨rfl, le_max_left _ _⟩

end PerezStages

/-- Witness for C16, over the reals: `u1 = (1, 0, 0)` and
`u2 = (1 + 10^(-11), 0, 0)`, whose relative difference is below `1e-10`. -/
theorem UpdateMomentumPerezElastic_no_relative_motion_witness :
    UpdateMomentumPerezElastic realFns (siConst ℝ) 0 ⟨1, 0, 0⟩ ⟨1 + 1 / 10 ^ 11, 0, 0⟩
        (unitPairArgs ℝ) (halfEngine ℝ)
      = some (⟨1, 0, 0⟩, ⟨1 + 1 / 10 ^ 11, 0, 0⟩, halfEngine ℝ) :=
  UpdateMomentumPerezElastic_no_relative_motion realFns (siConst ℝ) 0 ⟨1, 0, 0⟩
    ⟨1 + 1 / 10 ^ 11, 0, 0⟩ (unitPairArgs ℝ) (halfEngine ℝ) Real.sqrt_zero
    (by simp only [realFns]; positivity)
    (Or.inr (by
      simp only [Vec3.mag, Vec3.normSq, Vec3.sub, realFns, sub_self, mul_zero, add_zero,
        mul_one, Real.sqrt_one, Real.sqrt_mul_self_eq_abs]
      rw [abs_of_nonpos (by norm_num), abs_of_nonneg (by norm_num)]
      norm_num))

/-! ## Theorems: the deflection-cosine sampler -/

section Sampler

variable {R : Type} [LinearOrderedField R]

theorem loopDraw_shift {S : Type} (r : S) (engine : RandomEngine S) (j : Nat) :
    loopDraw (Random engine).1 (Random engine).2 j = loopDraw r engine (j + 1) := by
  cases j with
  | zero => rfl
  | succ j =>
    show engine.draws (engine.pos + 1 + j) = engine.draws (engine.pos + (j + 1))
    rw [Nat.add_assoc, Nat.add_comm 1 j]

theorem smallAngleLoop_accept (F : MathFns R) (s : R) (k : Nat) :
    ∀ (fuel : Nat) (r : R) (engine : RandomEngine R), k < fuel →
      (∀ j, j < k → ¬ (1 + s * F.log (loopDraw r engine j) ≥ -1)) →
      1 + s * F.log (loopDraw r engine k) ≥ -1 →
      smallAngleLoop F s fuel r engine
        = some (1 + s * F.log (loopDraw r engine k), ⟨engine.draws, engine.pos + k⟩) := by
  induction k with
  | zero =>
    intro fuel r engine hk _ hacc
    obtain ⟨fuel, rfl⟩ := Nat.exists_eq_succ_of_ne_zero (Nat.pos_iff_ne_zero.mp hk)
    have hacc0 : 1 + s * F.log r ≥ -1 := hacc
    simp only [smallAngleLoop, hacc0, if_true]
    rfl
  | succ k ih =>
    intro fuel r engine hk hrej hacc
    obtain ⟨fuel, rfl⟩ := Nat.exists_eq_succ_of_ne_zero
      (Nat.pos_iff_ne_zero.mp (Nat.zero_lt_of_lt hk))
    have hrej0 : ¬ (1 + s * F.log r ≥ -1) := hrej 0 (Nat.succ_pos k)
    simp only [smallAngleLoop, hrej0, if_false]
    rw [ih fuel (Random engine).1 (Random engine).2 (Nat.lt_of_succ_lt_succ hk)
      (fun j hj => by
        rw [loopDraw_shift r engine j]
        exact hrej (j + 1) (Nat.succ_lt_succ hj))
      (by
        rw [loopDraw_shift r engine k]
        exact hacc)]
    rw [loopDraw_shift r engine k]
    show some (_, (⟨engine.draws, engine.pos + 1 + k⟩ : RandomEngine R)) = _
    rw [Nat.add_assoc, Nat.add_comm 1 k]

theorem smallAngleLoop_some (F : MathFns R) (s : R) (fuel : Nat) :
    ∀ (r : R) (engine : RandomEngine R) (c : R) (e' : RandomEngine R),
      smallAngleLoop F s fuel r engine = some (c, e') →
      ∃ k, k < fuel
        ∧ (∀ j, j < k → ¬ (1 + s * F.log (loopDraw r engine j) ≥ -1))
        ∧ 1 + s * F.log (loopDraw r engine k) ≥ -1
        ∧ c = 1 + s * F.log (loopDraw r engine k)
        ∧ e' = ⟨engine.draws, engine.pos + k⟩ := by
  induction fuel with
  | zero =>
    intro r engine c e' h
    exact absurd h (by simp [smallAngleLoop])
  | succ fuel ih =>
    intro r engine c e' h
    by_cases hacc : 1 + s * F.log r ≥ -1
    · simp only [smallAngleLoop, hacc, if_true, Option.some.injEq, Prod.mk.injEq] at h
      refine ⟨0, Nat.succ_pos fuel, fun j hj => absurd hj (Nat.not_lt_zero j), hacc, h.1.symm, ?_⟩
      rw [← h.2]
      rfl
    · simp only [smallAngleLoop, hacc, if_false] at h
      obtain ⟨k, hk, hrej, hk1, hc, he⟩ := ih _ _ c e' h
      refine ⟨k + 1, Nat.succ_lt_succ hk, fun j hj => ?_, ?_, ?_, ?_⟩
      · cases j with
        | zero => exact hacc
        | succ j =>
          rw [← loopDraw_shift r engine j]
          exact hrej j (Nat.lt_of_succ_lt_succ hj)
      · rw [← loopDraw_shift r engine k]
        exact hk1
      · rw [← loopDraw_shift r engine k]
        exact hc
      · rw [he]
        show (⟨engine.draws, engine.pos + 1 + k⟩ : RandomEngine R) = _
        rw [Nat.add_assoc, Nat.add_comm 1 k]

/-- C19. For every `s` exactly one of the four regime conditions of the
deflection-cosine sampler holds, and the sampler follows it: for `s <= 0.1`
the retry loop, whose result is `1 + s*ln(r')` for one of the draws `r'`; for
`0.1 < s <= 3.0` the first fitted inversion; for `3.0 < s <= 6.0` the second
fitted inversion with `A = 3*exp(-s)`; and for `s > 6.0` the cosine `2r - 1`,
which lies in `[-1, 1)` for every draw `r` in `[0, 1)`. -/
theorem sampleCosXs_regimes (F : MathFns R) (s r : R) (fuel : Nat)
    (engine : RandomEngine R) :
    ((if s ≤ 0.1 then 1 else 0) + (if 0.1 < s ∧ s ≤ 3.0 then 1 else 0)
        + (if 3.0 < s ∧ s ≤ 6.0 then 1 else 0) + (if 6.0 < s then 1 else 0) = 1)
    ∧ (s ≤ 0.1 →
        sampleCosXs F s fuel r engine = smallAngleLoop F s fuel r engine
        ∧ (1 + s * F.log r ≥ -1 →
            sampleCosXs F s (fuel + 1) r engine = some (1 + s * F.log r, engine))
        ∧ ∀ c e', sampleCosXs F s fuel r engine = some (c, e') →
            ∃ k, k < fuel ∧ c = 1 + s * F.log (loopDraw r engine k))
    ∧ (0.1 < s → s ≤ 3.0 →
        sampleCosXs F s fuel r engine
          = some ((0.0056958 + 0.9560202 * s - 0.508139 * s * s + 0.47913906 * s * s * s
                    - 0.12788975 * s * s * s * s + 0.02389567 * s * s * s * s * s)
                  * F.log (F.exp (-1.0 / (0.0056958 + 0.9560202 * s - 0.508139 * s * s
                      + 0.47913906 * s * s * s - 0.12788975 * s * s * s * s
                      + 0.02389567 * s * s * s * s * s))
                    + 2.0 * r * F.sinh (1.0 / (0.0056958 + 0.9560202 * s - 0.508139 * s * s
                      + 0.47913906 * s * s * s - 0.12788975 * s * s * s * s
                      + 0.02389567 * s * s * s * s * s))), engine))
    ∧ (3.0 < s → s ≤ 6.0 →
        sampleCosXs F s fuel r engine
          = some (1.0 / (3.0 * F.exp (-s))
                  * F.log (F.exp (-(3.0 * F.exp (-s))) + 2.0 * r * F.sinh (3.0 * F.exp (-s))),
                engine))
    ∧ (6.0 < s →
        sampleCosXs F s fuel r engine = some (2.0 * r - 1.0, engine)
        ∧ (0 ≤ r → r < 1 → -1 ≤ 2.0 * r - 1.0 ∧ 2.0 * r - 1.0 < 1)) := by
  have h13 : (0.1 : R) < 3.0 := by norm_num
  have h36 : (3.0 : R) < 6.0 := by norm_num
  refine ⟨?_, fun h1 => ⟨?_, fun hacc => ?_, fun c e' h => ?_⟩, fun h1 h2 => ?_,
    fun h1 h2 => ?_, fun h1 => ⟨?_, fun hr0 hr1 => ?_⟩⟩
  · by_cases c1 : s ≤ 0.1
    · have c2 : ¬ (0.1 < s ∧ s ≤ 3.0) := fun h => absurd h.1 (not_lt.mpr c1)
      have c3 : ¬ (3.0 < s ∧ s ≤ 6.0) := fun h => absurd (h13.trans h.1) (not_lt.mpr c1)
      have c4 : ¬ (6.0 < s) := fun h => absurd (h13.trans (h36.trans h)) (not_lt.mpr c1)
      rw [if_pos c1, if_neg c2, if_neg c3, if_neg c4]
    · have c1' : 0.1 < s := not_le.mp c1
      by_cases c2 : s ≤ 3.0
      · have c3 : ¬ (3.0 < s ∧ s ≤ 6.0) := fun h => absurd h.1 (not_lt.mpr c2)
        have c4 : ¬ (6.0 < s) := fun h => absurd (h36.trans h) (not_lt.mpr c2)
        rw [if_neg c1, if_pos ⟨c1', c2⟩, if_neg c3, if_neg c4]
      · have c2' : 3.0 < s := not_le.mp c2
        have c2n : ¬ (0.1 < s ∧ s ≤ 3.0) := fun h => c2 h.2
        by_cases c3 : s ≤ 6.0
        · have c4 : ¬ (6.0 < s) := not_lt.mpr c3
          rw [if_neg c1, if_neg c2n, if_pos ⟨c2', c3⟩, if_neg c4]
        · have c3n : ¬ (3.0 < s ∧ s ≤ 6.0) := fun h => c3 h.2
          rw [if_neg c1, if_neg c2n, if_neg c3n, if_pos (not_le.mp c3)]
  · unfold sampleCosXs
    rw [if_pos h1]
  · unfold sampleCosXs
    rw [if_pos h1]
    simp only [smallAngleLoop, hacc, if_true]
  · unfold sampleCosXs at h
    rw [if_pos h1] at h
    obtain ⟨k, hk, _, _, hc, _⟩ := smallAngleLoop_some F s fuel r engine c e' h
    exact ⟨k, hk, hc⟩
  · unfold sampleCosXs
    rw [if_neg (not_le.mpr h1), if_pos ⟨h1, h2⟩]
  · have n1 : ¬ s ≤ 0.1 := not_le.mpr (h13.trans h1)
    have n2 : ¬ (s > 0.1 ∧ s ≤ 3.0) := fun h => absurd h1 (not_lt.mpr h.2)
    unfold sampleCosXs
    rw [if_neg n1, if_neg n2, if_pos ⟨h1, h2⟩]
  · have n1 : ¬ s ≤ 0.1 := not_le.mpr (h13.trans (h36.trans h1))
    have n2 : ¬ (s > 0.1 ∧ s ≤ 3.0) := fun h => absurd (h36.trans h1) (not_lt.mpr h.2)
    have n3 : ¬ (s > 3.0 ∧ s ≤ 6.0) := fun h => absurd h1 (not_lt.mpr h.2)
    unfold sampleCosXs
    rw [if_neg n1, if_neg n2, if_neg n3]
  · constructor
    · norm_num
      exact hr0
    · norm_num
      linarith

end Sampler

/-! ## Theorems: the small-angle regime over the reals -/

theorem smallAngleLoop_first {R : Type} [LinearOrderedField R] (F : MathFns R) (s r : R)
    (fuel : Nat) (engine : RandomEngine R) (hacc : 1 + s * F.log r ≥ -1) :
    smallAngleLoop F s (fuel + 1) r engine = some (1 + s * F.log r, engine) := by
  simp only [smallAngleLoop, hacc, if_true]

theorem sampleCosXs_small {R : Type} [LinearOrderedField R] (F : MathFns R) (s r : R)
    (fuel : Nat) (engine : RandomEngine R) (h : s ≤ 0.1) :
    sampleCosXs F s fuel r engine = smallAngleLoop F s fuel r engine := by
  unfold sampleCosXs
  rw [if_pos h]

theorem loopDraw_unit_interval (r : ℝ) (engine : RandomEngine ℝ) (hr0 : 0 < r) (hr1 : r < 1)
    (hd : ∀ k, 0 < engine.draws k ∧ engine.draws k < 1) (k : Nat) :
    0 < loopDraw r engine k ∧ loopDraw r engine k < 1 := by
  cases k with
  | zero => exact ⟨hr0, hr1⟩
  | succ k => exact hd (engine.pos + k)

/-- C20. In the small-angle regime `0 <= s <= 0.1`, over the reals and with
draws in `(0, 1)`: whenever the sampler returns, its cosine is `1 + s*ln(r')`
for the first draw `r'` with `1 + s*ln(r') >= -1`, all earlier draws having
been rejected, and it lies in `[-1, 1]`; the sampler does return once such a
draw is met within the fuel; a draw `r >= exp(-2/s)` is accepted without
retry; at `s = 0` the cosine is exactly 1; and for fixed `r` the cosine
`1 + s*ln(r)`, which is what the sampler returns for all small enough `s`,
tends to 1 as `s` tends to 0. -/
theorem sampleCosXs_small_angle (s r : ℝ) (fuel : Nat) (engine : RandomEngine ℝ)
    (hs0 : 0 ≤ s) (hs1 : s ≤ 0.1) (hr0 : 0 < r) (hr1 : r < 1)
    (hd : ∀ k, 0 < engine.draws k ∧ engine.draws k < 1) :
    (∀ c e', sampleCosXs realFns s fuel r engine = some (c, e') →
        -1 ≤ c ∧ c ≤ 1
        ∧ ∃ k, k < fuel
          ∧ 0 < loopDraw r engine k ∧ loopDraw r engine k < 1
          ∧ c = 1 + s * Real.log (loopDraw r engine k)
          ∧ (∀ j, j < k → 1 + s * Real.log (loopDraw r engine j) < -1)
          ∧ e' = ⟨engine.draws, engine.pos + k⟩)
    ∧ (∀ k, k < fuel →
        (∀ j, j < k → 1 + s * Real.log (loopDraw r engine j) < -1) →
        -1 ≤ 1 + s * Real.log (loopDraw r engine k) →
        sampleCosXs realFns s fuel r engine
          = some (1 + s * Real.log (loopDraw r engine k), ⟨engine.draws, engine.pos + k⟩))
    ∧ (Real.exp (-2 / s) ≤ r →
        sampleCosXs realFns s (fuel + 1) r engine = some (1 + s * Real.log r, engine))
    ∧ sampleCosXs realFns 0 (fuel + 1) r engine = some (1, engine)
    ∧ Filter.Tendsto (fun t : ℝ => 1 + t * Real.log r) (nhds 0) (nhds 1)
    ∧ ∃ δ : ℝ, 0 < δ ∧ ∀ t, 0 ≤ t → t ≤ δ →
        sampleCosXs realFns t (fuel + 1) r engine = some (1 + t * Real.log r, engine) := by
  have hlogr : Real.log r < 0 := Real.log_neg hr0 hr1
  have h01 : (0 : ℝ) ≤ 0.1 := by norm_num
  refine ⟨fun c e' h => ?_, fun k hk hrej hacc => ?_, fun hexp => ?_, ?_, ?_, ?_⟩
  · rw [sampleCosXs_small realFns s r fuel engine hs1] at h
    obtain ⟨k, hk, hrej, hacc, hc, he⟩ := smallAngleLoop_some realFns s fuel r engine c e' h
    obtain ⟨d0, d1⟩ := loopDraw_unit_interval r engine hr0 hr1 hd k
    have hlog : Real.log (loopDraw r engine k) ≤ 0 := Real.log_nonpos d0.le d1.le
    have hc' : c = 1 + s * Real.log (loopDraw r engine k) := hc
    have hacc' : 1 + s * Real.log (loopDraw r engine k) ≥ -1 := hacc
    refine ⟨by rw [hc']; exact hacc', ?_, k, hk, d0, d1, hc', fun j hj => ?_, he⟩
    · rw [hc']
      have := mul_nonpos_iff.mpr (Or.inl ⟨hs0, hlog⟩)
      linarith
    · exact not_le.mp (hrej j hj)
  · rw [sampleCosXs_small realFns s r fuel engine hs1]
    exact smallAngleLoop_accept realFns s k fuel r engine hk
      (fun j hj => not_le.mpr (hrej j hj)) hacc
  · rw [sampleCosXs_small realFns s r (fuel + 1) engine hs1]
    apply smallAngleLoop_first realFns s r fuel engine
    show 1 + s * Real.log r ≥ -1
    rcases hs0.lt_or_eq with hpos | hzero
    · have h1 : -2 / s ≤ Real.log r := (Real.le_log_iff_exp_le hr0).mpr hexp
      have h2 : s * (-2 / s) ≤ s * Real.log r := mul_le_mul_of_nonneg_left h1 hs0
      rw [mul_div_cancel₀ _ hpos.ne'] at h2
      linarith
    · rw [← hzero]
      norm_num
  · rw [sampleCosXs_small realFns 0 r (fuel + 1) engine h01]
    have h := smallAngleLoop_first realFns 0 r fuel engine
      (show 1 + (0 : ℝ) * realFns.log r ≥ -1 by norm_num)
    rw [h, zero_mul, add_zero]
  · have hcont : Continuous (fun t : ℝ => 1 + t * Real.log r) :=
      continuous_const.add (continuous_id.mul continuous_const)
    exact hcont.tendsto' 0 1 (by norm_num)
  · refine ⟨min 0.1 (2 / (-Real.log r)), lt_min (by norm_num)
      (div_pos two_pos (neg_pos.mpr hlogr)), fun t ht0 htd => ?_⟩
    have ht1 : t ≤ 0.1 := htd.trans (min_le_left _ _)
    have ht2 : t ≤ 2 / (-Real.log r) := htd.trans (min_le_right _ _)
    rw [sampleCosXs_small realFns t r (fuel + 1) engine ht1]
    apply smallAngleLoop_first realFns t r fuel engine
    show 1 + t * Real.log r ≥ -1
    have h3 : t * (-Real.log r) ≤ 2 := (le_div_iff₀ (neg_pos.mpr hlogr)).mp ht2
    linarith

/-- Witness for C20: `s = 1/20`, first draw `1/2`, and the engine whose every
draw is `1/2`. -/
theorem sampleCosXs_small_angle_witness :
    (∀ c e', sampleCosXs realFns (1 / 20) 1 (1 / 2) (halfEngine ℝ) = some (c, e') →
        -1 ≤ c ∧ c ≤ 1
        ∧ ∃ k, k < 1
          ∧ 0 < loopDraw (1 / 2) (halfEngine ℝ) k ∧ loopDraw (1 / 2) (halfEngine ℝ) k < 1
          ∧ c = 1 + 1 / 20 * Real.log (loopDraw (1 / 2) (halfEngine ℝ) k)
          ∧ (∀ j, j < k → 1 + 1 / 20 * Real.log (loopDraw (1 / 2) (halfEngine ℝ) j) < -1)
          ∧ e' = ⟨(halfEngine ℝ).draws, (halfEngine ℝ).pos + k⟩)
    ∧ (∀ k, k < 1 →
        (∀ j, j < k → 1 + 1 / 20 * Real.log (loopDraw (1 / 2) (halfEngine ℝ) j) < -1) →
        -1 ≤ 1 + 1 / 20 * Real.log (loopDraw (1 / 2) (halfEngine ℝ) k) →
        sampleCosXs realFns (1 / 20) 1 (1 / 2) (halfEngine ℝ)
          = some (1 + 1 / 20 * Real.log (loopDraw (1 / 2) (halfEngine ℝ) k),
              ⟨(halfEngine ℝ).draws, (halfEngine ℝ).pos + k⟩))
    ∧ (Real.exp (-2 / (1 / 20)) ≤ 1 / 2 →
        sampleCosXs realFns (1 / 20) (1 + 1) (1 / 2) (halfEngine ℝ)
          = some (1 + 1 / 20 * Real.log (1 / 2), halfEngine ℝ))
    ∧ sampleCosXs realFns 0 (1 + 1) (1 / 2) (halfEngine ℝ) = some (1, halfEngine ℝ)
    ∧ Filter.Tendsto (fun t : ℝ => 1 + t * Real.log (1 / 2)) (nhds 0) (nhds 1)
    ∧ ∃ δ : ℝ, 0 < δ ∧ ∀ t, 0 ≤ t → t ≤ δ →
        sampleCosXs realFns t (1 + 1) (1 / 2) (halfEngine ℝ)
          = some (1 + t * Real.log (1 / 2), halfEngine ℝ) :=
  sampleCosXs_small_angle (1 / 20) (1 / 2) 1 (halfEngine ℝ) (by norm_num) (by norm_num)
    (by norm_num) (by norm_num)
    (fun _ => by simp only [halfEngine]; norm_num)

/-! ## Theorems: the rejection tests of `UpdateMomentumPerezElastic` -/

section Rejection

variable {R : Type} [LinearOrderedField R]

theorem scatterAndReject_eq (F : MathFns R) (P : PhysConst R) (cf : ComFrame R)
    (a : PairArgs R) (u1 u2 : Vec3 R) (cosXs : R) (engine : RandomEngine R) :
    scatterAndReject F P cf a u1 u2 cosXs engine
      = (if a.w2 > engine.draws (engine.pos + 1) * max a.w1 a.w2
          then (candidateVelocities F P cf a cosXs engine).1 else u1,
         if a.w1 > engine.draws (engine.pos + 2) * max a.w1 a.w2
          then (candidateVelocities F P cf a cosXs engine).2 else u2,
         ⟨engine.draws, engine.pos + 3⟩) := rfl

theorem UpdateMomentumPerezElastic_some (F : MathFns R) (P : PhysConst R) (fuel : Nat)
    (u1 u2 : Vec3 R) (a : PairArgs R) (engine : RandomEngine R)
    (out : Vec3 R × Vec3 R × RandomEngine R)
    (hskip : noRelativeMotion F u1 u2 = false)
    (hout : UpdateMomentumPerezElastic F P fuel u1 u2 a engine = some out) :
    ∃ cosXs e2,
      sampleCosXs F (collisionStrength F P (comFrame F P u1 u2 a.m1 a.m2) a) fuel
          (Random engine).1 (Random engine).2 = some (cosXs, e2)
      ∧ out = scatterAndReject F P (comFrame F P u1 u2 a.m1 a.m2) a u1 u2 cosXs e2 := by
  unfold UpdateMomentumPerezElastic at hout
  rw [hskip] at hout
  simp only [Bool.false_eq_true, if_false] at hout
  split at hout
  · exact absurd hout (by simp)
  · rename_i cosXs e2 heq
    exact ⟨cosXs, e2, heq, (Option.some.inj hout).symm⟩

theorem sampleCosXs_draws (F : MathFns R) (s r : R) (fuel : Nat) (engine : RandomEngine R)
    (c : R) (e' : RandomEngine R) (h : sampleCosXs F s fuel r engine = some (c, e')) :
    e'.draws = engine.draws := by
  unfold sampleCosXs at h
  split_ifs at h
  · obtain ⟨k, _, _, _, _, he⟩ := smallAngleLoop_some F s fuel r engine c e' h
    rw [he]
  · rw [← (Prod.mk.inj (Option.some.inj h)).2]
  · rw [← (Prod.mk.inj (Option.some.inj h)).2]
  · rw [← (Prod.mk.inj (Option.some.inj h)).2]

theorem rejection_test_iff (w wo r : R) (hw : 0 < w) :
    wo > r * max w wo ↔ r < wo / max w wo := by
  have hmax : 0 < max w wo := lt_max_of_lt_left hw
  exact (lt_div_iff₀ hmax).symm

/-- C21. On a pair that is not skipped and for which the call returns, with
`w1, w2 > 0` and `r`, `r'` the two draws that follow the azimuthal draw:
particle 1 receives the new velocity `p1f/m1` if `r < w2 / max(w1,w2)` and
keeps its input velocity otherwise; particle 2 receives `p2f/m2` if
`r' < w1 / max(w1,w2)` and keeps its input velocity otherwise. -/
theorem UpdateMomentumPerezElastic_rejection (F : MathFns R) (P : PhysConst R) (fuel : Nat)
    (u1 u2 : Vec3 R) (a : PairArgs R) (engine : RandomEngine R)
    (out : Vec3 R × Vec3 R × RandomEngine R)
    (hw1 : 0 < a.w1) (hw2 : 0 < a.w2)
    (hskip : noRelativeMotion F u1 u2 = false)
    (hout : UpdateMomentumPerezElastic F P fuel u1 u2 a engine = some out) :
    ∃ cosXs e2,
      sampleCosXs F (collisionStrength F P (comFrame F P u1 u2 a.m1 a.m2) a) fuel
          (Random engine).1 (Random engine).2 = some (cosXs, e2)
      ∧ (e2.draws (e2.pos + 1) < a.w2 / max a.w1 a.w2 →
          out.1 = (candidateVelocities F P (comFrame F P u1 u2 a.m1 a.m2) a cosXs e2).1)
      ∧ (¬ e2.draws (e2.pos + 1) < a.w2 / max a.w1 a.w2 → out.1 = u1)
      ∧ (e2.draws (e2.pos + 2) < a.w1 / max a.w1 a.w2 →
          out.2.1 = (candidateVelocities F P (comFrame F P u1 u2 a.m1 a.m2) a cosXs e2).2)
      ∧ (¬ e2.draws (e2.pos + 2) < a.w1 / max a.w1 a.w2 → out.2.1 = u2)
      ∧ out.2.2 = ⟨e2.draws, e2.pos + 3⟩ := by
  obtain ⟨cosXs, e2, hs, ho⟩ := UpdateMomentumPerezElastic_some F P fuel u1 u2 a engine out
    hskip hout
  rw [scatterAndReject_eq] at ho
  have i1 := rejection_test_iff a.w1 a.w2 (e2.draws (e2.pos + 1)) hw1
  have i2 : a.w1 > e2.draws (e2.pos + 2) * max a.w1 a.w2
      ↔ e2.draws (e2.pos + 2) < a.w1 / max a.w1 a.w2 := by
    rw [max_comm]
    exact rejection_test_iff a.w2 a.w1 (e2.draws (e2.pos + 2)) hw2
  refine ⟨cosXs, e2, hs, fun h => ?_, fun h => ?_, fun h => ?_, fun h => ?_, ?_⟩
  · rw [ho]
    exact if_pos (i1.mpr h)
  · rw [ho]
    exact if_neg (fun h' => h (i1.mp h'))
  · rw [ho]
    exact if_pos (i2.mpr h)
  · rw [ho]
    exact if_neg (fun h' => h (i2.mp h'))
  · rw [ho]

/-- C29. On a pair that is not skipped and for which the call returns, with
`w1, w2 > 0` and every draw below 1: if `w1 <= w2` particle 1 receives the new
velocity `p1f/m1`, if `w2 <= w1` particle 2 receives `p2f/m2`, and with equal
weights both do. -/
theorem UpdateMomentumPerezElastic_lighter_updated (F : MathFns R) (P : PhysConst R)
    (fuel : Nat) (u1 u2 : Vec3 R) (a : PairArgs R) (engine : RandomEngine R)
    (out : Vec3 R × Vec3 R × RandomEngine R)
    (hw1 : 0 < a.w1) (hw2 : 0 < a.w2)
    (hr : ∀ k, 0 ≤ engine.draws k ∧ engine.draws k < 1)
    (hskip : noRelativeMotion F u1 u2 = false)
    (hout : UpdateMomentumPerezElastic F P fuel u1 u2 a engine = some out) :
    ∃ cosXs e2,
      sampleCosXs F (collisionStrength F P (comFrame F P u1 u2 a.m1 a.m2) a) fuel
          (Random engine).1 (Random engine).2 = some (cosXs, e2)
      ∧ (a.w1 ≤ a.w2 →
          out.1 = (candidateVelocities F P (comFrame F P u1 u2 a.m1 a.m2) a cosXs e2).1)
      ∧ (a.w2 ≤ a.w1 →
          out.2.1 = (candidateVelocities F P (comFrame F P u1 u2 a.m1 a.m2) a cosXs e2).2)
      ∧ (a.w1 = a.w2 →
          out.1 = (candidateVelocities F P (comFrame F P u1 u2 a.m1 a.m2) a cosXs e2).1
          ∧ out.2.1 = (candidateVelocities F P (comFrame F P u1 u2 a.m1 a.m2) a cosXs e2).2) := by
  obtain ⟨cosXs, e2, hs, ho⟩ := UpdateMomentumPerezElastic_some F P fuel u1 u2 a engine out
    hskip hout
  rw [scatterAndReject_eq] at ho
  have hd : e2.draws = engine.draws :=
    sampleCosXs_draws F _ (Random engine).1 fuel (Random engine).2 cosXs e2 hs
  have k1 : a.w1 ≤ a.w2 → a.w2 > e2.draws (e2.pos + 1) * max a.w1 a.w2 := by
    intro hle
    rw [max_eq_right hle, hd]
    have := (hr (e2.pos + 1)).2
    calc engine.draws (e2.pos + 1) * a.w2 < 1 * a.w2 := mul_lt_mul_of_pos_right this hw2
      _ = a.w2 := one_mul _
  have k2 : a.w2 ≤ a.w1 → a.w1 > e2.draws (e2.pos + 2) * max a.w1 a.w2 := by
    intro hle
    rw [max_eq_left hle, hd]
    have := (hr (e2.pos + 2)).2
    calc engine.draws (e2.pos + 2) * a.w1 < 1 * a.w1 := mul_lt_mul_of_pos_right this hw1
      _ = a.w1 := one_mul _
  have r1 : a.w1 ≤ a.w2 →
      out.1 = (candidateVelocities F P (comFrame F P u1 u2 a.m1 a.m2) a cosXs e2).1 := by
    intro hle
    rw [ho]
    exact if_pos (k1 hle)
  have r2 : a.w2 ≤ a.w1 →
      out.2.1 = (candidateVelocities F P (comFrame F P u1 u2 a.m1 a.m2) a cosXs e2).2 := by
    intro hle
    rw [ho]
    exact if_pos (k2 hle)
  exact ⟨cosXs, e2, hs, r1, r2, fun he => ⟨r1 he.le, r2 he.ge⟩⟩

end Rejection

theorem unit_pair_returns :
    ∃ out : Vec3 ℝ × Vec3 ℝ × RandomEngine ℝ,
      UpdateMomentumPerezElastic realFns (siConst ℝ) 1 ⟨1, 0, 0⟩ ⟨0, 0, 0⟩
        (unitPairArgs ℝ) (halfEngine ℝ) = some out := by
  obtain ⟨c, hc⟩ := sampleCosXs_half
    (collisionStrength realFns (siConst ℝ)
      (comFrame realFns (siConst ℝ) ⟨1, 0, 0⟩ ⟨0, 0, 0⟩ 1 1) (unitPairArgs ℝ)) 1
  refine ⟨scatterAndReject realFns (siConst ℝ)
    (comFrame realFns (siConst ℝ) ⟨1, 0, 0⟩ ⟨0, 0, 0⟩ 1 1) (unitPairArgs ℝ)
    ⟨1, 0, 0⟩ ⟨0, 0, 0⟩ c ⟨fun _ => 1 / 2, 1⟩, ?_⟩
  unfold UpdateMomentumPerezElastic
  rw [noRelativeMotion_unit]
  simp only [Bool.false_eq_true, if_false]
  have e : sampleCosXs realFns
      (collisionStrength realFns (siConst ℝ)
        (comFrame realFns (siConst ℝ) ⟨1, 0, 0⟩ ⟨0, 0, 0⟩
          (unitPairArgs ℝ).m1 (unitPairArgs ℝ).m2) (unitPairArgs ℝ)) 1
      (Random (halfEngine ℝ)).1 (Random (halfEngine ℝ)).2
      = some (c, ⟨fun _ => 1 / 2, 1⟩) := hc
  rw [e]
  rfl

/-- Witness for C21, over the reals: `u1 = (1, 0, 0)`, `u2 = 0`, unit masses
and weights, every draw equal to `1/2`. -/
theorem UpdateMomentumPerezElastic_rejection_witness :
    ∃ out : Vec3 ℝ × Vec3 ℝ × RandomEngine ℝ,
      UpdateMomentumPerezElastic realFns (siConst ℝ) 1 ⟨1, 0, 0⟩ ⟨0, 0, 0⟩
        (unitPairArgs ℝ) (halfEngine ℝ) = some out
      ∧ ∃ cosXs e2,
        sampleCosXs realFns (collisionStrength realFns (siConst ℝ)
            (comFrame realFns (siConst ℝ) ⟨1, 0, 0⟩ ⟨0, 0, 0⟩ (unitPairArgs ℝ).m1
              (unitPairArgs ℝ).m2) (unitPairArgs ℝ)) 1
            (Random (halfEngine ℝ)).1 (Random (halfEngine ℝ)).2 = some (cosXs, e2)
        ∧ (e2.draws (e2.pos + 1) < (unitPairArgs ℝ).w2
              / max (unitPairArgs ℝ).w1 (unitPairArgs ℝ).w2 →
            out.1 = (candidateVelocities realFns (siConst ℝ)
              (comFrame realFns (siConst ℝ) ⟨1, 0, 0⟩ ⟨0, 0, 0⟩ (unitPairArgs ℝ).m1
                (unitPairArgs ℝ).m2) (unitPairArgs ℝ) cosXs e2).1)
        ∧ (¬ e2.draws (e2.pos + 1) < (unitPairArgs ℝ).w2
              / max (unitPairArgs ℝ).w1 (unitPairArgs ℝ).w2 → out.1 = ⟨1, 0, 0⟩)
        ∧ (e2.draws (e2.pos + 2) < (unitPairArgs ℝ).w1
              / max (unitPairArgs ℝ).w1 (unitPairArgs ℝ).w2 →
            out.2.1 = (candidateVelocities realFns (siConst ℝ)
              (comFrame realFns (siConst ℝ) ⟨1, 0, 0⟩ ⟨0, 0, 0⟩ (unitPairArgs ℝ).m1
                (unitPairArgs ℝ).m2) (unitPairArgs ℝ) cosXs e2).2)
        ∧ (¬ e2.draws (e2.pos + 2) < (unitPairArgs ℝ).w1
              / max (unitPairArgs ℝ).w1 (unitPairArgs ℝ).w2 → out.2.1 = ⟨0, 0, 0⟩)
        ∧ out.2.2 = ⟨e2.draws, e2.pos + 3⟩ := by
  obtain ⟨out, hout⟩ := unit_pair_returns
  exact ⟨out, hout, UpdateMomentumPerezElastic_rejection realFns (siConst ℝ) 1 ⟨1, 0, 0⟩
    ⟨0, 0, 0⟩ (unitPairArgs ℝ) (halfEngine ℝ) out
    (by simp only [unitPairArgs]; norm_num) (by simp only [unitPairArgs]; norm_num)
    noRelativeMotion_unit hout⟩

/-- Witness for C29, over the reals: the same pair, whose weights are equal. -/
theorem UpdateMomentumPerezElastic_lighter_updated_witness :
    ∃ out : Vec3 ℝ × Vec3 ℝ × RandomEngine ℝ,
      UpdateMomentumPerezElastic realFns (siConst ℝ) 1 ⟨1, 0, 0⟩ ⟨0, 0, 0⟩
        (unitPairArgs ℝ) (halfEngine ℝ) = some out
      ∧ ∃ cosXs e2,
        sampleCosXs realFns (collisionStrength realFns (siConst ℝ)
            (comFrame realFns (siConst ℝ) ⟨1, 0, 0⟩ ⟨0, 0, 0⟩ (unitPairArgs ℝ).m1
              (unitPairArgs ℝ).m2) (unitPairArgs ℝ)) 1
            (Random (halfEngine ℝ)).1 (Random (halfEngine ℝ)).2 = some (cosXs, e2)
        ∧ ((unitPairArgs ℝ).w1 ≤ (unitPairArgs ℝ).w2 →
            out.1 = (candidateVelocities realFns (siConst ℝ)
              (comFrame realFns (siConst ℝ) ⟨1, 0, 0⟩ ⟨0, 0, 0⟩ (unitPairArgs ℝ).m1
                (unitPairArgs ℝ).m2) (unitPairArgs ℝ) cosXs e2).1)
        ∧ ((unitPairArgs ℝ).w2 ≤ (unitPairArgs ℝ).w1 →
            out.2.1 = (candidateVelocities realFns (siConst ℝ)
              (comFrame realFns (siConst ℝ) ⟨1, 0, 0⟩ ⟨0, 0, 0⟩ (unitPairArgs ℝ).m1
                (unitPairArgs ℝ).m2) (unitPairArgs ℝ) cosXs e2).2)
        ∧ ((unitPairArgs ℝ).w1 = (unitPairArgs ℝ).w2 →
            out.1 = (candidateVelocities realFns (siConst ℝ)
              (comFrame realFns (siConst ℝ) ⟨1, 0, 0⟩ ⟨0, 0, 0⟩ (unitPairArgs ℝ).m1
                (unitPairArgs ℝ).m2) (unitPairArgs ℝ) cosXs e2).1
            ∧ out.2.1 = (candidateVelocities realFns (siConst ℝ)
              (comFrame realFns (siConst ℝ) ⟨1, 0, 0⟩ ⟨0, 0, 0⟩ (unitPairArgs ℝ).m1
                (unitPairArgs ℝ).m2) (unitPairArgs ℝ) cosXs e2).2) := by
  obtain ⟨out, hout⟩ := unit_pair_returns
  exact ⟨out, hout, UpdateMomentumPerezElastic_lighter_updated realFns (siConst ℝ) 1 ⟨1, 0, 0⟩
    ⟨0, 0, 0⟩ (unitPairArgs ℝ) (halfEngine ℝ) out
    (by simp only [unitPairArgs]; norm_num) (by simp only [unitPairArgs]; norm_num)
    (fun _ => by simp only [halfEngine]; norm_num)
    noRelativeMotion_unit hout⟩

/-! ## Theorems: frame and output slots of `ParticleCreationFunc` -/

section CreationFrame

variable {R : Type} [LinearOrderedField R]

theorem not_inBlock_below {S : Type} (f : ParticleCreationFunc S) (ev : PairEvents S)
    (i j slot : Nat) (h : slot < ev.products_np j) : ¬ InBlock f ev i j slot := by
  rintro ⟨k, _, hk⟩
  unfold productIndex at hk
  omega

theorem eventsLoop_products_below (f : ParticleCreationFunc R) (ev : PairEvents R) (m1 m2 : R)
    (st : CreationState R) (hf : f.ExternalsFramed) (j slot : Nat)
    (h : slot < ev.products_np j) (n : Nat) :
    ((forLoop (eventKernel f ev m1 m2) n st).products j).w slot = (st.products j).w slot := by
  induction n with
  | zero => rfl
  | succ n ih =>
    show ((eventKernel f ev m1 m2 n (forLoop (eventKernel f ev m1 m2) n st)).products j).w slot
      = _
    rw [(eventKernel_products f ev m1 m2 n _ hf j).2 slot,
      if_neg (fun hc => not_inBlock_below f ev n j slot h hc.2.2)]
    exact ih

theorem eventsLoop_tile1_untouched (f : ParticleCreationFunc R) (ev : PairEvents R) (m1 m2 : R)
    (st : CreationState R) (p n : Nat)
    (h : ∀ i, i < n → ev.p_mask i ≠ 0 → ev.p_pair_indices_1 i ≠ p) :
    (forLoop (eventKernel f ev m1 m2) n st).tile1.w p = st.tile1.w p
    ∧ (forLoop (eventKernel f ev m1 m2) n st).tile1.id p = st.tile1.id p := by
  induction n with
  | zero => exact ⟨rfl, rfl⟩
  | succ n ih =>
    obtain ⟨_, kw, kid⟩ := eventKernel_tile1 f ev m1 m2 n
      (forLoop (eventKernel f ev m1 m2) n st) p
    have ih' := ih (fun i hi => h i (Nat.lt_succ_of_lt hi))
    have hn : ¬ (ev.p_mask n ≠ 0 ∧ ev.p_pair_indices_1 n = p) :=
      fun hc => h n (Nat.lt_succ_self n) hc.1 hc.2
    constructor
    · show (eventKernel f ev m1 m2 n (forLoop (eventKernel f ev m1 m2) n st)).tile1.w p = _
      rw [kw, if_neg hn]
      exact ih'.1
    · show (eventKernel f ev m1 m2 n (forLoop (eventKernel f ev m1 m2) n st)).tile1.id p = _
      rw [kid, if_neg (fun hc => hn ⟨hc.1, hc.2.1⟩)]
      exact ih'.2

theorem eventsLoop_tile2_untouched (f : ParticleCreationFunc R) (ev : PairEvents R) (m1 m2 : R)
    (st : CreationState R) (p n : Nat)
    (h : ∀ i, i < n → ev.p_mask i ≠ 0 → ev.p_pair_indices_2 i ≠ p) :
    (forLoop (eventKernel f ev m1 m2) n st).tile2.w p = st.tile2.w p
    ∧ (forLoop (eventKernel f ev m1 m2) n st).tile2.id p = st.tile2.id p := by
  induction n with
  | zero => exact ⟨rfl, rfl⟩
  | succ n ih =>
    obtain ⟨_, kw, kid⟩ := eventKernel_tile2 f ev m1 m2 n
      (forLoop (eventKernel f ev m1 m2) n st) p
    have ih' := ih (fun i hi => h i (Nat.lt_succ_of_lt hi))
    have hn : ¬ (ev.p_mask n ≠ 0 ∧ ev.p_pair_indices_2 n = p) :=
      fun hc => h n (Nat.lt_succ_self n) hc.1 hc.2
    constructor
    · show (eventKernel f ev m1 m2 n (forLoop (eventKernel f ev m1 m2) n st)).tile2.w p = _
      rw [kw, if_neg hn]
      exact ih'.1
    · show (eventKernel f ev m1 m2 n (forLoop (eventKernel f ev m1 m2) n st)).tile2.id p = _
      rw [kid, if_neg (fun hc => hn ⟨hc.1, hc.2.1⟩)]
      exact ih'.2

/-- C30. Frame of `ParticleCreationFunc::operator()`: the kernel of an event
whose mask is 0 leaves the particle storage as it is and does not advance the
output offset; a parent named by no firing event keeps its weight and its
identifier; and the product particles present before the call (indices below
`products_np[j]`) keep their weight, the external functors writing no weight
other than that of their destination slot. -/
theorem ParticleCreationFunc_frame (f : ParticleCreationFunc R) (ev : PairEvents R)
    (m1 m2 : R) (st : CreationState R) :
    (∀ i (st' : CreationState R), ev.p_mask i = 0 →
        eventKernel f ev m1 m2 i st' = st'
        ∧ exclusiveSum ev.p_mask (i + 1) = exclusiveSum ev.p_mask i)
    ∧ (∀ p, (∀ i, i < ev.n_total_pairs → ev.p_mask i ≠ 0 → ev.p_pair_indices_1 i ≠ p) →
        (f.call ev m1 m2 st).2.tile1.w p = st.tile1.w p
        ∧ (f.call ev m1 m2 st).2.tile1.id p = st.tile1.id p)
    ∧ (∀ p, (∀ i, i < ev.n_total_pairs → ev.p_mask i ≠ 0 → ev.p_pair_indices_2 i ≠ p) →
        (f.call ev m1 m2 st).2.tile2.w p = st.tile2.w p
        ∧ (f.call ev m1 m2 st).2.tile2.id p = st.tile2.id p)
    ∧ (f.ExternalsFramed → ∀ j slot, slot < ev.products_np j →
        ((f.call ev m1 m2 st).2.products j).w slot = (st.products j).w slot) := by
  refine ⟨fun i st' h0 => ?_, fun p h => ?_, fun p h => ?_, fun hf j slot h => ?_⟩
  · constructor
    · unfold eventKernel
      rw [if_neg (not_not.mpr h0)]
    · show exclusiveSum ev.p_mask i + ev.p_mask i = _
      rw [h0, Nat.add_zero]
  · unfold ParticleCreationFunc.call
    by_cases hne : ev.n_total_pairs = 0
    · rw [if_pos hne]
      exact ⟨rfl, rfl⟩
    · rw [if_neg hne]
      exact eventsLoop_tile1_untouched f ev m1 m2 _ p ev.n_total_pairs h
  · unfold ParticleCreationFunc.call
    by_cases hne : ev.n_total_pairs = 0
    · rw [if_pos hne]
      exact ⟨rfl, rfl⟩
    · rw [if_neg hne]
      exact eventsLoop_tile2_untouched f ev m1 m2 _ p ev.n_total_pairs h
  · unfold ParticleCreationFunc.call
    by_cases hne : ev.n_total_pairs = 0
    · rw [if_pos hne]
    · rw [if_neg hne]
      show ((forLoop (eventKernel f ev m1 m2) ev.n_total_pairs _).products j).w slot = _
      rw [eventsLoop_products_below f ev m1 m2 _ hf j slot h ev.n_total_pairs]
      show ((forLoop (resizeBody f ev _) f.m_num_product_species ([], st.products)).2 j).w slot
        = _
      rw [(resizeLoop_eq f ev _ st.products f.m_num_product_species).2 j]
      split_ifs <;> rfl

theorem exists_event_of_offset (p_mask : Nat → Nat) (n t : Nat)
    (h01 : ∀ i, i < n → p_mask i = 0 ∨ p_mask i = 1) (ht : t < exclusiveSum p_mask n) :
    ∃ i, i < n ∧ p_mask i ≠ 0 ∧ exclusiveSum p_mask i = t := by
  induction n with
  | zero => exact absurd ht (Nat.not_lt_zero t)
  | succ n ih =>
    have ht' : t < exclusiveSum p_mask n + p_mask n := ht
    by_cases hlt : t < exclusiveSum p_mask n
    · obtain ⟨i, hi, hm, he⟩ := ih (fun i hi => h01 i (Nat.lt_succ_of_lt hi)) hlt
      exact ⟨i, Nat.lt_succ_of_lt hi, hm, he⟩
    · rcases h01 n (Nat.lt_succ_self n) with h | h
      · rw [h] at ht'
        exact absurd ht' hlt
      · refine ⟨n, Nat.lt_succ_self n, by rw [h]; exact Nat.one_ne_zero, ?_⟩
        rw [h] at ht'
        omega

theorem slots_bijection (f : ParticleCreationFunc R) (ev : PairEvents R)
    (m1 m2 : R) (st : CreationState R) (j : Nat)
    (h01 : ∀ i, i < ev.n_total_pairs → ev.p_mask i = 0 ∨ ev.p_mask i = 1) :
    (∀ i k b, i < ev.n_total_pairs → ev.p_mask i ≠ 0 → k < f.m_num_products j → b < 2 →
        ev.products_np j ≤ productIndex f ev i j k + b
        ∧ productIndex f ev i j k + b
            < ev.products_np j
              + exclusiveSum ev.p_mask ev.n_total_pairs * f.m_num_products j * 2)
    ∧ (∀ i k b i' k' b', i < ev.n_total_pairs → ev.p_mask i ≠ 0 → k < f.m_num_products j →
        b < 2 → i' < ev.n_total_pairs → ev.p_mask i' ≠ 0 → k' < f.m_num_products j → b' < 2 →
        productIndex f ev i j k + b = productIndex f ev i' j k' + b' →
        i = i' ∧ k = k' ∧ b = b')
    ∧ (∀ slot, ev.products_np j ≤ slot →
        slot < ev.products_np j
            + exclusiveSum ev.p_mask ev.n_total_pairs * f.m_num_products j * 2 →
        ∃ i k b, i < ev.n_total_pairs ∧ ev.p_mask i ≠ 0 ∧ k < f.m_num_products j ∧ b < 2
          ∧ slot = productIndex f ev i j k + b)
    ∧ (f.ExternalsFramed → 0 < ev.n_total_pairs → j < f.m_num_product_species →
        ((f.call ev m1 m2 st).2.products j).np
          = ev.products_np j
            + exclusiveSum ev.p_mask ev.n_total_pairs * f.m_num_products j * 2) := by
  have hblock : ∀ i k b, k < f.m_num_products j → b < 2 →
      InBlock f ev i j (productIndex f ev i j k + b) := by
    intro i k b hk hb
    refine ⟨k, hk, ?_⟩
    rcases Nat.lt_succ_iff_lt_or_eq.mp hb with h | h
    · left
      rw [Nat.lt_one_iff.mp h, Nat.add_zero]
    · right
      rw [h]
  refine ⟨fun i k b hi hm hk hb => ?_, fun i k b i' k' b' hi hm hk hb hi' hm' hk' hb' he => ?_,
    fun slot hlo hhi => ?_, fun hf hn hj => ?_⟩
  · have hoff := exclusiveSum_step_lt ev.p_mask i ev.n_total_pairs hi hm
    have hmul : (exclusiveSum ev.p_mask i + 1) * f.m_num_products j
        ≤ exclusiveSum ev.p_mask ev.n_total_pairs * f.m_num_products j :=
      Nat.mul_le_mul_right _ hoff
    rw [Nat.add_mul, Nat.one_mul] at hmul
    unfold productIndex
    generalize exclusiveSum ev.p_mask i * f.m_num_products j = c at hmul
    generalize exclusiveSum ev.p_mask ev.n_total_pairs * f.m_num_products j = d at hmul
    omega
  · rcases Nat.lt_trichotomy i i' with hlt | heq | hgt
    · exact absurd (he ▸ hblock i k b hk hb)
        (fun hI => blocks_disjoint f ev i i' j _ hlt hm hI (hblock i' k' b' hk' hb'))
    · subst heq
      unfold productIndex at he
      generalize exclusiveSum ev.p_mask i * f.m_num_products j = c at he
      refine ⟨rfl, ?_, ?_⟩ <;> omega
    · exact absurd (he ▸ hblock i' k' b' hk' hb')
        (fun hI => blocks_disjoint f ev i' i j _ hgt hm' hI (hblock i k b hk hb))
  · have hNpos : 0 < f.m_num_products j := by
      rcases Nat.eq_zero_or_pos (f.m_num_products j) with h | h
      · rw [h, Nat.mul_zero, Nat.zero_mul] at hhi
        omega
      · exact h
    have hq : (slot - ev.products_np j) / 2
        < exclusiveSum ev.p_mask ev.n_total_pairs * f.m_num_products j := by
      omega
    have ht : (slot - ev.products_np j) / 2 / f.m_num_products j
        < exclusiveSum ev.p_mask ev.n_total_pairs :=
      Nat.div_lt_of_lt_mul (by rw [Nat.mul_comm]; exact hq)
    obtain ⟨i, hi, hm, hoff⟩ := exists_event_of_offset ev.p_mask ev.n_total_pairs _ h01 ht
    refine ⟨i, (slot - ev.products_np j) / 2 % f.m_num_products j,
      (slot - ev.products_np j) % 2, hi, hm, Nat.mod_lt _ hNpos, Nat.mod_lt _ two_pos, ?_⟩
    unfold productIndex
    rw [hoff, Nat.mul_comm _ (f.m_num_products j), Nat.div_add_mod]
    omega
  · have hne : ev.n_total_pairs ≠ 0 := Nat.pos_iff_ne_zero.mp hn
    unfold ParticleCreationFunc.call
    rw [if_neg hne]
    show ((forLoop (eventKernel f ev m1 m2) ev.n_total_pairs _).products j).np = _
    rw [eventsLoop_products_np f ev m1 m2 _ hf j ev.n_total_pairs]
    show ((forLoop (resizeBody f ev _) f.m_num_product_species ([], st.products)).2 j).np = _
    rw [(resizeLoop_eq f ev _ st.products f.m_num_product_species).2 j, if_pos hj]
    rfl

end CreationFrame

/-! ## Theorems: the COM-frame rotation -/

section Rotation

variable {R : Type} [LinearOrderedField R]

theorem rotateCom_divides_by (F : MathFns R) (cf : ComFrame R)
    (cosXs sinXs cosphis sinphis : R) :
    rotateCom F cf cosXs sinXs cosphis sinphis
      = if F.sqrt (cf.p1sx * cf.p1sx + cf.p1sy * cf.p1sy) > F.numeric_limits_min then
          { x := (cf.p1sx * cf.p1sz / rotationDenominator F cf) * sinXs * cosphis +
                 (cf.p1sy * cf.p1sm / rotationDenominator F cf) * sinXs * sinphis +
                 (cf.p1sx) * cosXs
            y := (cf.p1sy * cf.p1sz / rotationDenominator F cf) * sinXs * cosphis +
                 (-cf.p1sx * cf.p1sm / rotationDenominator F cf) * sinXs * sinphis +
                 (cf.p1sy) * cosXs
            z := (-rotationDenominator F cf) * sinXs * cosphis +
                 (0) * sinXs * sinphis +
                 (cf.p1sz) * cosXs }
        else
          { y := (cf.p1sy * cf.p1sx / rotationDenominator F cf) * sinXs * cosphis +
                 (cf.p1sz * cf.p1sm / rotationDenominator F cf) * sinXs * sinphis +
                 (cf.p1sy) * cosXs
            z := (cf.p1sz * cf.p1sx / rotationDenominator F cf) * sinXs * cosphis +
                 (-cf.p1sy * cf.p1sm / rotationDenominator F cf) * sinXs * sinphis +
                 (cf.p1sz) * cosXs
            x := (-rotationDenominator F cf) * sinXs * cosphis +
                 (0) * sinXs * sinphis +
                 (cf.p1sx) * cosXs } := by
  by_cases h : F.sqrt (cf.p1sx * cf.p1sx + cf.p1sy * cf.p1sy) > F.numeric_limits_min
  · simp only [rotateCom, rotationDenominator, h, if_true]
  · simp only [rotateCom, rotationDenominator, h, if_false]

theorem rotation_algebra (X Y Z D M c s cp sp : R)
    (hD : D ≠ 0) (hD2 : D * D = X * X + Y * Y) (hM2 : M * M = X * X + Y * Y + Z * Z)
    (hs : s * s = 1 - c * c) (ht : cp * cp + sp * sp = 1) :
    ((X * Z / D) * s * cp + (Y * M / D) * s * sp + X * c)
        * ((X * Z / D) * s * cp + (Y * M / D) * s * sp + X * c)
      + ((Y * Z / D) * s * cp + (-X * M / D) * s * sp + Y * c)
        * ((Y * Z / D) * s * cp + (-X * M / D) * s * sp + Y * c)
      + ((-D) * s * cp + 0 * s * sp + Z * c) * ((-D) * s * cp + 0 * s * sp + Z * c)
      = M * M
    ∧ ((X * Z / D) * s * cp + (Y * M / D) * s * sp + X * c) * X
      + ((Y * Z / D) * s * cp + (-X * M / D) * s * sp + Y * c) * Y
      + ((-D) * s * cp + 0 * s * sp + Z * c) * Z
      = M * M * c := by
  have e1 : (X * Z / D) * s * cp + (Y * M / D) * s * sp + X * c
      = (X * Z * s * cp + Y * M * s * sp + D * X * c) / D := by
    field_simp
    ring
  have e2 : (Y * Z / D) * s * cp + (-X * M / D) * s * sp + Y * c
      = (Y * Z * s * cp - X * M * s * sp + D * Y * c) / D := by
    field_simp
    ring
  have hDD : D * D ≠ 0 := mul_ne_zero hD hD
  rw [e1, e2]
  constructor
  · rw [div_mul_div_comm, div_mul_div_comm, ← add_div, div_add' _ _ _ hDD, div_eq_iff hDD]
    linear_combination
      (Z * Z * s * s * cp * cp + M * M * s * s * sp * sp + D * D * c * c
          + 2 * Z * s * cp * D * c) * (-1) * hD2
        + (D * D) * (- (s * s * cp * cp + c * c)) * (hM2 - hD2)
        + (D * D * M * M) * (s * s) * ht
        + (D * D * M * M) * hs
  · rw [div_mul_eq_mul_div, div_mul_eq_mul_div, ← add_div, div_add' _ _ _ hD, div_eq_iff hD]
    linear_combination (Z * s * cp + D * c) * (-1) * hD2 + (-(D * c)) * (hM2 - hD2)

end Rotation

section RotationClaims

variable {R : Type} [LinearOrderedField R]

theorem rotationDenominator_pos (F : MathFns R) (cf : ComFrame R) (hs : SqrtExact F)
    (hmin : 0 ≤ F.numeric_limits_min) (h : cf.p1sy ≠ 0 ∨ cf.p1sz ≠ 0) :
    0 < rotationDenominator F cf := by
  unfold rotationDenominator
  simp only
  split_ifs with hp
  · exact lt_of_le_of_lt hmin hp
  · have hy := mul_self_nonneg cf.p1sy
    have hz := mul_self_nonneg cf.p1sz
    have hpos : 0 < cf.p1sy * cf.p1sy + cf.p1sz * cf.p1sz := by
      rcases h with h | h
      · have := mul_self_pos.mpr h
        linarith
      · have := mul_self_pos.mpr h
        linarith
    obtain ⟨h0, h1⟩ := hs _ hpos.le
    rcases h0.lt_or_eq with h2 | h2
    · exact h2
    · rw [← h2, mul_zero] at h1
      exact absurd h1 hpos.ne

theorem rotateCom_normSq (F : MathFns R) (cf : ComFrame R) (c s cp sp : R)
    (hs : SqrtExact F)
    (hM : cf.p1sm * cf.p1sm = cf.p1sx * cf.p1sx + cf.p1sy * cf.p1sy + cf.p1sz * cf.p1sz)
    (hsin : s * s = 1 - c * c) (ht : cp * cp + sp * sp = 1)
    (hD : rotationDenominator F cf ≠ 0) :
    Vec3.normSq (rotateCom F cf c s cp sp) = cf.p1sm * cf.p1sm
    ∧ Vec3.dot (rotateCom F cf c s cp sp) ⟨cf.p1sx, cf.p1sy, cf.p1sz⟩
        = cf.p1sm * cf.p1sm * c := by
  rw [rotateCom_divides_by]
  have hx := mul_self_nonneg cf.p1sx
  have hy := mul_self_nonneg cf.p1sy
  have hz := mul_self_nonneg cf.p1sz
  by_cases hp : F.sqrt (cf.p1sx * cf.p1sx + cf.p1sy * cf.p1sy) > F.numeric_limits_min
  · have hDe : rotationDenominator F cf
        = F.sqrt (cf.p1sx * cf.p1sx + cf.p1sy * cf.p1sy) := by
      simp only [rotationDenominator, hp, if_true]
    have hD2 : rotationDenominator F cf * rotationDenominator F cf
        = cf.p1sx * cf.p1sx + cf.p1sy * cf.p1sy := by
      rw [hDe]
      exact (hs _ (by linarith)).2
    have h := rotation_algebra cf.p1sx cf.p1sy cf.p1sz (rotationDenominator F cf) cf.p1sm
      c s cp sp hD hD2 hM hsin ht
    simp only [hp, if_true, Vec3.normSq, Vec3.dot]
    exact h
  · have hDe : rotationDenominator F cf
        = F.sqrt (cf.p1sy * cf.p1sy + cf.p1sz * cf.p1sz) := by
      simp only [rotationDenominator, hp, if_false]
    have hD2 : rotationDenominator F cf * rotationDenominator F cf
        = cf.p1sy * cf.p1sy + cf.p1sz * cf.p1sz := by
      rw [hDe]
      exact (hs _ (by linarith)).2
    have hM2 : cf.p1sm * cf.p1sm
        = cf.p1sy * cf.p1sy + cf.p1sz * cf.p1sz + cf.p1sx * cf.p1sx := by
      rw [hM]
      ring
    have h := rotation_algebra cf.p1sy cf.p1sz cf.p1sx (rotationDenominator F cf) cf.p1sm
      c s cp sp hD hD2 hM2 hsin ht
    simp only [hp, if_false, Vec3.normSq, Vec3.dot]
    constructor
    · linarith [h.1]
    · linarith [h.2]

theorem comFrame_p1sm_sq (F : MathFns R) (P : PhysConst R) (u1 u2 : Vec3 R) (m1 m2 : R)
    (hs : SqrtExact F) :
    (comFrame F P u1 u2 m1 m2).p1sm * (comFrame F P u1 u2 m1 m2).p1sm
      = (comFrame F P u1 u2 m1 m2).p1sx * (comFrame F P u1 u2 m1 m2).p1sx
        + (comFrame F P u1 u2 m1 m2).p1sy * (comFrame F P u1 u2 m1 m2).p1sy
        + (comFrame F P u1 u2 m1 m2).p1sz * (comFrame F P u1 u2 m1 m2).p1sz :=
  (hs _ (add_nonneg (add_nonneg (mul_self_nonneg _) (mul_self_nonneg _))
    (mul_self_nonneg _))).2

theorem sinXs_sq (F : MathFns R) (hs : SqrtExact F) (c : R) (h1 : -1 ≤ c) (h2 : c ≤ 1) :
    F.sqrt (1 - c * c) * F.sqrt (1 - c * c) = 1 - c * c := by
  refine (hs _ ?_).2
  nlinarith

/-- C27. The COM-frame rotation of `UpdateMomentumPerezElastic` preserves the
momentum magnitude.  With an exact square root, for every `p1s` computed by
the function whose denominator `p1sp` is non-zero in the branch taken, every
`cosXs` in `[-1, 1]` with `sinXs = sqrt(1 - cosXs^2)` and every azimuth `phis`
(with `cos^2 + sin^2 = 1`), `|p1fs|^2 = |p1s|^2` and `|p1fs| = |p1s|` in the
primary and in the cyclic-permutation fallback branch, and
`p1fs . p1s = |p1fs| |p1s| cosXs`. -/
theorem rotateCom_preserves_magnitude (F : MathFns R) (P : PhysConst R) (u1 u2 : Vec3 R)
    (m1 m2 cosXs phis : R) (hs : SqrtExact F)
    (hc1 : -1 ≤ cosXs) (hc2 : cosXs ≤ 1)
    (hphi : F.cos phis * F.cos phis + F.sin phis * F.sin phis = 1)
    (hD : rotationDenominator F (comFrame F P u1 u2 m1 m2) ≠ 0) :
    Vec3.normSq (rotateCom F (comFrame F P u1 u2 m1 m2) cosXs (F.sqrt (1 - cosXs * cosXs))
        (F.cos phis) (F.sin phis))
      = Vec3.normSq ⟨(comFrame F P u1 u2 m1 m2).p1sx, (comFrame F P u1 u2 m1 m2).p1sy,
          (comFrame F P u1 u2 m1 m2).p1sz⟩
    ∧ Vec3.mag F (rotateCom F (comFrame F P u1 u2 m1 m2) cosXs (F.sqrt (1 - cosXs * cosXs))
        (F.cos phis) (F.sin phis))
      = Vec3.mag F ⟨(comFrame F P u1 u2 m1 m2).p1sx, (comFrame F P u1 u2 m1 m2).p1sy,
          (comFrame F P u1 u2 m1 m2).p1sz⟩
    ∧ Vec3.dot (rotateCom F (comFrame F P u1 u2 m1 m2) cosXs (F.sqrt (1 - cosXs * cosXs))
        (F.cos phis) (F.sin phis))
        ⟨(comFrame F P u1 u2 m1 m2).p1sx, (comFrame F P u1 u2 m1 m2).p1sy,
          (comFrame F P u1 u2 m1 m2).p1sz⟩
      = Vec3.mag F (rotateCom F (comFrame F P u1 u2 m1 m2) cosXs
          (F.sqrt (1 - cosXs * cosXs)) (F.cos phis) (F.sin phis))
        * Vec3.mag F ⟨(comFrame F P u1 u2 m1 m2).p1sx, (comFrame F P u1 u2 m1 m2).p1sy,
          (comFrame F P u1 u2 m1 m2).p1sz⟩ * cosXs := by
  have hM := comFrame_p1sm_sq F P u1 u2 m1 m2 hs
  obtain ⟨hn, hd⟩ := rotateCom_normSq F (comFrame F P u1 u2 m1 m2) cosXs
    (F.sqrt (1 - cosXs * cosXs)) (F.cos phis) (F.sin phis) hs hM
    (sinXs_sq F hs cosXs hc1 hc2) hphi hD
  have hN : Vec3.normSq (rotateCom F (comFrame F P u1 u2 m1 m2) cosXs
        (F.sqrt (1 - cosXs * cosXs)) (F.cos phis) (F.sin phis))
      = Vec3.normSq ⟨(comFrame F P u1 u2 m1 m2).p1sx, (comFrame F P u1 u2 m1 m2).p1sy,
          (comFrame F P u1 u2 m1 m2).p1sz⟩ := by
    rw [hn, hM]
    rfl
  have hmag : Vec3.mag F ⟨(comFrame F P u1 u2 m1 m2).p1sx, (comFrame F P u1 u2 m1 m2).p1sy,
      (comFrame F P u1 u2 m1 m2).p1sz⟩ = (comFrame F P u1 u2 m1 m2).p1sm := rfl
  refine ⟨hN, ?_, ?_⟩
  · unfold Vec3.mag
    rw [hN]
  · have e : Vec3.mag F (rotateCom F (comFrame F P u1 u2 m1 m2) cosXs
        (F.sqrt (1 - cosXs * cosXs)) (F.cos phis) (F.sin phis))
        = (comFrame F P u1 u2 m1 m2).p1sm := by
      unfold Vec3.mag
      rw [hN]
      rfl
    rw [e, hmag, hd]

end RotationClaims

theorem headOn_frame :
    (comFrame realFns (siConst ℝ) ⟨1, 0, 0⟩ ⟨-1, 0, 0⟩ 1 1).p1sx = 1
    ∧ (comFrame realFns (siConst ℝ) ⟨1, 0, 0⟩ ⟨-1, 0, 0⟩ 1 1).p1sy = 0 := by
  have hv : ¬ (comFrame realFns (siConst ℝ) ⟨1, 0, 0⟩ ⟨-1, 0, 0⟩ 1 1).vcms
      > realFns.numeric_limits_min := by
    simp only [comFrame, realFns, mul_zero, zero_mul, add_zero, mul_one, one_mul,
      zero_div, add_neg_cancel, gt_iff_lt, not_lt]
    positivity
  constructor
  · show (if (comFrame realFns (siConst ℝ) ⟨1, 0, 0⟩ ⟨-1, 0, 0⟩ 1 1).vcms
        > realFns.numeric_limits_min then _ else _) = _
    rw [if_neg hv]
    norm_num
  · show (if (comFrame realFns (siConst ℝ) ⟨1, 0, 0⟩ ⟨-1, 0, 0⟩ 1 1).vcms
        > realFns.numeric_limits_min then _ else _) = _
    rw [if_neg hv]
    norm_num

theorem headOn_denominator :
    rotationDenominator realFns (comFrame realFns (siConst ℝ) ⟨1, 0, 0⟩ ⟨-1, 0, 0⟩ 1 1)
      ≠ 0 := by
  simp only [rotationDenominator, headOn_frame.1, headOn_frame.2]
  simp only [realFns, mul_one, mul_zero, add_zero, Real.sqrt_one]
  norm_num

theorem rotateCom_preserves_magnitude_witness :
    rotationDenominator realFns (comFrame realFns (siConst ℝ) ⟨1, 0, 0⟩ ⟨-1, 0, 0⟩ 1 1) ≠ 0
    ∧ Vec3.normSq (rotateCom realFns (comFrame realFns (siConst ℝ) ⟨1, 0, 0⟩ ⟨-1, 0, 0⟩ 1 1)
        0 (realFns.sqrt (1 - 0 * 0)) (realFns.cos 0) (realFns.sin 0))
      = Vec3.normSq ⟨(comFrame realFns (siConst ℝ) ⟨1, 0, 0⟩ ⟨-1, 0, 0⟩ 1 1).p1sx,
          (comFrame realFns (siConst ℝ) ⟨1, 0, 0⟩ ⟨-1, 0, 0⟩ 1 1).p1sy,
          (comFrame realFns (siConst ℝ) ⟨1, 0, 0⟩ ⟨-1, 0, 0⟩ 1 1).p1sz⟩ :=
  ⟨headOn_denominator,
    (rotateCom_preserves_magnitude realFns (siConst ℝ) ⟨1, 0, 0⟩ ⟨-1, 0, 0⟩ 1 1 0 0
      realFns_sqrtExact (by norm_num) (by norm_num)
      (by simp [realFns]) headOn_denominator).1⟩

theorem slow_pair_rest (P : PhysConst ℝ) (ε m : ℝ) (hε : 0 < ε) (hm : 0 < m)
    (h : ε * ε ≤ 1 / 2 ^ 1022) :
    ¬ (comFrame realFns P ⟨ε, 0, 0⟩ ⟨0, 0, 0⟩ m m).vcms > realFns.numeric_limits_min := by
  simp only [comFrame, realFns, mul_zero, zero_mul, add_zero, mul_one,
    zero_div, Real.sqrt_one, gt_iff_lt, not_lt]
  have hg : 0 ≤ Real.sqrt (1 + ε * ε * inv_c2 P) := Real.sqrt_nonneg _
  have hden : m ≤ m * Real.sqrt (1 + ε * ε * inv_c2 P) + m :=
    le_add_of_nonneg_left (mul_nonneg hm.le hg)
  have hdpos : 0 < m * Real.sqrt (1 + ε * ε * inv_c2 P) + m := lt_of_lt_of_le hm hden
  have h1 : ε * m / (m * Real.sqrt (1 + ε * ε * inv_c2 P) + m) ≤ ε := by
    rw [div_le_iff₀ hdpos]
    exact mul_le_mul_of_nonneg_left hden hε.le
  have h0 : 0 ≤ ε * m / (m * Real.sqrt (1 + ε * ε * inv_c2 P) + m) :=
    div_nonneg (mul_nonneg hε.le hm.le) hdpos.le
  calc _ ≤ ε * ε := mul_le_mul h1 h1 h0 hε.le
    _ ≤ 1 / 2 ^ 1022 := h

theorem slow_pair_denominator (P : PhysConst ℝ) (ε m : ℝ) (hε : 0 < ε) (hm : 0 < m)
    (h1 : ε * ε ≤ 1 / 2 ^ 1022) (h2 : ε * m ≤ 1 / 2 ^ 1022) :
    (comFrame realFns P ⟨ε, 0, 0⟩ ⟨0, 0, 0⟩ m m).p1sx = ε * m
    ∧ rotationDenominator realFns (comFrame realFns P ⟨ε, 0, 0⟩ ⟨0, 0, 0⟩ m m) = 0 := by
  have hv := slow_pair_rest P ε m hε hm h1
  have hx : (comFrame realFns P ⟨ε, 0, 0⟩ ⟨0, 0, 0⟩ m m).p1sx = ε * m := by
    show (if (comFrame realFns P ⟨ε, 0, 0⟩ ⟨0, 0, 0⟩ m m).vcms
        > realFns.numeric_limits_min then _ else _) = _
    rw [if_neg hv]
  have hy : (comFrame realFns P ⟨ε, 0, 0⟩ ⟨0, 0, 0⟩ m m).p1sy = 0 := by
    show (if (comFrame realFns P ⟨ε, 0, 0⟩ ⟨0, 0, 0⟩ m m).vcms
        > realFns.numeric_limits_min then _ else _) = _
    rw [if_neg hv]
    exact zero_mul m
  have hz : (comFrame realFns P ⟨ε, 0, 0⟩ ⟨0, 0, 0⟩ m m).p1sz = 0 := by
    show (if (comFrame realFns P ⟨ε, 0, 0⟩ ⟨0, 0, 0⟩ m m).vcms
        > realFns.numeric_limits_min then _ else _) = _
    rw [if_neg hv]
    exact zero_mul m
  refine ⟨hx, ?_⟩
  have hp : ¬ Real.sqrt (ε * m * (ε * m) + 0 * 0) > 1 / 2 ^ 1022 := by
    rw [mul_zero, add_zero, Real.sqrt_mul_self (mul_nonneg hε.le hm.le)]
    exact not_lt.mpr h2
  simp only [rotationDenominator, hx, hy, hz]
  show (if Real.sqrt (ε * m * (ε * m) + 0 * 0) > 1 / 2 ^ 1022 then _ else _) = (0 : ℝ)
  rw [if_neg hp]
  show Real.sqrt (0 * 0 + 0 * 0) = 0
  simp

/-- C22 fails in the code.  Over the reals, for `u1 = (2^(-537), 0, 0)`,
`u2 = 0` and both masses `2^(-500)` the pair is not skipped, the branch without
Lorentz transform gives the non-zero COM momentum `p1s = (2^(-1037), 0, 0)`,
the test `sqrt(p1sx^2 + p1sy^2) > numeric_limits::min()` fails, and the
fallback denominator `sqrt(p1sy^2 + p1sz^2)` by which the rotation divides
is zero. -/
theorem rotationDenominator_vanishes :
    noRelativeMotion realFns ⟨1 / 2 ^ 537, 0, 0⟩ ⟨0, 0, 0⟩ = false
    ∧ (comFrame realFns (siConst ℝ) ⟨1 / 2 ^ 537, 0, 0⟩ ⟨0, 0, 0⟩
        (1 / 2 ^ 500) (1 / 2 ^ 500)).p1sx ≠ 0
    ∧ ¬ realFns.sqrt
        ((comFrame realFns (siConst ℝ) ⟨1 / 2 ^ 537, 0, 0⟩ ⟨0, 0, 0⟩
            (1 / 2 ^ 500) (1 / 2 ^ 500)).p1sx
          * (comFrame realFns (siConst ℝ) ⟨1 / 2 ^ 537, 0, 0⟩ ⟨0, 0, 0⟩
            (1 / 2 ^ 500) (1 / 2 ^ 500)).p1sx
          + (comFrame realFns (siConst ℝ) ⟨1 / 2 ^ 537, 0, 0⟩ ⟨0, 0, 0⟩
            (1 / 2 ^ 500) (1 / 2 ^ 500)).p1sy
          * (comFrame realFns (siConst ℝ) ⟨1 / 2 ^ 537, 0, 0⟩ ⟨0, 0, 0⟩
            (1 / 2 ^ 500) (1 / 2 ^ 500)).p1sy) > realFns.numeric_limits_min
    ∧ rotationDenominator realFns (comFrame realFns (siConst ℝ) ⟨1 / 2 ^ 537, 0, 0⟩ ⟨0, 0, 0⟩
        (1 / 2 ^ 500) (1 / 2 ^ 500)) = 0 := by
  have hε : (0 : ℝ) < 1 / 2 ^ 537 := by positivity
  have hm : (0 : ℝ) < 1 / 2 ^ 500 := by positivity
  obtain ⟨hx, hD⟩ := slow_pair_denominator (siConst ℝ) (1 / 2 ^ 537) (1 / 2 ^ 500) hε hm
    (by norm_num) (by norm_num)
  refine ⟨?_, ?_, ?_, hD⟩
  · simp only [noRelativeMotion, realFns, sub_zero, abs_zero, mul_zero, add_zero,
      abs_of_pos hε, Real.sqrt_mul_self hε.le, Real.sqrt_zero, div_self hε.ne']
    norm_num
  · rw [hx]
    positivity
  · intro hgt
    have hne : rotationDenominator realFns (comFrame realFns (siConst ℝ)
        ⟨1 / 2 ^ 537, 0, 0⟩ ⟨0, 0, 0⟩ (1 / 2 ^ 500) (1 / 2 ^ 500))
        = realFns.sqrt
        ((comFrame realFns (siConst ℝ) ⟨1 / 2 ^ 537, 0, 0⟩ ⟨0, 0, 0⟩
            (1 / 2 ^ 500) (1 / 2 ^ 500)).p1sx
          * (comFrame realFns (siConst ℝ) ⟨1 / 2 ^ 537, 0, 0⟩ ⟨0, 0, 0⟩
            (1 / 2 ^ 500) (1 / 2 ^ 500)).p1sx
          + (comFrame realFns (siConst ℝ) ⟨1 / 2 ^ 537, 0, 0⟩ ⟨0, 0, 0⟩
            (1 / 2 ^ 500) (1 / 2 ^ 500)).p1sy
          * (comFrame realFns (siConst ℝ) ⟨1 / 2 ^ 537, 0, 0⟩ ⟨0, 0, 0⟩
            (1 / 2 ^ 500) (1 / 2 ^ 500)).p1sy) := by
      simp only [rotationDenominator, hgt, if_true]
    rw [hD] at hne
    rw [← hne] at hgt
    have : (0 : ℝ) < realFns.numeric_limits_min := by
      simp only [realFns]
      positivity
    exact absurd hgt (not_lt.mpr this.le)

/-! ## Theorems: the impact-ionization transform -/

section IonizationTransform

variable {R : Type} [LinearOrderedField R]

theorem sqrt_sq_of_mag (F : MathFns R) (hs : SqrtExact F) (v : Vec3 R) (m : R)
    (h : Vec3.mag F v = m) : Vec3.normSq v = m * m := by
  have hn : 0 ≤ Vec3.normSq v :=
    add_nonneg (add_nonneg (mul_self_nonneg _) (mul_self_nonneg _)) (mul_self_nonneg _)
  rw [← h]
  exact ((hs _ hn).2).symm

theorem vp_sq (F : MathFns R) (P : PhysConst R) (f : ImpactIonizationTransformFunc R)
    (src : ParticleTile R) (i_src : Nat) (hs : SqrtExact F) (hq : 0 < P.q_e)
    (hm : 0 < f.m_mass1) (hE : f.m_energy_cost ≤ f.E_coll P src i_src) :
    0 ≤ f.vp F P src i_src
    ∧ f.vp F P src i_src * f.vp F P src i_src
        = 2.0 / f.m_mass1 * P.q_e * (f.E_coll P src i_src - f.m_energy_cost) / 2.0 := by
  have h0 : (0 : R) ≤ 2.0 / f.m_mass1 * P.q_e * (f.E_coll P src i_src - f.m_energy_cost) / 2.0 := by
    have h1 : 0 ≤ f.E_coll P src i_src - f.m_energy_cost := sub_nonneg.mpr hE
    have h2 : (0 : R) < 2.0 := by norm_num
    exact div_nonneg (mul_nonneg (mul_nonneg (div_nonneg h2.le hm.le) hq.le) h1) h2.le
  exact hs _ h0

theorem ionization_energy_balance (F : MathFns R) (P : PhysConst R)
    (RandomizeVelocity : Vec3 R → R → RandomEngine R → Vec3 R × RandomEngine R)
    (RandomNormal : R → R → RandomEngine R → R × RandomEngine R)
    (f : ImpactIonizationTransformFunc R) (dst1 dst2 src : ParticleTile R)
    (i_src i_dst1 i_dst2 : Nat) (engine : RandomEngine R)
    (hs : SqrtExact F) (hq : 0 < P.q_e) (hm : 0 < f.m_mass1)
    (hrv : ∀ (v : Vec3 R) (mag : R) (e : RandomEngine R), 0 ≤ mag →
      Vec3.mag F (RandomizeVelocity v mag e).1 = mag)
    (hE : f.m_energy_cost ≤ f.E_coll P src i_src) :
    Vec3.mag F ((ImpactIonizationTransformFunc.call F P RandomizeVelocity RandomNormal f
        dst1 dst2 src i_src i_dst1 i_dst2 engine).src.u i_src) = f.vp F P src i_src
    ∧ Vec3.mag F ((ImpactIonizationTransformFunc.call F P RandomizeVelocity RandomNormal f
        dst1 dst2 src i_src i_dst1 i_dst2 engine).dst1.u i_dst1) = f.vp F P src i_src
    ∧ 0.5 * f.m_mass1 * (f.vp F P src i_src * f.vp F P src i_src) / P.q_e
        = (f.E_coll P src i_src - f.m_energy_cost) / 2
    ∧ 0.5 * f.m_mass1 * Vec3.normSq ((ImpactIonizationTransformFunc.call F P
          RandomizeVelocity RandomNormal f dst1 dst2 src i_src i_dst1 i_dst2 engine).src.u
          i_src) / P.q_e
        + 0.5 * f.m_mass1 * Vec3.normSq ((ImpactIonizationTransformFunc.call F P
          RandomizeVelocity RandomNormal f dst1 dst2 src i_src i_dst1 i_dst2 engine).dst1.u
          i_dst1) / P.q_e
        = f.E_coll P src i_src - f.m_energy_cost := by
  obtain ⟨hv0, hv2⟩ := vp_sq F P f src i_src hs hq hm hE
  have e1 : (ImpactIonizationTransformFunc.call F P RandomizeVelocity RandomNormal f
        dst1 dst2 src i_src i_dst1 i_dst2 engine).src.u i_src
      = (RandomizeVelocity (src.u i_src) (f.vp F P src i_src) engine).1 := by
    simp only [ImpactIonizationTransformFunc.call, ParticleTile.setU, Function.update_same]
  have e2 : (ImpactIonizationTransformFunc.call F P RandomizeVelocity RandomNormal f
        dst1 dst2 src i_src i_dst1 i_dst2 engine).dst1.u i_dst1
      = (RandomizeVelocity (dst1.u i_dst1) (f.vp F P src i_src)
          (RandomizeVelocity (src.u i_src) (f.vp F P src i_src) engine).2).1 := by
    simp only [ImpactIonizationTransformFunc.call, ParticleTile.setU, Function.update_same]
  have m1 := hrv (src.u i_src) (f.vp F P src i_src) engine hv0
  have m2 := hrv (dst1.u i_dst1) (f.vp F P src i_src)
    (RandomizeVelocity (src.u i_src) (f.vp F P src i_src) engine).2 hv0
  have hhalf : 0.5 * f.m_mass1 * (f.vp F P src i_src * f.vp F P src i_src) / P.q_e
      = (f.E_coll P src i_src - f.m_energy_cost) / 2 := by
    rw [hv2]
    have hq0 := hq.ne'
    have hm0 := hm.ne'
    field_simp
    norm_num
    ring
  rw [e1, e2]
  refine ⟨m1, m2, hhalf, ?_⟩
  rw [sqrt_sq_of_mag F hs _ _ m1, sqrt_sq_of_mag F hs _ _ m2, hhalf]
  ring

end IonizationTransform

/-! ## Theorems: determinism -/

section Determinism

variable {R : Type} [LinearOrderedField R]

theorem Random_sameDraws {S : Type} (e1 e2 : RandomEngine S) (h : SameDraws e1 e2) :
    (Random e1).1 = (Random e2).1 ∧ SameDraws (Random e1).2 (Random e2).2 := by
  constructor
  · exact h 0
  · intro k
    show e1.draws (e1.pos + 1 + k) = e2.draws (e2.pos + 1 + k)
    rw [Nat.add_assoc, Nat.add_assoc]
    exact h (1 + k)

theorem smallAngleLoop_sameDraws (F : MathFns R) (s : R) (fuel : Nat) :
    ∀ (r : R) (e1 e2 : RandomEngine R), SameDraws e1 e2 →
      SameOutcome (smallAngleLoop F s fuel r e1) (smallAngleLoop F s fuel r e2) := by
  induction fuel with
  | zero =>
    intro r e1 e2 _
    exact Or.inl ⟨rfl, rfl⟩
  | succ fuel ih =>
    intro r e1 e2 h
    by_cases hacc : 1 + s * F.log r ≥ -1
    · refine Or.inr ⟨1 + s * F.log r, e1, e2, ?_, ?_, h⟩
      · simp only [smallAngleLoop, hacc, if_true]
      · simp only [smallAngleLoop, hacc, if_true]
    · have e : ∀ e : RandomEngine R, smallAngleLoop F s (fuel + 1) r e
          = smallAngleLoop F s fuel (Random e).1 (Random e).2 := by
        intro e
        simp only [smallAngleLoop, hacc, if_false]
      obtain ⟨hr, hn⟩ := Random_sameDraws e1 e2 h
      rw [e e1, e e2, hr]
      exact ih _ _ _ hn

theorem sampleCosXs_sameDraws (F : MathFns R) (s : R) (fuel : Nat) (r : R)
    (e1 e2 : RandomEngine R) (h : SameDraws e1 e2) :
    SameOutcome (sampleCosXs F s fuel r e1) (sampleCosXs F s fuel r e2) := by
  unfold sampleCosXs
  split_ifs
  · exact smallAngleLoop_sameDraws F s fuel r e1 e2 h
  · exact Or.inr ⟨_, e1, e2, rfl, rfl, h⟩
  · exact Or.inr ⟨_, e1, e2, rfl, rfl, h⟩
  · exact Or.inr ⟨_, e1, e2, rfl, rfl, h⟩

theorem candidateVelocities_sameDraws (F : MathFns R) (P : PhysConst R) (cf : ComFrame R)
    (a : PairArgs R) (cosXs : R) (e1 e2 : RandomEngine R) (h : SameDraws e1 e2) :
    candidateVelocities F P cf a cosXs e1 = candidateVelocities F P cf a cosXs e2 := by
  unfold candidateVelocities
  rw [(Random_sameDraws e1 e2 h).1]

theorem scatterAndReject_sameDraws (F : MathFns R) (P : PhysConst R) (cf : ComFrame R)
    (a : PairArgs R) (u1 u2 : Vec3 R) (cosXs : R) (e1 e2 : RandomEngine R)
    (h : SameDraws e1 e2) :
    (scatterAndReject F P cf a u1 u2 cosXs e1).1 = (scatterAndReject F P cf a u1 u2 cosXs e2).1
    ∧ (scatterAndReject F P cf a u1 u2 cosXs e1).2.1
        = (scatterAndReject F P cf a u1 u2 cosXs e2).2.1
    ∧ SameDraws (scatterAndReject F P cf a u1 u2 cosXs e1).2.2
        (scatterAndReject F P cf a u1 u2 cosXs e2).2.2 := by
  rw [scatterAndReject_eq, scatterAndReject_eq]
  simp only
  rw [candidateVelocities_sameDraws F P cf a cosXs e1 e2 h, h 1, h 2]
  refine ⟨rfl, rfl, ?_⟩
  intro k
  show e1.draws (e1.pos + 3 + k) = e2.draws (e2.pos + 3 + k)
  rw [Nat.add_assoc, Nat.add_assoc]
  exact h (3 + k)

theorem UpdateMomentumPerezElastic_sameDraws (F : MathFns R) (P : PhysConst R) (fuel : Nat)
    (u1 u2 : Vec3 R) (a : PairArgs R) (e1 e2 : RandomEngine R) (h : SameDraws e1 e2) :
    (UpdateMomentumPerezElastic F P fuel u1 u2 a e1 = none
      ∧ UpdateMomentumPerezElastic F P fuel u1 u2 a e2 = none)
    ∨ ∃ v1 v2 e1f e2f,
        UpdateMomentumPerezElastic F P fuel u1 u2 a e1 = some (v1, v2, e1f)
        ∧ UpdateMomentumPerezElastic F P fuel u1 u2 a e2 = some (v1, v2, e2f)
        ∧ SameDraws e1f e2f := by
  unfold UpdateMomentumPerezElastic
  by_cases hskip : noRelativeMotion F u1 u2 = true
  · simp only [hskip, if_true]
    exact Or.inr ⟨u1, u2, e1, e2, rfl, rfl, h⟩
  · simp only [hskip, Bool.false_eq_true, if_false]
    obtain ⟨hr, hn⟩ := Random_sameDraws e1 e2 h
    rw [hr]
    rcases sampleCosXs_sameDraws F
      (collisionStrength F P (comFrame F P u1 u2 a.m1 a.m2) a) fuel (Random e2).1
      (Random e1).2 (Random e2).2 hn with ⟨h1, h2⟩ | ⟨c, f1, f2, h1, h2, hf⟩
    · rw [h1, h2]
      exact Or.inl ⟨rfl, rfl⟩
    · rw [h1, h2]
      obtain ⟨ha, hb, hc⟩ := scatterAndReject_sameDraws F P
        (comFrame F P u1 u2 a.m1 a.m2) a u1 u2 c f1 f2 hf
      refine Or.inr ⟨(scatterAndReject F P (comFrame F P u1 u2 a.m1 a.m2) a u1 u2 c f1).1,
        (scatterAndReject F P (comFrame F P u1 u2 a.m1 a.m2) a u1 u2 c f1).2.1,
        (scatterAndReject F P (comFrame F P u1 u2 a.m1 a.m2) a u1 u2 c f1).2.2,
        (scatterAndReject F P (comFrame F P u1 u2 a.m1 a.m2) a u1 u2 c f2).2.2, rfl, ?_, hc⟩
      show some (scatterAndReject F P (comFrame F P u1 u2 a.m1 a.m2) a u1 u2 c f2) = _
      rw [ha, hb]

theorem ImpactIonizationFilterFunc_sameDraws (F : MathFns R) (P : PhysConst R)
    (flt : ImpactIonizationFilterFunc R) (ptd : ParticleTile R) (i : Nat)
    (e1 e2 : RandomEngine R) (h : SameDraws e1 e2) :
    (ImpactIonizationFilterFunc.call F P flt ptd i e1).1
      = (ImpactIonizationFilterFunc.call F P flt ptd i e2).1
    ∧ SameDraws (ImpactIonizationFilterFunc.call F P flt ptd i e1).2
        (ImpactIonizationFilterFunc.call F P flt ptd i e2).2 := by
  obtain ⟨hr, hn⟩ := Random_sameDraws e1 e2 h
  obtain ⟨hr2, hn2⟩ := Random_sameDraws _ _ hn
  unfold ImpactIonizationFilterFunc.call
  rw [hr]
  by_cases hg : (Random e2).1 > flt.m_total_collision_prob
  · simp only [hg, if_true]
    exact ⟨trivial, hn⟩
  · simp only [hg, if_false]
    rw [hr2]
    exact ⟨rfl, hn2⟩

theorem ElasticScattering_sameDraws (F : MathFns R)
    (RandomizeVelocity : Vec3 R → R → RandomEngine R → Vec3 R × RandomEngine R)
    (hrv : ∀ (v : Vec3 R) (mag : R) (e1 e2 : RandomEngine R), SameDraws e1 e2 →
      (RandomizeVelocity v mag e1).1 = (RandomizeVelocity v mag e2).1
      ∧ SameDraws (RandomizeVelocity v mag e1).2 (RandomizeVelocity v mag e2).2)
    (u uCOM : Vec3 R) (e1 e2 : RandomEngine R) (h : SameDraws e1 e2) :
    (ElasticScattering F RandomizeVelocity u uCOM e1).1
      = (ElasticScattering F RandomizeVelocity u uCOM e2).1
    ∧ SameDraws (ElasticScattering F RandomizeVelocity u uCOM e1).2
        (ElasticScattering F RandomizeVelocity u uCOM e2).2 := by
  unfold ElasticScattering
  simp only
  obtain ⟨ha, hb⟩ := hrv ⟨u.x - uCOM.x, u.y - uCOM.y, u.z - uCOM.z⟩
    (F.sqrt ((u.x - uCOM.x) * (u.x - uCOM.x) + (u.y - uCOM.y) * (u.y - uCOM.y)
      + (u.z - uCOM.z) * (u.z - uCOM.z))) e1 e2 h
  rw [ha]
  exact ⟨rfl, hb⟩

theorem axisRandomizeVelocity_sameDraws (v : Vec3 R) (mag : R) (e1 e2 : RandomEngine R)
    (h : SameDraws e1 e2) :
    (axisRandomizeVelocity v mag e1).1 = (axisRandomizeVelocity v mag e2).1
    ∧ SameDraws (axisRandomizeVelocity v mag e1).2 (axisRandomizeVelocity v mag e2).2 :=
  ⟨rfl, (Random_sameDraws _ _ (Random_sameDraws e1 e2 h).2).2⟩

/-- C24. Determinism.  `UpdateMomentumPerezElastic`,
`ImpactIonizationFilterFunc`, `ElasticScattering` and `BackScattering` depend
on the random engine only through the sequence of values it delivers: for
equal inputs and two engine states that deliver the same draws (whatever
their internal state), the two runs of each function produce identical
outputs, consume the same draws (the engines left behind again deliver the
same draws), and either both run out of fuel or neither does.
`RandomizeVelocity`, which `ElasticScattering` calls, is taken to have the
same property.  `BackScattering` takes no engine: its result is determined
by its two arguments. -/
theorem collision_kernels_deterministic (F : MathFns R) (P : PhysConst R) (fuel : Nat)
    (u1 u2 : Vec3 R) (a : PairArgs R)
    (flt : ImpactIonizationFilterFunc R) (ptd : ParticleTile R) (i : Nat)
    (RandomizeVelocity : Vec3 R → R → RandomEngine R → Vec3 R × RandomEngine R)
    (u uCOM : Vec3 R) (e1 e2 : RandomEngine R)
    (hrv : ∀ (v : Vec3 R) (mag : R) (e1 e2 : RandomEngine R), SameDraws e1 e2 →
      (RandomizeVelocity v mag e1).1 = (RandomizeVelocity v mag e2).1
      ∧ SameDraws (RandomizeVelocity v mag e1).2 (RandomizeVelocity v mag e2).2)
    (h : SameDraws e1 e2) :
    ((UpdateMomentumPerezElastic F P fuel u1 u2 a e1 = none
        ∧ UpdateMomentumPerezElastic F P fuel u1 u2 a e2 = none)
      ∨ ∃ v1 v2 e1f e2f,
          UpdateMomentumPerezElastic F P fuel u1 u2 a e1 = some (v1, v2, e1f)
          ∧ UpdateMomentumPerezElastic F P fuel u1 u2 a e2 = some (v1, v2, e2f)
          ∧ SameDraws e1f e2f)
    ∧ ((ImpactIonizationFilterFunc.call F P flt ptd i e1).1
          = (ImpactIonizationFilterFunc.call F P flt ptd i e2).1
        ∧ SameDraws (ImpactIonizationFilterFunc.call F P flt ptd i e1).2
            (ImpactIonizationFilterFunc.call F P flt ptd i e2).2)
    ∧ ((ElasticScattering F RandomizeVelocity u uCOM e1).1
          = (ElasticScattering F RandomizeVelocity u uCOM e2).1
        ∧ SameDraws (ElasticScattering F RandomizeVelocity u uCOM e1).2
            (ElasticScattering F RandomizeVelocity u uCOM e2).2)
    ∧ (∀ v vCOM : Vec3 R, v = u → vCOM = uCOM →
        BackScattering v vCOM = BackScattering u uCOM) :=
  ⟨UpdateMomentumPerezElastic_sameDraws F P fuel u1 u2 a e1 e2 h,
    ImpactIonizationFilterFunc_sameDraws F P flt ptd i e1 e2 h,
    ElasticScattering_sameDraws F RandomizeVelocity hrv u uCOM e1 e2 h,
    fun _ _ hv hc => by rw [hv, hc]⟩

end Determinism

theorem halfEngine_sameDraws : SameDraws (halfEngine ℝ) ⟨fun _ => 1 / 2, 5⟩ :=
  fun _ => rfl

/-- Witness for C24 over the reals: the engine that always delivers `1/2`,
once at position 0 and once at position 5, with the unit pair, the uniform
filter on the moving tile and the stand-in `axisRandomizeVelocity`. -/
theorem collision_kernels_deterministic_witness :
    SameDraws (halfEngine ℝ) ⟨fun _ => 1 / 2, 5⟩
    ∧ (ImpactIonizationFilterFunc.call realFns (siConst ℝ) (uniformFilter 1 1) (movingTile ℝ) 0
          (halfEngine ℝ)).1
        = (ImpactIonizationFilterFunc.call realFns (siConst ℝ) (uniformFilter 1 1)
          (movingTile ℝ) 0 ⟨fun _ => 1 / 2, 5⟩).1 :=
  ⟨halfEngine_sameDraws,
    (collision_kernels_deterministic realFns (siConst ℝ) 1 ⟨1, 0, 0⟩ ⟨0, 0, 0⟩ (unitPairArgs ℝ)
      (uniformFilter 1 1) (movingTile ℝ) 0 axisRandomizeVelocity ⟨1, 2, 3⟩ ⟨1, 0, 0⟩
      (halfEngine ℝ) ⟨fun _ => 1 / 2, 5⟩
      (fun v mag e1 e2 h => axisRandomizeVelocity_sameDraws v mag e1 e2 h)
      halfEngine_sameDraws).2.1.1⟩

/-! ## Theorems: the fitted regimes of the deflection cosine -/

theorem sampleCosXs_fitted_low {R : Type} [LinearOrderedField R] (F : MathFns R) (s r : R)
    (fuel : Nat) (engine : RandomEngine R) (h1 : 0.1 < s) (h2 : s ≤ 3.0) :
    sampleCosXs F s fuel r engine
      = some (sampleCosXs_Ainv s * F.log (F.exp (-1.0 / sampleCosXs_Ainv s)
          + 2.0 * r * F.sinh (1.0 / sampleCosXs_Ainv s)), engine) := by
  unfold sampleCosXs
  rw [if_neg (not_le.mpr h1), if_pos ⟨h1, h2⟩]
  rfl

theorem sampleCosXs_fitted_high {R : Type} [LinearOrderedField R] (F : MathFns R) (s r : R)
    (fuel : Nat) (engine : RandomEngine R) (h1 : 3.0 < s) (h2 : s ≤ 6.0) :
    sampleCosXs F s fuel r engine
      = some (1.0 / sampleCosXs_A F s * F.log (F.exp (-sampleCosXs_A F s)
          + 2.0 * r * F.sinh (sampleCosXs_A F s)), engine) := by
  have h0 : (0.1 : R) < s := lt_trans (by norm_num) h1
  unfold sampleCosXs
  rw [if_neg (not_le.mpr h0), if_neg (fun h => absurd h.2 (not_le.mpr h1)), if_pos ⟨h1, h2⟩]
  rfl

theorem sampleCosXs_Ainv_pos (s : ℝ) (hs : 0 < s) : 0 < sampleCosXs_Ainv s := by
  have hq1 : 0 < 0.9560202 - 0.508139 * s + 0.2 * s * s := by
    nlinarith [sq_nonneg (s - 1.27)]
  have hq2 : 0 < 0.27913906 - 0.12788975 * s + 0.02389567 * s * s := by
    nlinarith [sq_nonneg (s - 2.676)]
  have e : sampleCosXs_Ainv s = 0.0056958
      + s * (0.9560202 - 0.508139 * s + 0.2 * s * s)
      + s * s * s * (0.27913906 - 0.12788975 * s + 0.02389567 * s * s) := by
    unfold sampleCosXs_Ainv
    ring
  rw [e]
  have h1 := mul_pos hs hq1
  have h2 := mul_pos (mul_pos (mul_pos hs hs) hs) hq2
  linarith

theorem log_mix_bounds (B r : ℝ) (hB : 0 ≤ B) (hr0 : 0 ≤ r) (hr1 : r ≤ 1) :
    -B ≤ Real.log (Real.exp (-B) + 2.0 * r * Real.sinh B)
    ∧ Real.log (Real.exp (-B) + 2.0 * r * Real.sinh B) ≤ B
    ∧ (r = 0 → Real.log (Real.exp (-B) + 2.0 * r * Real.sinh B) = -B)
    ∧ (r = 1 → Real.log (Real.exp (-B) + 2.0 * r * Real.sinh B) = B) := by
  have e : Real.exp (-B) + 2.0 * r * Real.sinh B
      = Real.exp (-B) + r * (Real.exp B - Real.exp (-B)) := by
    rw [Real.sinh_eq]
    norm_num
    ring
  rw [e]
  have hle : Real.exp (-B) ≤ Real.exp B := Real.exp_le_exp.mpr (by linarith)
  have hpos : 0 < Real.exp (-B) := Real.exp_pos _
  have hlo : Real.exp (-B) ≤ Real.exp (-B) + r * (Real.exp B - Real.exp (-B)) :=
    le_add_of_nonneg_right (mul_nonneg hr0 (sub_nonneg.mpr hle))
  have hhi : Real.exp (-B) + r * (Real.exp B - Real.exp (-B)) ≤ Real.exp B := by
    have := mul_le_mul_of_nonneg_right hr1 (sub_nonneg.mpr hle)
    linarith
  refine ⟨?_, ?_, ?_, ?_⟩
  · have := Real.log_le_log hpos hlo
    rwa [Real.log_exp] at this
  · have := Real.log_le_log (lt_of_lt_of_le hpos hlo) hhi
    rwa [Real.log_exp] at this
  · intro h
    rw [h, zero_mul, add_zero, Real.log_exp]
  · intro h
    rw [h, one_mul, add_sub_cancel, Real.log_exp]

theorem scaled_log_bounds (K B L : ℝ) (hK : 0 < K) (hKB : K * B = 1)
    (hlo : -B ≤ L) (hhi : L ≤ B) : -1 ≤ K * L ∧ K * L ≤ 1 ∧ 0 ≤ 1 - K * L * (K * L) := by
  have h1 : -1 ≤ K * L := by
    have := mul_le_mul_of_nonneg_left hlo hK.le
    linarith
  have h2 : K * L ≤ 1 := by
    have := mul_le_mul_of_nonneg_left hhi hK.le
    linarith
  refine ⟨h1, h2, ?_⟩
  nlinarith

theorem sampleCosXs_fitted_exact (s r : ℝ) (fuel : Nat) (engine : RandomEngine ℝ)
    (hs1 : 0.1 < s) (hs6 : s ≤ 6.0) (hr0 : 0 ≤ r) (hr1 : r ≤ 1) :
    (s ≤ 3.0 → 0 < sampleCosXs_Ainv s)
    ∧ (3.0 < s → 0 < sampleCosXs_A realFns s)
    ∧ ∃ cosXs : ℝ, sampleCosXs realFns s fuel r engine = some (cosXs, engine)
        ∧ (s ≤ 3.0 → cosXs = sampleCosXs_Ainv s
            * Real.log (Real.exp (-1.0 / sampleCosXs_Ainv s)
              + 2.0 * r * Real.sinh (1.0 / sampleCosXs_Ainv s)))
        ∧ (3.0 < s → cosXs = 1.0 / sampleCosXs_A realFns s
            * Real.log (Real.exp (-sampleCosXs_A realFns s)
              + 2.0 * r * Real.sinh (sampleCosXs_A realFns s)))
        ∧ -1 ≤ cosXs ∧ cosXs ≤ 1 ∧ 0 ≤ 1 - cosXs * cosXs
        ∧ (r = 0 → cosXs = -1) ∧ (r = 1 → cosXs = 1) := by
  have hs0 : 0 < s := lt_trans (by norm_num) hs1
  have hApos : 0 < sampleCosXs_A realFns s := by
    unfold sampleCosXs_A
    exact mul_pos (by norm_num) (Real.exp_pos _)
  refine ⟨fun _ => sampleCosXs_Ainv_pos s hs0, fun _ => hApos, ?_⟩
  by_cases h3 : s ≤ 3.0
  · have hK := sampleCosXs_Ainv_pos s hs0
    have hB : 0 ≤ 1.0 / sampleCosXs_Ainv s := by
      have : (0 : ℝ) ≤ 1.0 := by norm_num
      exact div_nonneg this hK.le
    have hneg : -1.0 / sampleCosXs_Ainv s = -(1.0 / sampleCosXs_Ainv s) := neg_div _ _
    have hKB : sampleCosXs_Ainv s * (1.0 / sampleCosXs_Ainv s) = 1 := by
      field_simp
      norm_num
    obtain ⟨hlo, hhi, hz, ho⟩ := log_mix_bounds (1.0 / sampleCosXs_Ainv s) r hB hr0 hr1
    obtain ⟨b1, b2, b3⟩ := scaled_log_bounds (sampleCosXs_Ainv s) (1.0 / sampleCosXs_Ainv s)
      _ hK hKB hlo hhi
    refine ⟨sampleCosXs_Ainv s * Real.log (Real.exp (-1.0 / sampleCosXs_Ainv s)
        + 2.0 * r * Real.sinh (1.0 / sampleCosXs_Ainv s)), ?_, fun _ => rfl,
      fun h => absurd h3 (not_le.mpr h), ?_⟩
    · exact sampleCosXs_fitted_low realFns s r fuel engine hs1 h3
    · rw [hneg]
      refine ⟨b1, b2, b3, ?_, ?_⟩
      · intro h
        rw [hz h, mul_neg, hKB]
      · intro h
        rw [ho h, hKB]
  · have h3lt : 3.0 < s := not_le.mp h3
    have hKB : 1.0 / sampleCosXs_A realFns s * sampleCosXs_A realFns s = 1 := by
      field_simp
      norm_num
    have hK : 0 < 1.0 / sampleCosXs_A realFns s := by
      have : (0 : ℝ) < 1.0 := by norm_num
      exact div_pos this hApos
    obtain ⟨hlo, hhi, hz, ho⟩ := log_mix_bounds (sampleCosXs_A realFns s) r hApos.le hr0 hr1
    obtain ⟨b1, b2, b3⟩ := scaled_log_bounds (1.0 / sampleCosXs_A realFns s)
      (sampleCosXs_A realFns s) _ hK hKB hlo hhi
    refine ⟨1.0 / sampleCosXs_A realFns s * Real.log (Real.exp (-sampleCosXs_A realFns s)
        + 2.0 * r * Real.sinh (sampleCosXs_A realFns s)), ?_,
      fun h => absurd h h3, fun _ => rfl, b1, b2, b3, ?_, ?_⟩
    · exact sampleCosXs_fitted_high realFns s r fuel engine h3lt hs6
    · intro h
      rw [hz h, mul_neg, hKB]
    · intro h
      rw [ho h, hKB]

/-! ## Theorems: relativistic energy in `UpdateMomentumPerezElastic` -/

section Energy

variable {R : Type} [LinearOrderedField R]

theorem boost_invariant (ic lam gc V E vp px py pz vx vy vz : R)
    (hV2 : V = vx * vx + vy * vy + vz * vz) (hV0 : V ≠ 0) (hlam : lam * V = gc - 1)
    (hgc : gc * gc * (1 - V * ic) = 1) (hvp : vp = vx * px + vy * py + vz * pz) :
    gc * (E - ic * vp) * (gc * (E - ic * vp))
      - ic * ((px + vx * (lam * vp - gc * E)) * (px + vx * (lam * vp - gc * E))
        + (py + vy * (lam * vp - gc * E)) * (py + vy * (lam * vp - gc * E))
        + (pz + vz * (lam * vp - gc * E)) * (pz + vz * (lam * vp - gc * E)))
      = E * E - ic * (px * px + py * py + pz * pz) := by
  have key : V * (gc * (E - ic * vp) * (gc * (E - ic * vp))
      - ic * ((px + vx * (lam * vp - gc * E)) * (px + vx * (lam * vp - gc * E))
        + (py + vy * (lam * vp - gc * E)) * (py + vy * (lam * vp - gc * E))
        + (pz + vz * (lam * vp - gc * E)) * (pz + vz * (lam * vp - gc * E)))
      - (E * E - ic * (px * px + py * py + pz * pz))) = 0 := by
    linear_combination (V * E * E) * hgc + (2 * ic * gc * E * vp * V) * hlam
      + (ic * vp * vp) * ((-1) * hgc - (gc + 1 + V * lam) * hlam)
      + (V * ic * (lam * vp - gc * E) * (lam * vp - gc * E)) * hV2
      + (2 * V * ic * (lam * vp - gc * E)) * hvp
  rcases mul_eq_zero.mp key with h | h
  · exact absurd h hV0
  · exact sub_eq_zero.mp h

theorem cauchy_schwarz3 (vx vy vz px py pz : R) :
    (vx * px + vy * py + vz * pz) * (vx * px + vy * py + vz * pz)
      ≤ (vx * vx + vy * vy + vz * vz) * (px * px + py * py + pz * pz) := by
  nlinarith [sq_nonneg (vx * py - vy * px), sq_nonneg (vx * pz - vz * px),
    sq_nonneg (vy * pz - vz * py)]

theorem energy_sign (E ic V Q vp : R) (hE : 0 ≤ E) (hic : 0 ≤ ic) (hQ : 0 ≤ Q)
    (hEQ : ic * Q ≤ E * E) (hcs : vp * vp ≤ V * Q) (hsub : V * ic ≤ 1) :
    0 ≤ E - ic * vp ∧ 0 ≤ E + ic * vp := by
  have hsq : (ic * vp) * (ic * vp) ≤ E * E := by
    have h1 : (ic * vp) * (ic * vp) = ic * ic * (vp * vp) := by ring
    have h2 : ic * ic * (vp * vp) ≤ ic * ic * (V * Q) :=
      mul_le_mul_of_nonneg_left hcs (mul_nonneg hic hic)
    have h3 : ic * ic * (V * Q) = (V * ic) * (ic * Q) := by ring
    have h4 : (V * ic) * (ic * Q) ≤ 1 * (ic * Q) :=
      mul_le_mul_of_nonneg_right hsub (mul_nonneg hic hQ)
    linarith
  constructor
  · by_contra hlt
    push_neg at hlt
    have h : E < ic * vp := by linarith
    have := mul_self_lt_mul_self hE h
    linarith
  · by_contra hlt
    push_neg at hlt
    have h : E < -(ic * vp) := by linarith
    have := mul_self_lt_mul_self hE h
    have e : -(ic * vp) * -(ic * vp) = (ic * vp) * (ic * vp) := by ring
    linarith


theorem lab_energy_algebra (ic m1 m2 g1 g2 M vx vy vz V gc lam d1 d2 g1s g2s
    u1x u1y u1z u2x u2y u2z sx sy sz qx qy qz f1 f2 : R)
    (hic : 0 < ic) (hm1 : 0 < m1) (hm2 : 0 < m2) (hg1 : 0 < g1) (hg2 : 0 < g2)
    (hg1q : g1 * g1 = 1 + (u1x * u1x + u1y * u1y + u1z * u1z) * ic)
    (hg2q : g2 * g2 = 1 + (u2x * u2x + u2y * u2y + u2z * u2z) * ic)
    (hM : M = m1 * g1 + m2 * g2)
    (hvx : vx * M = u1x * m1 + u2x * m2)
    (hvy : vy * M = u1y * m1 + u2y * m2)
    (hvz : vz * M = u1z * m1 + u2z * m2)
    (hV2 : V = vx * vx + vy * vy + vz * vz) (hV0 : 0 < V)
    (hsub : 0 < 1 - V * ic) (hgcp : 0 < gc) (hgc : gc * gc * (1 - V * ic) = 1)
    (hlam : lam * V = gc - 1)
    (hd1 : d1 * g1 = vx * u1x + vy * u1y + vz * u1z)
    (hd2 : d2 * g2 = vx * u2x + vy * u2y + vz * u2z)
    (hg1s : g1s = (1 - d1 * ic) * gc * g1) (hg2s : g2s = (1 - d2 * ic) * gc * g2)
    (hsx : sx = u1x * m1 + vx * ((lam * d1 - gc) * m1 * g1))
    (hsy : sy = u1y * m1 + vy * ((lam * d1 - gc) * m1 * g1))
    (hsz : sz = u1z * m1 + vz * ((lam * d1 - gc) * m1 * g1))
    (hq : qx * qx + qy * qy + qz * qz = sx * sx + sy * sy + sz * sz)
    (hf1 : f1 = lam * (vx * qx + vy * qy + vz * qz) + m1 * g1s * gc)
    (hf2 : f2 = lam * (vx * (-qx) + vy * (-qy) + vz * (-qz)) + m2 * g2s * gc) :
    ∃ E1f E2f : R, 0 ≤ E1f ∧ 0 ≤ E2f ∧ E1f + E2f = M
      ∧ E1f * E1f = m1 * m1 + ic * ((qx + vx * f1) * (qx + vx * f1)
          + (qy + vy * f1) * (qy + vy * f1) + (qz + vz * f1) * (qz + vz * f1))
      ∧ E2f * E2f = m2 * m2 + ic * ((-qx + vx * f2) * (-qx + vx * f2)
          + (-qy + vy * f2) * (-qy + vy * f2) + (-qz + vz * f2) * (-qz + vz * f2)) := by
  have hV0' : V ≠ 0 := hV0.ne'
  have hsubl : V * ic ≤ 1 := by linarith
  -- the COM energies
  have hvp1 : m1 * g1 * d1 = vx * (u1x * m1) + vy * (u1y * m1) + vz * (u1z * m1) := by
    linear_combination m1 * hd1
  have hvp2 : m2 * g2 * d2 = vx * (u2x * m2) + vy * (u2y * m2) + vz * (u2z * m2) := by
    linear_combination m2 * hd2
  have hW : m1 * g1 * d1 + m2 * g2 * d2 = V * M := by
    linear_combination m1 * hd1 + m2 * hd2 - vx * hvx - vy * hvy - vz * hvz - M * hV2
  have hb1 := boost_invariant ic lam gc V (m1 * g1) (m1 * g1 * d1) (u1x * m1) (u1y * m1)
    (u1z * m1) vx vy vz hV2 hV0' hlam hgc hvp1
  have hb2 := boost_invariant ic lam gc V (m2 * g2) (m2 * g2 * d2) (u2x * m2) (u2y * m2)
    (u2z * m2) vx vy vz hV2 hV0' hlam hgc hvp2
  have hsx1 : u1x * m1 + vx * (lam * (m1 * g1 * d1) - gc * (m1 * g1)) = sx := by
    rw [hsx]; ring
  have hsy1 : u1y * m1 + vy * (lam * (m1 * g1 * d1) - gc * (m1 * g1)) = sy := by
    rw [hsy]; ring
  have hsz1 : u1z * m1 + vz * (lam * (m1 * g1 * d1) - gc * (m1 * g1)) = sz := by
    rw [hsz]; ring
  have hsx2 : u2x * m2 + vx * (lam * (m2 * g2 * d2) - gc * (m2 * g2)) = -sx := by
    rw [hsx]
    linear_combination (-1) * hvx + (vx * lam) * hW + (vx * gc) * hM + (vx * M) * hlam
  have hsy2 : u2y * m2 + vy * (lam * (m2 * g2 * d2) - gc * (m2 * g2)) = -sy := by
    rw [hsy]
    linear_combination (-1) * hvy + (vy * lam) * hW + (vy * gc) * hM + (vy * M) * hlam
  have hsz2 : u2z * m2 + vz * (lam * (m2 * g2 * d2) - gc * (m2 * g2)) = -sz := by
    rw [hsz]
    linear_combination (-1) * hvz + (vz * lam) * hW + (vz * gc) * hM + (vz * M) * hlam
  rw [hsx1, hsy1, hsz1] at hb1
  rw [hsx2, hsy2, hsz2] at hb2
  have hE1s : gc * (m1 * g1 - ic * (m1 * g1 * d1)) = m1 * g1s := by rw [hg1s]; ring
  have hE2s : gc * (m2 * g2 - ic * (m2 * g2 * d2)) = m2 * g2s := by rw [hg2s]; ring
  rw [hE1s] at hb1
  rw [hE2s] at hb2
  have hms1 : (m1 * g1s) * (m1 * g1s) = m1 * m1 + ic * (sx * sx + sy * sy + sz * sz) := by
    linear_combination hb1 + (m1 * m1) * hg1q
  have hms2 : (m2 * g2s) * (m2 * g2s) = m2 * m2 + ic * (sx * sx + sy * sy + sz * sz) := by
    linear_combination hb2 + (m2 * m2) * hg2q
  have hS : 0 ≤ sx * sx + sy * sy + sz * sz :=
    add_nonneg (add_nonneg (mul_self_nonneg _) (mul_self_nonneg _)) (mul_self_nonneg _)
  -- the COM energies are non-negative
  have hP1 : 0 ≤ (u1x * m1) * (u1x * m1) + (u1y * m1) * (u1y * m1) + (u1z * m1) * (u1z * m1) :=
    add_nonneg (add_nonneg (mul_self_nonneg _) (mul_self_nonneg _)) (mul_self_nonneg _)
  have hP2 : 0 ≤ (u2x * m2) * (u2x * m2) + (u2y * m2) * (u2y * m2) + (u2z * m2) * (u2z * m2) :=
    add_nonneg (add_nonneg (mul_self_nonneg _) (mul_self_nonneg _)) (mul_self_nonneg _)
  have hE1q : (m1 * g1) * (m1 * g1) = m1 * m1
      + ic * ((u1x * m1) * (u1x * m1) + (u1y * m1) * (u1y * m1) + (u1z * m1) * (u1z * m1)) := by
    linear_combination (m1 * m1) * hg1q
  have hE2q : (m2 * g2) * (m2 * g2) = m2 * m2
      + ic * ((u2x * m2) * (u2x * m2) + (u2y * m2) * (u2y * m2) + (u2z * m2) * (u2z * m2)) := by
    linear_combination (m2 * m2) * hg2q
  have hcs1 : (m1 * g1 * d1) * (m1 * g1 * d1) ≤ V
      * ((u1x * m1) * (u1x * m1) + (u1y * m1) * (u1y * m1) + (u1z * m1) * (u1z * m1)) := by
    rw [hvp1, hV2]
    exact cauchy_schwarz3 vx vy vz _ _ _
  have hcs2 : (m2 * g2 * d2) * (m2 * g2 * d2) ≤ V
      * ((u2x * m2) * (u2x * m2) + (u2y * m2) * (u2y * m2) + (u2z * m2) * (u2z * m2)) := by
    rw [hvp2, hV2]
    exact cauchy_schwarz3 vx vy vz _ _ _
  have hn1 : 0 ≤ m1 * g1s := by
    have h := (energy_sign (m1 * g1) ic V _ (m1 * g1 * d1) (mul_nonneg hm1.le hg1.le) hic.le hP1
      (by rw [hE1q]; linarith [mul_pos hm1 hm1]) hcs1 hsubl).1
    rw [← hE1s]
    exact mul_nonneg hgcp.le h
  have hn2 : 0 ≤ m2 * g2s := by
    have h := (energy_sign (m2 * g2) ic V _ (m2 * g2 * d2) (mul_nonneg hm2.le hg2.le) hic.le hP2
      (by rw [hE2q]; linarith [mul_pos hm2 hm2]) hcs2 hsubl).1
    rw [← hE2s]
    exact mul_nonneg hgcp.le h
  -- back to the lab frame
  have hV2n : V = (-vx) * (-vx) + (-vy) * (-vy) + (-vz) * (-vz) := by rw [hV2]; ring
  have hc1 := boost_invariant ic lam gc V (m1 * g1s) (-(vx * qx + vy * qy + vz * qz)) qx qy qz
    (-vx) (-vy) (-vz) hV2n hV0' hlam hgc (by ring)
  have hc2 := boost_invariant ic lam gc V (m2 * g2s) (vx * qx + vy * qy + vz * qz)
    (-qx) (-qy) (-qz) (-vx) (-vy) (-vz) hV2n hV0' hlam hgc (by ring)
  have hcsq : (vx * qx + vy * qy + vz * qz) * (vx * qx + vy * qy + vz * qz)
      ≤ V * (sx * sx + sy * sy + sz * sz) := by
    rw [← hq, hV2]
    exact cauchy_schwarz3 vx vy vz qx qy qz
  have hs1 := energy_sign (m1 * g1s) ic V _ (vx * qx + vy * qy + vz * qz) hn1 hic.le hS
    (by rw [hms1]; linarith [mul_pos hm1 hm1]) hcsq hsubl
  have hs2 := energy_sign (m2 * g2s) ic V _ (vx * qx + vy * qy + vz * qz) hn2 hic.le hS
    (by rw [hms2]; linarith [mul_pos hm2 hm2]) hcsq hsubl
  have hsum := com_boost_algebra ic m1 m2 g1 g2 M vx vy vz V gc d1 d2
    u1x u1y u1z u2x u2y u2z hM hvx hvy hvz hV2 hd1 hd2 hgc 1 M (one_mul M)
  refine ⟨gc * (m1 * g1s + ic * (vx * qx + vy * qy + vz * qz)),
    gc * (m2 * g2s - ic * (vx * qx + vy * qy + vz * qz)),
    mul_nonneg hgcp.le hs1.2, mul_nonneg hgcp.le hs2.1, ?_, ?_, ?_⟩
  · rw [← hsum, hg1s, hg2s]
    ring
  · rw [hf1]
    linear_combination hc1 + hms1 - ic * hq
  · rw [hf2]
    linear_combination hc2 + hms2 - ic * hq



theorem sqrt_of_sq (F : MathFns R) (hs : SqrtExact F) (y : R) (hy : 0 ≤ y) :
    F.sqrt (y * y) = y := by
  obtain ⟨h0, h1⟩ := hs (y * y) (mul_self_nonneg y)
  exact (mul_self_inj h0 hy).mp h1

theorem sqrt_energy (F : MathFns R) (hs : SqrtExact F) (m E ic px py pz : R)
    (hm : 0 < m) (hE : 0 ≤ E)
    (h : E * E = m * m + ic * (px * px + py * py + pz * pz)) :
    m * F.sqrt (1 + Vec3.normSq ⟨px / m, py / m, pz / m⟩ * ic) = E := by
  have e : 1 + Vec3.normSq ⟨px / m, py / m, pz / m⟩ * ic = (E / m) * (E / m) := by
    simp only [Vec3.normSq]
    have hm0 := hm.ne'
    field_simp
    linear_combination -h
  rw [e, sqrt_of_sq F hs _ (div_nonneg hE hm.le)]
  exact mul_div_cancel₀ _ hm.ne'

theorem comFrame_facts (F : MathFns R) (P : PhysConst R) (u1 u2 : Vec3 R) (m1 m2 : R)
    (hs : SqrtExact F) (hc : 0 < P.c) (hm1 : 0 < m1) (hm2 : 0 < m2) :
    0 < inv_c2 P
    ∧ (0 < (comFrame F P u1 u2 m1 m2).g1 ∧ (comFrame F P u1 u2 m1 m2).g1 * (comFrame F P u1 u2 m1 m2).g1 = 1 + (u1.x * u1.x + u1.y * u1.y + u1.z * u1.z) * inv_c2 P)
    ∧ (0 < (comFrame F P u1 u2 m1 m2).g2 ∧ (comFrame F P u1 u2 m1 m2).g2 * (comFrame F P u1 u2 m1 m2).g2 = 1 + (u2.x * u2.x + u2.y * u2.y + u2.z * u2.z) * inv_c2 P)
    ∧ ((comFrame F P u1 u2 m1 m2).vcx * (comFrame F P u1 u2 m1 m2).mass_g = u1.x * m1 + u2.x * m2
      ∧ (comFrame F P u1 u2 m1 m2).vcy * (comFrame F P u1 u2 m1 m2).mass_g = u1.y * m1 + u2.y * m2
      ∧ (comFrame F P u1 u2 m1 m2).vcz * (comFrame F P u1 u2 m1 m2).mass_g = u1.z * m1 + u2.z * m2)
    ∧ ((comFrame F P u1 u2 m1 m2).vcDv1 * (comFrame F P u1 u2 m1 m2).g1 = (comFrame F P u1 u2 m1 m2).vcx * u1.x + (comFrame F P u1 u2 m1 m2).vcy * u1.y + (comFrame F P u1 u2 m1 m2).vcz * u1.z
      ∧ (comFrame F P u1 u2 m1 m2).vcDv2 * (comFrame F P u1 u2 m1 m2).g2 = (comFrame F P u1 u2 m1 m2).vcx * u2.x + (comFrame F P u1 u2 m1 m2).vcy * u2.y + (comFrame F P u1 u2 m1 m2).vcz * u2.z)
    ∧ 0 < 1 - (comFrame F P u1 u2 m1 m2).vcms * inv_c2 P
    ∧ 0 < (comFrame F P u1 u2 m1 m2).gc
    ∧ (comFrame F P u1 u2 m1 m2).gc * (comFrame F P u1 u2 m1 m2).gc * (1 - (comFrame F P u1 u2 m1 m2).vcms * inv_c2 P) = 1 := by
  have hic : 0 < inv_c2 P := by
    unfold inv_c2
    exact one_div_pos.mpr (mul_pos hc hc)
  have hU1 : 0 ≤ u1.x * u1.x + u1.y * u1.y + u1.z * u1.z :=
    add_nonneg (add_nonneg (mul_self_nonneg _) (mul_self_nonneg _)) (mul_self_nonneg _)
  have hU2 : 0 ≤ u2.x * u2.x + u2.y * u2.y + u2.z * u2.z :=
    add_nonneg (add_nonneg (mul_self_nonneg _) (mul_self_nonneg _)) (mul_self_nonneg _)
  have hA1 : (1 : R) ≤ 1 + (u1.x * u1.x + u1.y * u1.y + u1.z * u1.z) * inv_c2 P :=
    le_add_of_nonneg_right (mul_nonneg hU1 hic.le)
  have hA2 : (1 : R) ≤ 1 + (u2.x * u2.x + u2.y * u2.y + u2.z * u2.z) * inv_c2 P :=
    le_add_of_nonneg_right (mul_nonneg hU2 hic.le)
  obtain ⟨hg1, hg1s⟩ := hs _ (zero_le_one.trans hA1)
  obtain ⟨hg2, hg2s⟩ := hs _ (zero_le_one.trans hA2)
  have hg1p : 0 < (comFrame F P u1 u2 m1 m2).g1 := by
    rcases hg1.lt_or_eq with h | h
    · exact h
    · exfalso
      rw [← h, mul_zero] at hg1s
      linarith
  have hg2p : 0 < (comFrame F P u1 u2 m1 m2).g2 := by
    rcases hg2.lt_or_eq with h | h
    · exact h
    · exfalso
      rw [← h, mul_zero] at hg2s
      linarith
  have hMp : 0 < (comFrame F P u1 u2 m1 m2).mass_g :=
    add_pos (mul_pos hm1 hg1p) (mul_pos hm2 hg2p)
  have hvx : (comFrame F P u1 u2 m1 m2).vcx * (comFrame F P u1 u2 m1 m2).mass_g = u1.x * m1 + u2.x * m2 := div_mul_cancel₀ _ hMp.ne'
  have hvy : (comFrame F P u1 u2 m1 m2).vcy * (comFrame F P u1 u2 m1 m2).mass_g = u1.y * m1 + u2.y * m2 := div_mul_cancel₀ _ hMp.ne'
  have hvz : (comFrame F P u1 u2 m1 m2).vcz * (comFrame F P u1 u2 m1 m2).mass_g = u1.z * m1 + u2.z * m2 := div_mul_cancel₀ _ hMp.ne'
  have hd1 : (comFrame F P u1 u2 m1 m2).vcDv1 * (comFrame F P u1 u2 m1 m2).g1 = (comFrame F P u1 u2 m1 m2).vcx * u1.x + (comFrame F P u1 u2 m1 m2).vcy * u1.y + (comFrame F P u1 u2 m1 m2).vcz * u1.z :=
    div_mul_cancel₀ _ hg1p.ne'
  have hd2 : (comFrame F P u1 u2 m1 m2).vcDv2 * (comFrame F P u1 u2 m1 m2).g2 = (comFrame F P u1 u2 m1 m2).vcx * u2.x + (comFrame F P u1 u2 m1 m2).vcy * u2.y + (comFrame F P u1 u2 m1 m2).vcz * u2.z :=
    div_mul_cancel₀ _ hg2p.ne'
  have hD : 0 < 1 - (comFrame F P u1 u2 m1 m2).vcms * inv_c2 P :=
    subluminal_algebra (inv_c2 P) m1 m2 _ _ _ _ _ _ u1.x u1.y u1.z u2.x u2.y u2.z
      hic hm1 hm2 hg1 hg2 hg1s hg2s rfl hvx hvy hvz
  obtain ⟨hsD, hsDs⟩ := hs _ hD.le
  have hsDne : F.sqrt (1 - (comFrame F P u1 u2 m1 m2).vcms * inv_c2 P) ≠ 0 := by
    intro h0
    rw [h0, mul_zero] at hsDs
    exact hD.ne hsDs
  have hsDp : 0 < F.sqrt (1 - (comFrame F P u1 u2 m1 m2).vcms * inv_c2 P) := lt_of_le_of_ne hsD (Ne.symm hsDne)
  have e : (comFrame F P u1 u2 m1 m2).gc = 1 / F.sqrt (1 - (comFrame F P u1 u2 m1 m2).vcms * inv_c2 P) := rfl
  have hgcp : 0 < (comFrame F P u1 u2 m1 m2).gc := by
    rw [e]
    exact one_div_pos.mpr hsDp
  have hgc : (comFrame F P u1 u2 m1 m2).gc * (comFrame F P u1 u2 m1 m2).gc * (1 - (comFrame F P u1 u2 m1 m2).vcms * inv_c2 P) = 1 := by
    rw [e]
    nth_rewrite 3 [← hsDs]
    field_simp
  exact ⟨hic, ⟨hg1p, hg1s⟩, ⟨hg2p, hg2s⟩, ⟨hvx, hvy, hvz⟩, ⟨hd1, hd2⟩, hD, hgcp, hgc⟩

theorem comFrame_p1s_boost (F : MathFns R) (P : PhysConst R) (u1 u2 : Vec3 R) (m1 m2 : R)
    (hv : (comFrame F P u1 u2 m1 m2).vcms > F.numeric_limits_min) :
    (comFrame F P u1 u2 m1 m2).p1sx = u1.x * m1
        + (comFrame F P u1 u2 m1 m2).vcx * ((((comFrame F P u1 u2 m1 m2).gc - 1) / (comFrame F P u1 u2 m1 m2).vcms * (comFrame F P u1 u2 m1 m2).vcDv1 - (comFrame F P u1 u2 m1 m2).gc) * m1 * (comFrame F P u1 u2 m1 m2).g1)
    ∧ (comFrame F P u1 u2 m1 m2).p1sy = u1.y * m1
        + (comFrame F P u1 u2 m1 m2).vcy * ((((comFrame F P u1 u2 m1 m2).gc - 1) / (comFrame F P u1 u2 m1 m2).vcms * (comFrame F P u1 u2 m1 m2).vcDv1 - (comFrame F P u1 u2 m1 m2).gc) * m1 * (comFrame F P u1 u2 m1 m2).g1)
    ∧ (comFrame F P u1 u2 m1 m2).p1sz = u1.z * m1
        + (comFrame F P u1 u2 m1 m2).vcz * ((((comFrame F P u1 u2 m1 m2).gc - 1) / (comFrame F P u1 u2 m1 m2).vcms * (comFrame F P u1 u2 m1 m2).vcDv1 - (comFrame F P u1 u2 m1 m2).gc) * m1 * (comFrame F P u1 u2 m1 m2).g1) := by
  refine ⟨?_, ?_, ?_⟩
  · show (if (comFrame F P u1 u2 m1 m2).vcms > F.numeric_limits_min then _ else _) = _
    rw [if_pos hv]
    rfl
  · show (if (comFrame F P u1 u2 m1 m2).vcms > F.numeric_limits_min then _ else _) = _
    rw [if_pos hv]
    rfl
  · show (if (comFrame F P u1 u2 m1 m2).vcms > F.numeric_limits_min then _ else _) = _
    rw [if_pos hv]
    rfl

theorem labFrame_boost (F : MathFns R) (cf : ComFrame R) (m1 m2 : R) (q : Vec3 R)
    (hv : cf.vcms > F.numeric_limits_min) :
    labFrame F cf m1 m2 q
      = (⟨q.x + cf.vcx * ((cf.gc - 1) / cf.vcms * (cf.vcx * q.x + cf.vcy * q.y + cf.vcz * q.z)
            + m1 * cf.g1s * cf.gc),
          q.y + cf.vcy * ((cf.gc - 1) / cf.vcms * (cf.vcx * q.x + cf.vcy * q.y + cf.vcz * q.z)
            + m1 * cf.g1s * cf.gc),
          q.z + cf.vcz * ((cf.gc - 1) / cf.vcms * (cf.vcx * q.x + cf.vcy * q.y + cf.vcz * q.z)
            + m1 * cf.g1s * cf.gc)⟩,
         ⟨-q.x + cf.vcx * ((cf.gc - 1) / cf.vcms
            * (cf.vcx * (-q.x) + cf.vcy * (-q.y) + cf.vcz * (-q.z)) + m2 * cf.g2s * cf.gc),
          -q.y + cf.vcy * ((cf.gc - 1) / cf.vcms
            * (cf.vcx * (-q.x) + cf.vcy * (-q.y) + cf.vcz * (-q.z)) + m2 * cf.g2s * cf.gc),
          -q.z + cf.vcz * ((cf.gc - 1) / cf.vcms
            * (cf.vcx * (-q.x) + cf.vcy * (-q.y) + cf.vcz * (-q.z)) + m2 * cf.g2s * cf.gc)⟩) := by
  simp only [labFrame, hv, if_true]

theorem labFrame_energy (F : MathFns R) (P : PhysConst R) (u1 u2 : Vec3 R) (m1 m2 : R)
    (q : Vec3 R) (hs : SqrtExact F) (hc : 0 < P.c) (hm1 : 0 < m1) (hm2 : 0 < m2)
    (hmin : 0 ≤ F.numeric_limits_min)
    (hv : (comFrame F P u1 u2 m1 m2).vcms > F.numeric_limits_min)
    (hq : Vec3.normSq q = (comFrame F P u1 u2 m1 m2).p1sx * (comFrame F P u1 u2 m1 m2).p1sx + (comFrame F P u1 u2 m1 m2).p1sy * (comFrame F P u1 u2 m1 m2).p1sy + (comFrame F P u1 u2 m1 m2).p1sz * (comFrame F P u1 u2 m1 m2).p1sz) :
    m1 * F.sqrt (1 + Vec3.normSq ⟨(labFrame F (comFrame F P u1 u2 m1 m2) m1 m2 q).1.x / m1,
        (labFrame F (comFrame F P u1 u2 m1 m2) m1 m2 q).1.y / m1, (labFrame F (comFrame F P u1 u2 m1 m2) m1 m2 q).1.z / m1⟩ * inv_c2 P)
      + m2 * F.sqrt (1 + Vec3.normSq ⟨(labFrame F (comFrame F P u1 u2 m1 m2) m1 m2 q).2.x / m2,
        (labFrame F (comFrame F P u1 u2 m1 m2) m1 m2 q).2.y / m2, (labFrame F (comFrame F P u1 u2 m1 m2) m1 m2 q).2.z / m2⟩ * inv_c2 P)
      = m1 * F.sqrt (1 + Vec3.normSq u1 * inv_c2 P)
        + m2 * F.sqrt (1 + Vec3.normSq u2 * inv_c2 P) := by
  obtain ⟨hic, ⟨hg1, hg1q⟩, ⟨hg2, hg2q⟩, ⟨hvx, hvy, hvz⟩, ⟨hd1, hd2⟩, hsub, hgcp, hgc⟩ :=
    comFrame_facts F P u1 u2 m1 m2 hs hc hm1 hm2
  have hV0 : 0 < (comFrame F P u1 u2 m1 m2).vcms := lt_of_le_of_lt hmin hv
  have hlam : ((comFrame F P u1 u2 m1 m2).gc - 1) / (comFrame F P u1 u2 m1 m2).vcms * (comFrame F P u1 u2 m1 m2).vcms = (comFrame F P u1 u2 m1 m2).gc - 1 := div_mul_cancel₀ _ hV0.ne'
  obtain ⟨hsx, hsy, hsz⟩ := comFrame_p1s_boost F P u1 u2 m1 m2 hv
  obtain ⟨E1f, E2f, h1, h2, hsum, he1, he2⟩ := lab_energy_algebra (inv_c2 P) m1 m2
    (comFrame F P u1 u2 m1 m2).g1 (comFrame F P u1 u2 m1 m2).g2 (comFrame F P u1 u2 m1 m2).mass_g (comFrame F P u1 u2 m1 m2).vcx (comFrame F P u1 u2 m1 m2).vcy (comFrame F P u1 u2 m1 m2).vcz (comFrame F P u1 u2 m1 m2).vcms (comFrame F P u1 u2 m1 m2).gc (((comFrame F P u1 u2 m1 m2).gc - 1) / (comFrame F P u1 u2 m1 m2).vcms)
    (comFrame F P u1 u2 m1 m2).vcDv1 (comFrame F P u1 u2 m1 m2).vcDv2 (comFrame F P u1 u2 m1 m2).g1s (comFrame F P u1 u2 m1 m2).g2s u1.x u1.y u1.z u2.x u2.y u2.z
    (comFrame F P u1 u2 m1 m2).p1sx (comFrame F P u1 u2 m1 m2).p1sy (comFrame F P u1 u2 m1 m2).p1sz q.x q.y q.z _ _
    hic hm1 hm2 hg1 hg2 hg1q hg2q rfl hvx hvy hvz rfl hV0 hsub hgcp hgc hlam hd1 hd2
    rfl rfl hsx hsy hsz hq rfl rfl
  rw [labFrame_boost F (comFrame F P u1 u2 m1 m2) m1 m2 q hv]
  simp only
  rw [sqrt_energy F hs m1 E1f (inv_c2 P) _ _ _ hm1 h1 he1,
    sqrt_energy F hs m2 E2f (inv_c2 P) _ _ _ hm2 h2 he2, hsum]
  rfl

theorem candidateVelocities_energy (F : MathFns R) (P : PhysConst R) (u1 u2 : Vec3 R)
    (a : PairArgs R) (cosXs : R) (engine : RandomEngine R)
    (hs : SqrtExact F) (hc : 0 < P.c) (hm1 : 0 < a.m1) (hm2 : 0 < a.m2)
    (hmin : 0 ≤ F.numeric_limits_min)
    (hv : (comFrame F P u1 u2 a.m1 a.m2).vcms > F.numeric_limits_min)
    (hD : rotationDenominator F (comFrame F P u1 u2 a.m1 a.m2) ≠ 0)
    (hc1 : -1 ≤ cosXs) (hc2 : cosXs ≤ 1)
    (htrig : ∀ x : R, F.cos x * F.cos x + F.sin x * F.sin x = 1) :
    a.m1 * F.sqrt (1 + Vec3.normSq (candidateVelocities F P (comFrame F P u1 u2 a.m1 a.m2) a cosXs engine).1 * inv_c2 P)
      + a.m2 * F.sqrt (1 + Vec3.normSq (candidateVelocities F P (comFrame F P u1 u2 a.m1 a.m2) a cosXs engine).2
          * inv_c2 P)
      = a.m1 * F.sqrt (1 + Vec3.normSq u1 * inv_c2 P)
        + a.m2 * F.sqrt (1 + Vec3.normSq u2 * inv_c2 P) := by
  have hM := comFrame_p1sm_sq F P u1 u2 a.m1 a.m2 hs
  have hn := (rotateCom_normSq F (comFrame F P u1 u2 a.m1 a.m2) cosXs (F.sqrt (1 - cosXs * cosXs))
    (F.cos ((Random engine).1 * 2 * P.pi)) (F.sin ((Random engine).1 * 2 * P.pi)) hs hM
    (sinXs_sq F hs cosXs hc1 hc2) (htrig _) hD).1
  exact labFrame_energy F P u1 u2 a.m1 a.m2 _ hs hc hm1 hm2 hmin hv (hn.trans hM)

theorem UpdateMomentumPerezElastic_energy (F : MathFns R) (P : PhysConst R) (fuel : Nat)
    (u1 u2 : Vec3 R) (a : PairArgs R) (engine : RandomEngine R)
    (out : Vec3 R × Vec3 R × RandomEngine R)
    (hs : SqrtExact F) (hc : 0 < P.c) (hm1 : 0 < a.m1) (hm2 : 0 < a.m2)
    (hmin : 0 ≤ F.numeric_limits_min)
    (hv : (comFrame F P u1 u2 a.m1 a.m2).vcms > F.numeric_limits_min)
    (hD : rotationDenominator F (comFrame F P u1 u2 a.m1 a.m2) ≠ 0)
    (htrig : ∀ x : R, F.cos x * F.cos x + F.sin x * F.sin x = 1)
    (hcos : ∀ c e2, sampleCosXs F (collisionStrength F P (comFrame F P u1 u2 a.m1 a.m2) a) fuel
      (Random engine).1 (Random engine).2 = some (c, e2) → -1 ≤ c ∧ c ≤ 1)
    (hout : UpdateMomentumPerezElastic F P fuel u1 u2 a engine = some out)
    (hr1 : a.w2 > out.2.2.draws (out.2.2.pos - 2) * max a.w1 a.w2)
    (hr2 : a.w1 > out.2.2.draws (out.2.2.pos - 1) * max a.w1 a.w2) :
    a.m1 * F.sqrt (1 + Vec3.normSq out.1 * inv_c2 P)
      + a.m2 * F.sqrt (1 + Vec3.normSq out.2.1 * inv_c2 P)
      = a.m1 * F.sqrt (1 + Vec3.normSq u1 * inv_c2 P)
        + a.m2 * F.sqrt (1 + Vec3.normSq u2 * inv_c2 P) := by
  by_cases hskip : noRelativeMotion F u1 u2 = true
  · unfold UpdateMomentumPerezElastic at hout
    rw [if_pos hskip] at hout
    cases hout
    rfl
  · have hskip' : noRelativeMotion F u1 u2 = false := by
      simpa using hskip
    obtain ⟨c, e2, hsamp, rfl⟩ := UpdateMomentumPerezElastic_some F P fuel u1 u2 a engine out
      hskip' hout
    obtain ⟨hc1, hc2⟩ := hcos c e2 hsamp
    have hp2 : e2.pos + 3 - 2 = e2.pos + 1 := by omega
    have hp1 : e2.pos + 3 - 1 = e2.pos + 2 := by omega
    rw [scatterAndReject_eq] at hr1 hr2 ⊢
    simp only [hp1, hp2] at hr1 hr2
    simp only [if_pos hr1, if_pos hr2]
    exact candidateVelocities_energy F P u1 u2 a c e2 hs hc hm1 hm2 hmin hv hD hc1 hc2 htrig

end Energy

theorem fast_pair_frame (m : ℝ) (hm : 0 < m) :
    (comFrame realFns (siConst ℝ) ⟨1, 0, 0⟩ ⟨0, 0, 0⟩ m m).vcms > realFns.numeric_limits_min
    ∧ (comFrame realFns (siConst ℝ) ⟨1, 0, 0⟩ ⟨0, 0, 0⟩ m m).p1sy = 0 ∧ (comFrame realFns (siConst ℝ) ⟨1, 0, 0⟩ ⟨0, 0, 0⟩ m m).p1sz = 0 ∧ 0 ≤ (comFrame realFns (siConst ℝ) ⟨1, 0, 0⟩ ⟨0, 0, 0⟩ m m).p1sx ∧ (comFrame realFns (siConst ℝ) ⟨1, 0, 0⟩ ⟨0, 0, 0⟩ m m).p1sx ≤ m
    ∧ m / 3 ≤ (comFrame realFns (siConst ℝ) ⟨1, 0, 0⟩ ⟨0, 0, 0⟩ m m).p1sx := by
  have hc : 0 < (siConst ℝ).c := by
    simp only [siConst]
    norm_num
  obtain ⟨hic, ⟨hg1, hg1q⟩, ⟨hg2, hg2q⟩, ⟨hvx, hvy, hvz⟩, ⟨hd1, _⟩, hsub, hgcp, hgc⟩ :=
    comFrame_facts realFns (siConst ℝ) ⟨1, 0, 0⟩ ⟨0, 0, 0⟩ m m realFns_sqrtExact hc hm hm
  have hic1 : inv_c2 (siConst ℝ) ≤ 1 := by
    simp only [inv_c2, siConst]
    norm_num
  simp only [mul_zero, zero_mul, add_zero, mul_one, one_mul] at hg1q hg2q hvx hvy hvz hd1
  have hM : (comFrame realFns (siConst ℝ) ⟨1, 0, 0⟩ ⟨0, 0, 0⟩ m m).mass_g = m * (comFrame realFns (siConst ℝ) ⟨1, 0, 0⟩ ⟨0, 0, 0⟩ m m).g1 + m * (comFrame realFns (siConst ℝ) ⟨1, 0, 0⟩ ⟨0, 0, 0⟩ m m).g2 := rfl
  have hV : (comFrame realFns (siConst ℝ) ⟨1, 0, 0⟩ ⟨0, 0, 0⟩ m m).vcms = (comFrame realFns (siConst ℝ) ⟨1, 0, 0⟩ ⟨0, 0, 0⟩ m m).vcx * (comFrame realFns (siConst ℝ) ⟨1, 0, 0⟩ ⟨0, 0, 0⟩ m m).vcx + (comFrame realFns (siConst ℝ) ⟨1, 0, 0⟩ ⟨0, 0, 0⟩ m m).vcy * (comFrame realFns (siConst ℝ) ⟨1, 0, 0⟩ ⟨0, 0, 0⟩ m m).vcy + (comFrame realFns (siConst ℝ) ⟨1, 0, 0⟩ ⟨0, 0, 0⟩ m m).vcz * (comFrame realFns (siConst ℝ) ⟨1, 0, 0⟩ ⟨0, 0, 0⟩ m m).vcz := rfl
  have hg2e : (comFrame realFns (siConst ℝ) ⟨1, 0, 0⟩ ⟨0, 0, 0⟩ m m).g2 = 1 := by
    have h : ((comFrame realFns (siConst ℝ) ⟨1, 0, 0⟩ ⟨0, 0, 0⟩ m m).g2 - 1) * ((comFrame realFns (siConst ℝ) ⟨1, 0, 0⟩ ⟨0, 0, 0⟩ m m).g2 + 1) = 0 := by linear_combination hg2q
    rcases mul_eq_zero.mp h with h | h
    · linarith
    · linarith
  have hg1lo : 1 ≤ (comFrame realFns (siConst ℝ) ⟨1, 0, 0⟩ ⟨0, 0, 0⟩ m m).g1 := by
    by_contra hlt
    push_neg at hlt
    have := mul_self_lt_mul_self hg1.le hlt
    linarith
  have hg1hi : (comFrame realFns (siConst ℝ) ⟨1, 0, 0⟩ ⟨0, 0, 0⟩ m m).g1 ≤ 2 := by
    by_contra hlt
    push_neg at hlt
    have := mul_self_lt_mul_self (by norm_num : (0 : ℝ) ≤ 2) hlt
    linarith
  have hMp : 0 < (comFrame realFns (siConst ℝ) ⟨1, 0, 0⟩ ⟨0, 0, 0⟩ m m).mass_g := by
    rw [hM]
    have := mul_pos hm hg1
    have := mul_pos hm hg2
    linarith
  have hvy0 : (comFrame realFns (siConst ℝ) ⟨1, 0, 0⟩ ⟨0, 0, 0⟩ m m).vcy = 0 := by
    rcases mul_eq_zero.mp hvy with h | h
    · exact h
    · exact absurd h hMp.ne'
  have hvz0 : (comFrame realFns (siConst ℝ) ⟨1, 0, 0⟩ ⟨0, 0, 0⟩ m m).vcz = 0 := by
    rcases mul_eq_zero.mp hvz with h | h
    · exact h
    · exact absurd h hMp.ne'
  have hvx1 : (comFrame realFns (siConst ℝ) ⟨1, 0, 0⟩ ⟨0, 0, 0⟩ m m).vcx * ((comFrame realFns (siConst ℝ) ⟨1, 0, 0⟩ ⟨0, 0, 0⟩ m m).g1 + 1) = 1 := by
    have h : m * ((comFrame realFns (siConst ℝ) ⟨1, 0, 0⟩ ⟨0, 0, 0⟩ m m).vcx * ((comFrame realFns (siConst ℝ) ⟨1, 0, 0⟩ ⟨0, 0, 0⟩ m m).g1 + 1) - 1) = 0 := by
      rw [hM, hg2e] at hvx
      linear_combination hvx
    rcases mul_eq_zero.mp h with h | h
    · exact absurd h hm.ne'
    · linarith
  have hvxp : 0 < (comFrame realFns (siConst ℝ) ⟨1, 0, 0⟩ ⟨0, 0, 0⟩ m m).vcx := by
    have h2 : 0 < (comFrame realFns (siConst ℝ) ⟨1, 0, 0⟩ ⟨0, 0, 0⟩ m m).g1 + 1 := by linarith
    exact (pos_iff_pos_of_mul_pos (by rw [hvx1]; norm_num)).mpr h2
  have hvxlo : 1 / 3 ≤ (comFrame realFns (siConst ℝ) ⟨1, 0, 0⟩ ⟨0, 0, 0⟩ m m).vcx := by
    by_contra hlt
    push_neg at hlt
    have h1 : (comFrame realFns (siConst ℝ) ⟨1, 0, 0⟩ ⟨0, 0, 0⟩ m m).vcx * ((comFrame realFns (siConst ℝ) ⟨1, 0, 0⟩ ⟨0, 0, 0⟩ m m).g1 + 1) < 1 / 3 * 3 := by
      have h2 : (comFrame realFns (siConst ℝ) ⟨1, 0, 0⟩ ⟨0, 0, 0⟩ m m).g1 + 1 ≤ 3 := by linarith
      calc (comFrame realFns (siConst ℝ) ⟨1, 0, 0⟩ ⟨0, 0, 0⟩ m m).vcx * ((comFrame realFns (siConst ℝ) ⟨1, 0, 0⟩ ⟨0, 0, 0⟩ m m).g1 + 1) ≤ (comFrame realFns (siConst ℝ) ⟨1, 0, 0⟩ ⟨0, 0, 0⟩ m m).vcx * 3 := mul_le_mul_of_nonneg_left h2 hvxp.le
        _ < 1 / 3 * 3 := mul_lt_mul_of_pos_right hlt (by norm_num)
    rw [hvx1] at h1
    norm_num at h1
  have hvxhi : (comFrame realFns (siConst ℝ) ⟨1, 0, 0⟩ ⟨0, 0, 0⟩ m m).vcx ≤ 1 / 2 := by
    by_contra hlt
    push_neg at hlt
    have h1 : 1 / 2 * 2 < (comFrame realFns (siConst ℝ) ⟨1, 0, 0⟩ ⟨0, 0, 0⟩ m m).vcx * ((comFrame realFns (siConst ℝ) ⟨1, 0, 0⟩ ⟨0, 0, 0⟩ m m).g1 + 1) := by
      have h2 : 2 ≤ (comFrame realFns (siConst ℝ) ⟨1, 0, 0⟩ ⟨0, 0, 0⟩ m m).g1 + 1 := by linarith
      calc 1 / 2 * 2 < (comFrame realFns (siConst ℝ) ⟨1, 0, 0⟩ ⟨0, 0, 0⟩ m m).vcx * 2 := mul_lt_mul_of_pos_right hlt (by norm_num)
        _ ≤ (comFrame realFns (siConst ℝ) ⟨1, 0, 0⟩ ⟨0, 0, 0⟩ m m).vcx * ((comFrame realFns (siConst ℝ) ⟨1, 0, 0⟩ ⟨0, 0, 0⟩ m m).g1 + 1) := mul_le_mul_of_nonneg_left h2 hvxp.le
    rw [hvx1] at h1
    norm_num at h1
  have hVe : (comFrame realFns (siConst ℝ) ⟨1, 0, 0⟩ ⟨0, 0, 0⟩ m m).vcms = (comFrame realFns (siConst ℝ) ⟨1, 0, 0⟩ ⟨0, 0, 0⟩ m m).vcx * (comFrame realFns (siConst ℝ) ⟨1, 0, 0⟩ ⟨0, 0, 0⟩ m m).vcx := by
    rw [hV, hvy0, hvz0]
    ring
  have hVlo : 1 / 9 ≤ (comFrame realFns (siConst ℝ) ⟨1, 0, 0⟩ ⟨0, 0, 0⟩ m m).vcms := by
    rw [hVe]
    calc (1 : ℝ) / 9 = 1 / 3 * (1 / 3) := by norm_num
      _ ≤ (comFrame realFns (siConst ℝ) ⟨1, 0, 0⟩ ⟨0, 0, 0⟩ m m).vcx * (comFrame realFns (siConst ℝ) ⟨1, 0, 0⟩ ⟨0, 0, 0⟩ m m).vcx := mul_le_mul hvxlo hvxlo (by norm_num) hvxp.le
  have hVhi : (comFrame realFns (siConst ℝ) ⟨1, 0, 0⟩ ⟨0, 0, 0⟩ m m).vcms ≤ 1 / 4 := by
    rw [hVe]
    calc (comFrame realFns (siConst ℝ) ⟨1, 0, 0⟩ ⟨0, 0, 0⟩ m m).vcx * (comFrame realFns (siConst ℝ) ⟨1, 0, 0⟩ ⟨0, 0, 0⟩ m m).vcx ≤ 1 / 2 * (1 / 2) := mul_le_mul hvxhi hvxhi hvxp.le (by norm_num)
      _ = 1 / 4 := by norm_num
  have hv : (comFrame realFns (siConst ℝ) ⟨1, 0, 0⟩ ⟨0, 0, 0⟩ m m).vcms > realFns.numeric_limits_min := by
    have h : realFns.numeric_limits_min < 1 / 9 := by
      simp only [realFns]
      norm_num
    exact lt_of_lt_of_le h hVlo
  have hgchi : (comFrame realFns (siConst ℝ) ⟨1, 0, 0⟩ ⟨0, 0, 0⟩ m m).gc ≤ 2 := by
    by_contra hlt
    push_neg at hlt
    have h1 := mul_self_lt_mul_self (by norm_num : (0 : ℝ) ≤ 2) hlt
    have h2 : (comFrame realFns (siConst ℝ) ⟨1, 0, 0⟩ ⟨0, 0, 0⟩ m m).vcms * inv_c2 (siConst ℝ) ≤ 1 / 4 * 1 :=
      mul_le_mul hVhi hic1 hic.le (by norm_num)
    have h3 : (3 : ℝ) / 4 ≤ 1 - (comFrame realFns (siConst ℝ) ⟨1, 0, 0⟩ ⟨0, 0, 0⟩ m m).vcms * inv_c2 (siConst ℝ) := by linarith
    have h4 : (comFrame realFns (siConst ℝ) ⟨1, 0, 0⟩ ⟨0, 0, 0⟩ m m).gc * (comFrame realFns (siConst ℝ) ⟨1, 0, 0⟩ ⟨0, 0, 0⟩ m m).gc * (3 / 4) ≤ (comFrame realFns (siConst ℝ) ⟨1, 0, 0⟩ ⟨0, 0, 0⟩ m m).gc * (comFrame realFns (siConst ℝ) ⟨1, 0, 0⟩ ⟨0, 0, 0⟩ m m).gc * (1 - (comFrame realFns (siConst ℝ) ⟨1, 0, 0⟩ ⟨0, 0, 0⟩ m m).vcms * inv_c2 (siConst ℝ)) :=
      mul_le_mul_of_nonneg_left h3 (mul_self_nonneg _)
    rw [hgc] at h4
    linarith
  have hV0 : (comFrame realFns (siConst ℝ) ⟨1, 0, 0⟩ ⟨0, 0, 0⟩ m m).vcms ≠ 0 := by
    have : (0 : ℝ) < (comFrame realFns (siConst ℝ) ⟨1, 0, 0⟩ ⟨0, 0, 0⟩ m m).vcms := lt_of_lt_of_le (by norm_num) hVlo
    exact this.ne'
  have hlam : ((comFrame realFns (siConst ℝ) ⟨1, 0, 0⟩ ⟨0, 0, 0⟩ m m).gc - 1) / (comFrame realFns (siConst ℝ) ⟨1, 0, 0⟩ ⟨0, 0, 0⟩ m m).vcms * (comFrame realFns (siConst ℝ) ⟨1, 0, 0⟩ ⟨0, 0, 0⟩ m m).vcms = (comFrame realFns (siConst ℝ) ⟨1, 0, 0⟩ ⟨0, 0, 0⟩ m m).gc - 1 := div_mul_cancel₀ _ hV0
  obtain ⟨hsx, hsy, hsz⟩ := comFrame_p1s_boost realFns (siConst ℝ) ⟨1, 0, 0⟩ ⟨0, 0, 0⟩ m m hv
  simp only [mul_zero, zero_mul, add_zero, mul_one, one_mul, zero_add] at hsx hsy hsz
  have hsxe : (comFrame realFns (siConst ℝ) ⟨1, 0, 0⟩ ⟨0, 0, 0⟩ m m).p1sx = (comFrame realFns (siConst ℝ) ⟨1, 0, 0⟩ ⟨0, 0, 0⟩ m m).gc * m * (comFrame realFns (siConst ℝ) ⟨1, 0, 0⟩ ⟨0, 0, 0⟩ m m).vcx := by
    rw [hsx]
    linear_combination (m * (comFrame realFns (siConst ℝ) ⟨1, 0, 0⟩ ⟨0, 0, 0⟩ m m).vcx * (((comFrame realFns (siConst ℝ) ⟨1, 0, 0⟩ ⟨0, 0, 0⟩ m m).gc - 1) / (comFrame realFns (siConst ℝ) ⟨1, 0, 0⟩ ⟨0, 0, 0⟩ m m).vcms)) * hd1 + m * hlam - (m * (((comFrame realFns (siConst ℝ) ⟨1, 0, 0⟩ ⟨0, 0, 0⟩ m m).gc - 1) / (comFrame realFns (siConst ℝ) ⟨1, 0, 0⟩ ⟨0, 0, 0⟩ m m).vcms)) * hVe
      - ((comFrame realFns (siConst ℝ) ⟨1, 0, 0⟩ ⟨0, 0, 0⟩ m m).gc * m) * hvx1
  have hgclo : 1 ≤ (comFrame realFns (siConst ℝ) ⟨1, 0, 0⟩ ⟨0, 0, 0⟩ m m).gc := by
    by_contra hlt
    push_neg at hlt
    have h1 : (comFrame realFns (siConst ℝ) ⟨1, 0, 0⟩ ⟨0, 0, 0⟩ m m).gc * (comFrame realFns (siConst ℝ) ⟨1, 0, 0⟩ ⟨0, 0, 0⟩ m m).gc < 1 * 1 := mul_self_lt_mul_self hgcp.le hlt
    have h2 : 0 ≤ (comFrame realFns (siConst ℝ) ⟨1, 0, 0⟩ ⟨0, 0, 0⟩ m m).vcms * inv_c2 (siConst ℝ) :=
      mul_nonneg (le_trans (by norm_num) hVlo) hic.le
    have h3 : (comFrame realFns (siConst ℝ) ⟨1, 0, 0⟩ ⟨0, 0, 0⟩ m m).gc * (comFrame realFns (siConst ℝ) ⟨1, 0, 0⟩ ⟨0, 0, 0⟩ m m).gc * (1 - (comFrame realFns (siConst ℝ) ⟨1, 0, 0⟩ ⟨0, 0, 0⟩ m m).vcms * inv_c2 (siConst ℝ)) ≤ (comFrame realFns (siConst ℝ) ⟨1, 0, 0⟩ ⟨0, 0, 0⟩ m m).gc * (comFrame realFns (siConst ℝ) ⟨1, 0, 0⟩ ⟨0, 0, 0⟩ m m).gc * 1 :=
      mul_le_mul_of_nonneg_left (by linarith) (mul_self_nonneg _)
    rw [hgc] at h3
    linarith
  refine ⟨hv, ?_, ?_, ?_, ?_, ?_⟩
  · rw [hsy, hvy0, zero_mul]
  · rw [hsz, hvz0, zero_mul]
  · rw [hsxe]
    exact mul_nonneg (mul_nonneg hgcp.le hm.le) hvxp.le
  · rw [hsxe]
    calc (comFrame realFns (siConst ℝ) ⟨1, 0, 0⟩ ⟨0, 0, 0⟩ m m).gc * m * (comFrame realFns (siConst ℝ) ⟨1, 0, 0⟩ ⟨0, 0, 0⟩ m m).vcx ≤ 2 * m * (1 / 2) :=
          mul_le_mul (mul_le_mul_of_nonneg_right hgchi hm.le) hvxhi hvxp.le
            (mul_nonneg (by norm_num) hm.le)
      _ = m := by ring
  · rw [hsxe]
    calc m / 3 = 1 * m * (1 / 3) := by ring
      _ ≤ (comFrame realFns (siConst ℝ) ⟨1, 0, 0⟩ ⟨0, 0, 0⟩ m m).gc * m * (comFrame realFns (siConst ℝ) ⟨1, 0, 0⟩ ⟨0, 0, 0⟩ m m).vcx :=
          mul_le_mul (mul_le_mul_of_nonneg_right hgclo hm.le) hvxlo (by norm_num)
            (mul_nonneg hgcp.le hm.le)

theorem fast_pair_denominator (m : ℝ) (hm : 0 < m) (hsmall : m ≤ 1 / 2 ^ 1022) :
    (¬ realFns.sqrt ((comFrame realFns (siConst ℝ) ⟨1, 0, 0⟩ ⟨0, 0, 0⟩ m m).p1sx * (comFrame realFns (siConst ℝ) ⟨1, 0, 0⟩ ⟨0, 0, 0⟩ m m).p1sx + (comFrame realFns (siConst ℝ) ⟨1, 0, 0⟩ ⟨0, 0, 0⟩ m m).p1sy * (comFrame realFns (siConst ℝ) ⟨1, 0, 0⟩ ⟨0, 0, 0⟩ m m).p1sy) > realFns.numeric_limits_min)
    ∧ rotationDenominator realFns (comFrame realFns (siConst ℝ) ⟨1, 0, 0⟩ ⟨0, 0, 0⟩ m m) = 0 := by
  obtain ⟨_, hy, hz, hx0, hxm, _⟩ := fast_pair_frame m hm
  have hp : ¬ realFns.sqrt ((comFrame realFns (siConst ℝ) ⟨1, 0, 0⟩ ⟨0, 0, 0⟩ m m).p1sx * (comFrame realFns (siConst ℝ) ⟨1, 0, 0⟩ ⟨0, 0, 0⟩ m m).p1sx + (comFrame realFns (siConst ℝ) ⟨1, 0, 0⟩ ⟨0, 0, 0⟩ m m).p1sy * (comFrame realFns (siConst ℝ) ⟨1, 0, 0⟩ ⟨0, 0, 0⟩ m m).p1sy)
      > realFns.numeric_limits_min := by
    rw [hy]
    show ¬ Real.sqrt ((comFrame realFns (siConst ℝ) ⟨1, 0, 0⟩ ⟨0, 0, 0⟩ m m).p1sx * (comFrame realFns (siConst ℝ) ⟨1, 0, 0⟩ ⟨0, 0, 0⟩ m m).p1sx + 0 * 0) > 1 / 2 ^ 1022
    rw [mul_zero, add_zero, Real.sqrt_mul_self hx0]
    exact not_lt.mpr (hxm.trans hsmall)
  refine ⟨hp, ?_⟩
  unfold rotationDenominator
  simp only
  rw [if_neg hp, hy, hz]
  show Real.sqrt (0 * 0 + 0 * 0) = 0
  simp

/-- C25 fails in the code, through the defect of C22.  Over the reals, for
`u1 = (1, 0, 0)`, `u2 = 0`, both masses `2^(-1030)`, unit weights and every
draw equal to `1/2`, the call returns, both rejection tests succeed and the
Lorentz-transform branch is taken (`vcms > numeric_limits::min()`), while the
COM momentum `p1s` lies along x with `|p1s| <= 2^(-1030)`: the test
`sqrt(p1sx^2 + p1sy^2) > numeric_limits::min()` fails and the fallback
denominator `sqrt(p1sy^2 + p1sz^2)`, by which the post-collision momentum is
divided, is zero. -/
theorem UpdateMomentumPerezElastic_energy_division_by_zero :
    ∃ out : Vec3 ℝ × Vec3 ℝ × RandomEngine ℝ,
      UpdateMomentumPerezElastic realFns (siConst ℝ) 1 ⟨1, 0, 0⟩ ⟨0, 0, 0⟩
        (tinyMassArgs ℝ) (halfEngine ℝ) = some out
      ∧ (tinyMassArgs ℝ).w2 > out.2.2.draws (out.2.2.pos - 2)
          * max (tinyMassArgs ℝ).w1 (tinyMassArgs ℝ).w2
      ∧ (tinyMassArgs ℝ).w1 > out.2.2.draws (out.2.2.pos - 1)
          * max (tinyMassArgs ℝ).w1 (tinyMassArgs ℝ).w2
      ∧ (comFrame realFns (siConst ℝ) ⟨1, 0, 0⟩ ⟨0, 0, 0⟩ (tinyMassArgs ℝ).m1 (tinyMassArgs ℝ).m2).vcms > realFns.numeric_limits_min
      ∧ (¬ realFns.sqrt ((comFrame realFns (siConst ℝ) ⟨1, 0, 0⟩ ⟨0, 0, 0⟩ (tinyMassArgs ℝ).m1 (tinyMassArgs ℝ).m2).p1sx * (comFrame realFns (siConst ℝ) ⟨1, 0, 0⟩ ⟨0, 0, 0⟩ (tinyMassArgs ℝ).m1 (tinyMassArgs ℝ).m2).p1sx + (comFrame realFns (siConst ℝ) ⟨1, 0, 0⟩ ⟨0, 0, 0⟩ (tinyMassArgs ℝ).m1 (tinyMassArgs ℝ).m2).p1sy * (comFrame realFns (siConst ℝ) ⟨1, 0, 0⟩ ⟨0, 0, 0⟩ (tinyMassArgs ℝ).m1 (tinyMassArgs ℝ).m2).p1sy)
          > realFns.numeric_limits_min)
      ∧ rotationDenominator realFns (comFrame realFns (siConst ℝ) ⟨1, 0, 0⟩ ⟨0, 0, 0⟩ (tinyMassArgs ℝ).m1 (tinyMassArgs ℝ).m2) = 0 := by
  have hm : (0 : ℝ) < 1 / 2 ^ 1030 := by positivity
  obtain ⟨c, hc⟩ := sampleCosXs_half
    (collisionStrength realFns (siConst ℝ) (comFrame realFns (siConst ℝ) ⟨1, 0, 0⟩ ⟨0, 0, 0⟩ (tinyMassArgs ℝ).m1 (tinyMassArgs ℝ).m2) (tinyMassArgs ℝ)) 1
  have hout : UpdateMomentumPerezElastic realFns (siConst ℝ) 1 ⟨1, 0, 0⟩ ⟨0, 0, 0⟩
        (tinyMassArgs ℝ) (halfEngine ℝ)
      = some (scatterAndReject realFns (siConst ℝ) (comFrame realFns (siConst ℝ) ⟨1, 0, 0⟩ ⟨0, 0, 0⟩ (tinyMassArgs ℝ).m1 (tinyMassArgs ℝ).m2) (tinyMassArgs ℝ)
          ⟨1, 0, 0⟩ ⟨0, 0, 0⟩ c ⟨fun _ => 1 / 2, 1⟩) := by
    unfold UpdateMomentumPerezElastic
    rw [noRelativeMotion_unit]
    simp only [Bool.false_eq_true, if_false]
    have e : sampleCosXs realFns
        (collisionStrength realFns (siConst ℝ) (comFrame realFns (siConst ℝ) ⟨1, 0, 0⟩ ⟨0, 0, 0⟩ (tinyMassArgs ℝ).m1 (tinyMassArgs ℝ).m2) (tinyMassArgs ℝ)) 1
        (Random (halfEngine ℝ)).1 (Random (halfEngine ℝ)).2
        = some (c, ⟨fun _ => 1 / 2, 1⟩) := hc
    rw [e]
  have hr1 : (tinyMassArgs ℝ).w2 > (fun _ : ℕ => (1 : ℝ) / 2) 2
      * max (tinyMassArgs ℝ).w1 (tinyMassArgs ℝ).w2 := by
    simp only [tinyMassArgs]
    norm_num
  have hr2 : (tinyMassArgs ℝ).w1 > (fun _ : ℕ => (1 : ℝ) / 2) 3
      * max (tinyMassArgs ℝ).w1 (tinyMassArgs ℝ).w2 := by
    simp only [tinyMassArgs]
    norm_num
  have hd := fast_pair_denominator (1 / 2 ^ 1030) hm (by norm_num)
  exact ⟨_, hout, hr1, hr2, (fast_pair_frame (1 / 2 ^ 1030) hm).1, hd.1, hd.2⟩

section PerezStrength

variable {R : Type} [LinearOrderedField R]

/-- C18. The collision strength with which `UpdateMomentumPerezElastic` samples
the deflection angle is `min(s, s')`, where `s` is the Nanbu-Perez value of
lines 117-121,
`n1*n2/n12 * dt*lnLmd*q1^2*q2^2 / (4*pi*ep0^2*m1*g1*m2*g2/inv_c2^2) * gc*p1sm/mass_g * tts^2`
with `tts = m1*g1s*m2*g2s/(inv_c2*p1sm^2) + 1` and `inv_c2 = 1/c^2`, and `s'`
is the density-limited bound of lines 124-131,
`pow(4*pi/3, 1/3) * n1*n2/n12 * dt * vrel * (m1+m2) / max(m1*cbrt(n1)^2, m2*cbrt(n2)^2)`
with `vrel = mass_g*p1sm/(m1*g1s*m2*g2s*gc)`; it exceeds neither of the two,
and it is the value handed to the sampler. -/
theorem collisionStrength_is_min (F : MathFns R) (P : PhysConst R) (fuel : Nat)
    (u1 u2 : Vec3 R) (a : PairArgs R) (engine : RandomEngine R) :
    inv_c2 P = 1 / (P.c * P.c)
    ∧ collisionStrength F P (comFrame F P u1 u2 a.m1 a.m2) a
        = min (a.n1 * a.n2 / a.n12 * a.dt * coulombLog F P (comFrame F P u1 u2 a.m1 a.m2) a * a.q1 * a.q1 * a.q2 * a.q2 /
          (4 * P.pi * P.ep0 * P.ep0 * a.m1 * (comFrame F P u1 u2 a.m1 a.m2).g1 * a.m2 * (comFrame F P u1 u2 a.m1 a.m2).g2 / (inv_c2 P * inv_c2 P)) *
          (comFrame F P u1 u2 a.m1 a.m2).gc * (comFrame F P u1 u2 a.m1 a.m2).p1sm / (comFrame F P u1 u2 a.m1 a.m2).mass_g *
          ((a.m1 * (comFrame F P u1 u2 a.m1 a.m2).g1s * a.m2 * (comFrame F P u1 u2 a.m1 a.m2).g2s / (inv_c2 P * (comFrame F P u1 u2 a.m1 a.m2).p1sm * (comFrame F P u1 u2 a.m1 a.m2).p1sm) + 1)
            * (a.m1 * (comFrame F P u1 u2 a.m1 a.m2).g1s * a.m2 * (comFrame F P u1 u2 a.m1 a.m2).g2s / (inv_c2 P * (comFrame F P u1 u2 a.m1 a.m2).p1sm * (comFrame F P u1 u2 a.m1 a.m2).p1sm) + 1)))
            (F.pow (4.0 * P.pi / 3.0) (1.0 / 3.0) * a.n1 * a.n2 / a.n12 * a.dt *
          ((comFrame F P u1 u2 a.m1 a.m2).mass_g * (comFrame F P u1 u2 a.m1 a.m2).p1sm / (a.m1 * (comFrame F P u1 u2 a.m1 a.m2).g1s * a.m2 * (comFrame F P u1 u2 a.m1 a.m2).g2s * (comFrame F P u1 u2 a.m1 a.m2).gc)) * (a.m1 + a.m2) /
          max (a.m1 * F.cbrt a.n1 * F.cbrt a.n1) (a.m2 * F.cbrt a.n2 * F.cbrt a.n2))
    ∧ collisionStrength F P (comFrame F P u1 u2 a.m1 a.m2) a
        ≤ (a.n1 * a.n2 / a.n12 * a.dt * coulombLog F P (comFrame F P u1 u2 a.m1 a.m2) a * a.q1 * a.q1 * a.q2 * a.q2 /
          (4 * P.pi * P.ep0 * P.ep0 * a.m1 * (comFrame F P u1 u2 a.m1 a.m2).g1 * a.m2 * (comFrame F P u1 u2 a.m1 a.m2).g2 / (inv_c2 P * inv_c2 P)) *
          (comFrame F P u1 u2 a.m1 a.m2).gc * (comFrame F P u1 u2 a.m1 a.m2).p1sm / (comFrame F P u1 u2 a.m1 a.m2).mass_g *
          ((a.m1 * (comFrame F P u1 u2 a.m1 a.m2).g1s * a.m2 * (comFrame F P u1 u2 a.m1 a.m2).g2s / (inv_c2 P * (comFrame F P u1 u2 a.m1 a.m2).p1sm * (comFrame F P u1 u2 a.m1 a.m2).p1sm) + 1)
            * (a.m1 * (comFrame F P u1 u2 a.m1 a.m2).g1s * a.m2 * (comFrame F P u1 u2 a.m1 a.m2).g2s / (inv_c2 P * (comFrame F P u1 u2 a.m1 a.m2).p1sm * (comFrame F P u1 u2 a.m1 a.m2).p1sm) + 1)))
    ∧ collisionStrength F P (comFrame F P u1 u2 a.m1 a.m2) a
        ≤ (F.pow (4.0 * P.pi / 3.0) (1.0 / 3.0) * a.n1 * a.n2 / a.n12 * a.dt *
          ((comFrame F P u1 u2 a.m1 a.m2).mass_g * (comFrame F P u1 u2 a.m1 a.m2).p1sm / (a.m1 * (comFrame F P u1 u2 a.m1 a.m2).g1s * a.m2 * (comFrame F P u1 u2 a.m1 a.m2).g2s * (comFrame F P u1 u2 a.m1 a.m2).gc)) * (a.m1 + a.m2) /
          max (a.m1 * F.cbrt a.n1 * F.cbrt a.n1) (a.m2 * F.cbrt a.n2 * F.cbrt a.n2))
    ∧ (noRelativeMotion F u1 u2 = false →
        UpdateMomentumPerezElastic F P fuel u1 u2 a engine
          = (sampleCosXs F
              (min (a.n1 * a.n2 / a.n12 * a.dt * coulombLog F P (comFrame F P u1 u2 a.m1 a.m2) a * a.q1 * a.q1 * a.q2 * a.q2 /
          (4 * P.pi * P.ep0 * P.ep0 * a.m1 * (comFrame F P u1 u2 a.m1 a.m2).g1 * a.m2 * (comFrame F P u1 u2 a.m1 a.m2).g2 / (inv_c2 P * inv_c2 P)) *
          (comFrame F P u1 u2 a.m1 a.m2).gc * (comFrame F P u1 u2 a.m1 a.m2).p1sm / (comFrame F P u1 u2 a.m1 a.m2).mass_g *
          ((a.m1 * (comFrame F P u1 u2 a.m1 a.m2).g1s * a.m2 * (comFrame F P u1 u2 a.m1 a.m2).g2s / (inv_c2 P * (comFrame F P u1 u2 a.m1 a.m2).p1sm * (comFrame F P u1 u2 a.m1 a.m2).p1sm) + 1)
            * (a.m1 * (comFrame F P u1 u2 a.m1 a.m2).g1s * a.m2 * (comFrame F P u1 u2 a.m1 a.m2).g2s / (inv_c2 P * (comFrame F P u1 u2 a.m1 a.m2).p1sm * (comFrame F P u1 u2 a.m1 a.m2).p1sm) + 1)))
                (F.pow (4.0 * P.pi / 3.0) (1.0 / 3.0) * a.n1 * a.n2 / a.n12 * a.dt *
          ((comFrame F P u1 u2 a.m1 a.m2).mass_g * (comFrame F P u1 u2 a.m1 a.m2).p1sm / (a.m1 * (comFrame F P u1 u2 a.m1 a.m2).g1s * a.m2 * (comFrame F P u1 u2 a.m1 a.m2).g2s * (comFrame F P u1 u2 a.m1 a.m2).gc)) * (a.m1 + a.m2) /
          max (a.m1 * F.cbrt a.n1 * F.cbrt a.n1) (a.m2 * F.cbrt a.n2 * F.cbrt a.n2)))
              fuel (Random engine).1 (Random engine).2).map
            (fun ce => scatterAndReject F P (comFrame F P u1 u2 a.m1 a.m2) a u1 u2 ce.1 ce.2)) := by
  have e : collisionStrength F P (comFrame F P u1 u2 a.m1 a.m2) a
      = min (a.n1 * a.n2 / a.n12 * a.dt * coulombLog F P (comFrame F P u1 u2 a.m1 a.m2) a * a.q1 * a.q1 * a.q2 * a.q2 /
          (4 * P.pi * P.ep0 * P.ep0 * a.m1 * (comFrame F P u1 u2 a.m1 a.m2).g1 * a.m2 * (comFrame F P u1 u2 a.m1 a.m2).g2 / (inv_c2 P * inv_c2 P)) *
          (comFrame F P u1 u2 a.m1 a.m2).gc * (comFrame F P u1 u2 a.m1 a.m2).p1sm / (comFrame F P u1 u2 a.m1 a.m2).mass_g *
          ((a.m1 * (comFrame F P u1 u2 a.m1 a.m2).g1s * a.m2 * (comFrame F P u1 u2 a.m1 a.m2).g2s / (inv_c2 P * (comFrame F P u1 u2 a.m1 a.m2).p1sm * (comFrame F P u1 u2 a.m1 a.m2).p1sm) + 1)
            * (a.m1 * (comFrame F P u1 u2 a.m1 a.m2).g1s * a.m2 * (comFrame F P u1 u2 a.m1 a.m2).g2s / (inv_c2 P * (comFrame F P u1 u2 a.m1 a.m2).p1sm * (comFrame F P u1 u2 a.m1 a.m2).p1sm) + 1)))
          (F.pow (4.0 * P.pi / 3.0) (1.0 / 3.0) * a.n1 * a.n2 / a.n12 * a.dt *
          ((comFrame F P u1 u2 a.m1 a.m2).mass_g * (comFrame F P u1 u2 a.m1 a.m2).p1sm / (a.m1 * (comFrame F P u1 u2 a.m1 a.m2).g1s * a.m2 * (comFrame F P u1 u2 a.m1 a.m2).g2s * (comFrame F P u1 u2 a.m1 a.m2).gc)) * (a.m1 + a.m2) /
          max (a.m1 * F.cbrt a.n1 * F.cbrt a.n1) (a.m2 * F.cbrt a.n2 * F.cbrt a.n2)) := rfl
  refine ⟨rfl, e, ?_, ?_, fun hskip => ?_⟩
  · rw [e]
    exact min_le_left _ _
  · rw [e]
    exact min_le_right _ _
  · rw [← e]
    unfold UpdateMomentumPerezElastic
    rw [hskip]
    simp only [Bool.false_eq_true, if_false]
    cases sampleCosXs F (collisionStrength F P (comFrame F P u1 u2 a.m1 a.m2) a) fuel
      (Random engine).1 (Random engine).2 with
    | none => rfl
    | some ce => rfl

end PerezStrength

section IonizationEnergy

variable {R : Type} [LinearOrderedField R]

/-- C23. Ionization energy bookkeeping.  With an exact square root, positive
`q_e` and mass, and a `RandomizeVelocity` that returns a vector of the
requested magnitude, for every colliding electron whose kinetic energy
`E_coll = 0.5*m*|u|^2/q_e` (with `u` its velocity before the call) is at least
`energy_cost`, `ImpactIonizationTransformFunc` leaves the source electron and
the new electron each with speed
`vp = sqrt(2/m * q_e * (E_coll - energy_cost) / 2)`, for which
`0.5*m*vp^2/q_e = (E_coll - energy_cost)/2`, and the kinetic energies of the
two electrons after the call sum to `E_coll - energy_cost`. -/
theorem ImpactIonizationTransformFunc_energy (F : MathFns R) (P : PhysConst R)
    (RandomizeVelocity : Vec3 R → R → RandomEngine R → Vec3 R × RandomEngine R)
    (RandomNormal : R → R → RandomEngine R → R × RandomEngine R)
    (f : ImpactIonizationTransformFunc R) (dst1 dst2 src : ParticleTile R)
    (i_src i_dst1 i_dst2 : Nat) (engine : RandomEngine R)
    (hs : SqrtExact F) (hq : 0 < P.q_e) (hm : 0 < f.m_mass1)
    (hrv : ∀ (v : Vec3 R) (mag : R) (e : RandomEngine R), 0 ≤ mag →
      Vec3.mag F (RandomizeVelocity v mag e).1 = mag)
    (hE : f.m_energy_cost
      ≤ (0.5 * f.m_mass1 * ((src.u i_src).x * (src.u i_src).x + (src.u i_src).y * (src.u i_src).y + (src.u i_src).z * (src.u i_src).z) / P.q_e)) :
    Vec3.mag F ((ImpactIonizationTransformFunc.call F P RandomizeVelocity RandomNormal f dst1 dst2 src i_src i_dst1 i_dst2 engine).src.u i_src)
      = (F.sqrt (2.0 / f.m_mass1 * P.q_e * ((0.5 * f.m_mass1 * ((src.u i_src).x * (src.u i_src).x + (src.u i_src).y * (src.u i_src).y + (src.u i_src).z * (src.u i_src).z) / P.q_e) - f.m_energy_cost) / 2.0))
    ∧ Vec3.mag F ((ImpactIonizationTransformFunc.call F P RandomizeVelocity RandomNormal f dst1 dst2 src i_src i_dst1 i_dst2 engine).dst1.u i_dst1)
      = (F.sqrt (2.0 / f.m_mass1 * P.q_e * ((0.5 * f.m_mass1 * ((src.u i_src).x * (src.u i_src).x + (src.u i_src).y * (src.u i_src).y + (src.u i_src).z * (src.u i_src).z) / P.q_e) - f.m_energy_cost) / 2.0))
    ∧ 0.5 * f.m_mass1 * ((F.sqrt (2.0 / f.m_mass1 * P.q_e * ((0.5 * f.m_mass1 * ((src.u i_src).x * (src.u i_src).x + (src.u i_src).y * (src.u i_src).y + (src.u i_src).z * (src.u i_src).z) / P.q_e) - f.m_energy_cost) / 2.0))
          * (F.sqrt (2.0 / f.m_mass1 * P.q_e * ((0.5 * f.m_mass1 * ((src.u i_src).x * (src.u i_src).x + (src.u i_src).y * (src.u i_src).y + (src.u i_src).z * (src.u i_src).z) / P.q_e) - f.m_energy_cost) / 2.0))) / P.q_e
        = ((0.5 * f.m_mass1 * ((src.u i_src).x * (src.u i_src).x + (src.u i_src).y * (src.u i_src).y + (src.u i_src).z * (src.u i_src).z) / P.q_e) - f.m_energy_cost) / 2
    ∧ 0.5 * f.m_mass1 * (((ImpactIonizationTransformFunc.call F P RandomizeVelocity RandomNormal f dst1 dst2 src i_src i_dst1 i_dst2 engine).src.u i_src).x * ((ImpactIonizationTransformFunc.call F P RandomizeVelocity RandomNormal f dst1 dst2 src i_src i_dst1 i_dst2 engine).src.u i_src).x
          + ((ImpactIonizationTransformFunc.call F P RandomizeVelocity RandomNormal f dst1 dst2 src i_src i_dst1 i_dst2 engine).src.u i_src).y * ((ImpactIonizationTransformFunc.call F P RandomizeVelocity RandomNormal f dst1 dst2 src i_src i_dst1 i_dst2 engine).src.u i_src).y
          + ((ImpactIonizationTransformFunc.call F P RandomizeVelocity RandomNormal f dst1 dst2 src i_src i_dst1 i_dst2 engine).src.u i_src).z * ((ImpactIonizationTransformFunc.call F P RandomizeVelocity RandomNormal f dst1 dst2 src i_src i_dst1 i_dst2 engine).src.u i_src).z) / P.q_e
        + 0.5 * f.m_mass1 * (((ImpactIonizationTransformFunc.call F P RandomizeVelocity RandomNormal f dst1 dst2 src i_src i_dst1 i_dst2 engine).dst1.u i_dst1).x * ((ImpactIonizationTransformFunc.call F P RandomizeVelocity RandomNormal f dst1 dst2 src i_src i_dst1 i_dst2 engine).dst1.u i_dst1).x
          + ((ImpactIonizationTransformFunc.call F P RandomizeVelocity RandomNormal f dst1 dst2 src i_src i_dst1 i_dst2 engine).dst1.u i_dst1).y * ((ImpactIonizationTransformFunc.call F P RandomizeVelocity RandomNormal f dst1 dst2 src i_src i_dst1 i_dst2 engine).dst1.u i_dst1).y
          + ((ImpactIonizationTransformFunc.call F P RandomizeVelocity RandomNormal f dst1 dst2 src i_src i_dst1 i_dst2 engine).dst1.u i_dst1).z * ((ImpactIonizationTransformFunc.call F P RandomizeVelocity RandomNormal f dst1 dst2 src i_src i_dst1 i_dst2 engine).dst1.u i_dst1).z) / P.q_e
        = (0.5 * f.m_mass1 * ((src.u i_src).x * (src.u i_src).x + (src.u i_src).y * (src.u i_src).y + (src.u i_src).z * (src.u i_src).z) / P.q_e) - f.m_energy_cost :=
  ionization_energy_balance F P RandomizeVelocity RandomNormal f dst1 dst2 src
    i_src i_dst1 i_dst2 engine hs hq hm hrv hE

end IonizationEnergy

/-- Witness for C23 over the reals: an electron of mass 1 and velocity
`(1, 0, 0)`, no energy cost, the stand-ins `axisRandomizeVelocity` and
`meanRandomNormal`. -/
theorem ImpactIonizationTransformFunc_energy_witness :
    (unitTransform ℝ).m_energy_cost
      ≤ 0.5 * (unitTransform ℝ).m_mass1 * (((movingTile ℝ).u 0).x * ((movingTile ℝ).u 0).x
          + ((movingTile ℝ).u 0).y * ((movingTile ℝ).u 0).y
          + ((movingTile ℝ).u 0).z * ((movingTile ℝ).u 0).z) / (siConst ℝ).q_e
    ∧ Vec3.mag realFns ((ImpactIonizationTransformFunc.call realFns (siConst ℝ)
        axisRandomizeVelocity meanRandomNormal (unitTransform ℝ)
        (uniformTile 1 1 1) (uniformTile 1 1 2) (movingTile ℝ) 0 0 0 (halfEngine ℝ)).src.u 0)
      = realFns.sqrt (2.0 / (unitTransform ℝ).m_mass1 * (siConst ℝ).q_e
          * (0.5 * (unitTransform ℝ).m_mass1 * (((movingTile ℝ).u 0).x * ((movingTile ℝ).u 0).x
              + ((movingTile ℝ).u 0).y * ((movingTile ℝ).u 0).y
              + ((movingTile ℝ).u 0).z * ((movingTile ℝ).u 0).z) / (siConst ℝ).q_e
            - (unitTransform ℝ).m_energy_cost) / 2.0) :=
  have hE : (unitTransform ℝ).m_energy_cost
      ≤ 0.5 * (unitTransform ℝ).m_mass1 * (((movingTile ℝ).u 0).x * ((movingTile ℝ).u 0).x
          + ((movingTile ℝ).u 0).y * ((movingTile ℝ).u 0).y
          + ((movingTile ℝ).u 0).z * ((movingTile ℝ).u 0).z) / (siConst ℝ).q_e := by
    simp only [unitTransform, movingTile, siConst]
    norm_num
  ⟨hE, (ImpactIonizationTransformFunc_energy realFns (siConst ℝ) axisRandomizeVelocity
    meanRandomNormal (unitTransform ℝ) (uniformTile 1 1 1) (uniformTile 1 1 2) (movingTile ℝ)
    0 0 0 (halfEngine ℝ) realFns_sqrtExact (by simp only [siConst]; norm_num)
    (by simp only [unitTransform]; norm_num)
    (fun _ mag _ hmag => by
      simp only [Vec3.mag, Vec3.normSq, axisRandomizeVelocity, realFns, mul_zero, add_zero]
      exact Real.sqrt_mul_self hmag) hE).1⟩

/-! ## Theorems: the output slots written by `ParticleCreationFunc` -/

section CreationSlots

variable {R : Type} [LinearOrderedField R]

theorem inBlock_iff {S : Type} (f : ParticleCreationFunc S) (ev : PairEvents S) (i j n : Nat) :
    InBlock f ev i j n
      ↔ ∃ k b, k < f.m_num_products j ∧ b < 2 ∧ n = productIndex f ev i j k + b := by
  constructor
  · rintro ⟨k, hk, h | h⟩
    · exact ⟨k, 0, hk, Nat.zero_lt_two, h⟩
    · exact ⟨k, 1, hk, Nat.one_lt_two, h⟩
  · rintro ⟨k, b, hk, hb, h⟩
    refine ⟨k, hk, ?_⟩
    rcases Nat.lt_succ_iff_lt_or_eq.mp hb with h0 | h1
    · left
      rw [h, Nat.lt_one_iff.mp h0, Nat.add_zero]
    · right
      rw [h, h1]

theorem eventsLoop_products_outside (f : ParticleCreationFunc R) (ev : PairEvents R)
    (m1 m2 : R) (st : CreationState R) (hf : f.ExternalsFramed) (j slot n : Nat)
    (h : ∀ i, i < n → ev.p_mask i ≠ 0 → ¬ InBlock f ev i j slot) :
    ((forLoop (eventKernel f ev m1 m2) n st).products j).w slot = (st.products j).w slot := by
  induction n with
  | zero => rfl
  | succ n ih =>
    show ((eventKernel f ev m1 m2 n (forLoop (eventKernel f ev m1 m2) n st)).products j).w slot
      = _
    rw [(eventKernel_products f ev m1 m2 n _ hf j).2 slot,
      if_neg (fun hc => h n (Nat.lt_succ_self n) hc.1 hc.2.2)]
    exact ih (fun i hi => h i (Nat.lt_succ_of_lt hi))

/-- C26. With a 0/1 mask, for each product species `j` the map from (firing
event `i`, product index `k`, parent bit `b`) to the slot
`products_np[j] + 2*(offsets[i]*num_products[j] + k) + b` is a bijection onto
the index range `[products_np[j], products_np[j] + num_added[j])`, with
`num_added[j] = total * num_products[j] * 2`: every slot lies in the range, two
different triples give different slots, every index of the range is the slot
of a triple, and the range ends at the size of the resized tile.  These are
the slots the kernel writes: the body of the loop over `k` hands the slots of
`(i, k, 0)` and `(i, k, 1)` to the two copies and assigns the weight of exactly
these two; the kernel of event `i` sets the weight of every slot of its triples
and changes the weight of no other slot; and after the call every slot of the
range holds the weight written by the one event it belongs to, while every
slot outside the range holds the weight it had before.  (The external
functors are taken to write no weight other than that of their destination
slot.) -/
theorem ParticleCreationFunc_slots_bijective (f : ParticleCreationFunc R) (ev : PairEvents R)
    (m1 m2 : R) (st : CreationState R) (j : Nat)
    (h01 : ∀ i, i < ev.n_total_pairs → ev.p_mask i = 0 ∨ ev.p_mask i = 1) :
    (∀ i k b, i < ev.n_total_pairs → ev.p_mask i ≠ 0 → k < f.m_num_products j → b < 2 →
        ev.products_np j ≤ productIndex f ev i j k + b
        ∧ productIndex f ev i j k + b
            < ev.products_np j
              + exclusiveSum ev.p_mask ev.n_total_pairs * f.m_num_products j * 2)
    ∧ (∀ i k b i' k' b', i < ev.n_total_pairs → ev.p_mask i ≠ 0 → k < f.m_num_products j →
        b < 2 → i' < ev.n_total_pairs → ev.p_mask i' ≠ 0 → k' < f.m_num_products j → b' < 2 →
        productIndex f ev i j k + b = productIndex f ev i' j k' + b' →
        i = i' ∧ k = k' ∧ b = b')
    ∧ (∀ slot, ev.products_np j ≤ slot →
        slot < ev.products_np j
            + exclusiveSum ev.p_mask ev.n_total_pairs * f.m_num_products j * 2 →
        ∃ i k b, i < ev.n_total_pairs ∧ ev.p_mask i ≠ 0 ∧ k < f.m_num_products j ∧ b < 2
          ∧ slot = productIndex f ev i j k + b)
    ∧ (f.ExternalsFramed → 0 < ev.n_total_pairs → j < f.m_num_product_species →
        ((f.call ev m1 m2 st).2.products j).np
          = ev.products_np j
            + exclusiveSum ev.p_mask ev.n_total_pairs * f.m_num_products j * 2)
    ∧ (∀ (soa_1 soa_2 : ParticleTile R) (i k : Nat) (s : ParticleTile R × RandomEngine R),
        productBody f ev soa_1 soa_2 i j k s
          = ((((f.copy_species2 j
                  (f.copy_species1 j s.1 soa_1 (ev.p_pair_indices_1 i)
                    (productIndex f ev i j k + 0) s.2).1
                  soa_2 (ev.p_pair_indices_2 i) (productIndex f ev i j k + 1)
                  (f.copy_species1 j s.1 soa_1 (ev.p_pair_indices_1 i)
                    (productIndex f ev i j k + 0) s.2).2).1.setW
                (productIndex f ev i j k + 0) (ev.p_pair_reaction_weight i / 2)).setW
                (productIndex f ev i j k + 1) (ev.p_pair_reaction_weight i / 2)),
             (f.copy_species2 j
                  (f.copy_species1 j s.1 soa_1 (ev.p_pair_indices_1 i)
                    (productIndex f ev i j k + 0) s.2).1
                  soa_2 (ev.p_pair_indices_2 i) (productIndex f ev i j k + 1)
                  (f.copy_species1 j s.1 soa_1 (ev.p_pair_indices_1 i)
                    (productIndex f ev i j k + 0) s.2).2).2))
    ∧ (f.ExternalsFramed → ∀ (i : Nat) (st' : CreationState R) (slot : Nat),
        (ev.p_mask i ≠ 0 → j < f.m_num_product_species →
          (∃ k b, k < f.m_num_products j ∧ b < 2 ∧ slot = productIndex f ev i j k + b) →
          ((eventKernel f ev m1 m2 i st').products j).w slot
            = ev.p_pair_reaction_weight i / 2)
        ∧ (¬ (ev.p_mask i ≠ 0 ∧ j < f.m_num_product_species
              ∧ ∃ k b, k < f.m_num_products j ∧ b < 2
                ∧ slot = productIndex f ev i j k + b) →
          ((eventKernel f ev m1 m2 i st').products j).w slot = (st'.products j).w slot))
    ∧ (f.ExternalsFramed → 0 < ev.n_total_pairs → j < f.m_num_product_species →
        (∀ i k b, i < ev.n_total_pairs → ev.p_mask i ≠ 0 → k < f.m_num_products j → b < 2 →
          ((f.call ev m1 m2 st).2.products j).w (productIndex f ev i j k + b)
            = ev.p_pair_reaction_weight i / 2)
        ∧ (∀ slot, (slot < ev.products_np j
              ∨ ev.products_np j
                  + exclusiveSum ev.p_mask ev.n_total_pairs * f.m_num_products j * 2 ≤ slot) →
          ((f.call ev m1 m2 st).2.products j).w slot = (st.products j).w slot)) := by
  obtain ⟨c1, c2, c3, c4⟩ := slots_bijection f ev m1 m2 st j h01
  refine ⟨c1, c2, c3, c4, fun _ _ _ _ _ => rfl, fun hf i st' slot => ⟨fun hm hj hb => ?_,
    fun hn => ?_⟩, fun hf hn hj => ⟨fun i k b hi hm hk hb => ?_, fun slot hs => ?_⟩⟩
  · rw [(eventKernel_products f ev m1 m2 i st' hf j).2 slot,
      if_pos ⟨hm, hj, (inBlock_iff f ev i j slot).mpr hb⟩]
  · rw [(eventKernel_products f ev m1 m2 i st' hf j).2 slot,
      if_neg (fun hc => hn ⟨hc.1, hc.2.1, (inBlock_iff f ev i j slot).mp hc.2.2⟩)]
  · have hne : ev.n_total_pairs ≠ 0 := Nat.pos_iff_ne_zero.mp hn
    unfold ParticleCreationFunc.call
    rw [if_neg hne]
    exact eventsLoop_products_w f ev m1 m2 _ hf i j _ ev.n_total_pairs hi hm hj
      ((inBlock_iff f ev i j _).mpr ⟨k, b, hk, hb, rfl⟩)
  · have hne : ev.n_total_pairs ≠ 0 := Nat.pos_iff_ne_zero.mp hn
    have hout : ∀ i, i < ev.n_total_pairs → ev.p_mask i ≠ 0 → ¬ InBlock f ev i j slot := by
      intro i hi hm hI
      obtain ⟨k, b, hk, hb, he⟩ := (inBlock_iff f ev i j slot).mp hI
      have hr := c1 i k b hi hm hk hb
      rw [← he] at hr
      rcases hs with h | h
      · exact absurd hr.1 (Nat.not_le.mpr h)
      · exact absurd hr.2 (Nat.not_lt.mpr h)
    unfold ParticleCreationFunc.call
    rw [if_neg hne]
    show ((forLoop (eventKernel f ev m1 m2) ev.n_total_pairs _).products j).w slot = _
    rw [eventsLoop_products_outside f ev m1 m2 _ hf j slot ev.n_total_pairs hout]
    show ((forLoop (resizeBody f ev _) f.m_num_product_species ([], st.products)).2 j).w slot
      = _
    rw [(resizeLoop_eq f ev _ st.products f.m_num_product_species).2 j, if_pos hj]
    rfl

end CreationSlots

/-- Witness for C26: one firing event, one product species, one product per
event; the slot of the triple `(0, 0, 1)` ends with the weight written for
event 0. -/
theorem ParticleCreationFunc_slots_bijective_witness :
    (∀ i, i < (oneEvent ℚ).n_total_pairs →
        (oneEvent ℚ).p_mask i = 0 ∨ (oneEvent ℚ).p_mask i = 1)
    ∧ (((oneProductFunc ℚ).call (oneEvent ℚ) 1 1 (twoParents ℚ)).2.products 0).w
        (productIndex (oneProductFunc ℚ) (oneEvent ℚ) 0 0 0 + 1)
      = (oneEvent ℚ).p_pair_reaction_weight 0 / 2 :=
  ⟨fun _ _ => Or.inr rfl,
    ((ParticleCreationFunc_slots_bijective (oneProductFunc ℚ) (oneEvent ℚ) 1 1 (twoParents ℚ) 0
      (fun _ _ => Or.inr rfl)).2.2.2.2.2.2 (oneProductFunc_framed ℚ) Nat.one_pos
      Nat.one_pos).1 0 0 1 Nat.one_pos Nat.one_ne_zero Nat.one_pos Nat.one_lt_two⟩

/-! ## Theorems: the fitted regimes in an arbitrary numeric environment -/

section FittedUnguarded

variable {R : Type} [LinearOrderedField R]

end FittedUnguarded

section PerezMomentum

variable {R : Type} [LinearOrderedField R]

/-- C1 (amended). In exact arithmetic (`SqrtExact`, `c > 0`) and for masses
`m1, m2 > 0`: whenever `UpdateMomentumPerezElastic` returns and both rejection
tests succeed, `m1*u1' + m2*u2' = m1*u1 + m2*u2` in each of the three
components, provided the squared COM velocity `vcms` is either above
`numeric_limits::min()` (the Lorentz-transform branch) or exactly zero, and
the denominator `p1sp` by which the rotation divides is non-zero on every pair
that is not skipped.  The two rejection draws are the last two values the
engine delivered during the call, `draws (pos - 2)` and `draws (pos - 1)` of
the returned engine. -/
theorem UpdateMomentumPerezElastic_conserves_momentum (F : MathFns R) (P : PhysConst R)
    (fuel : Nat) (u1 u2 : Vec3 R) (a : PairArgs R) (engine : RandomEngine R)
    (out : Vec3 R × Vec3 R × RandomEngine R)
    (hs : SqrtExact F) (hc : 0 < P.c) (hm1 : 0 < a.m1) (hm2 : 0 < a.m2)
    (hv : (comFrame F P u1 u2 a.m1 a.m2).vcms = 0 ∨ F.numeric_limits_min < (comFrame F P u1 u2 a.m1 a.m2).vcms)
    (_hD : noRelativeMotion F u1 u2 = false → rotationDenominator F (comFrame F P u1 u2 a.m1 a.m2) ≠ 0)
    (hout : UpdateMomentumPerezElastic F P fuel u1 u2 a engine = some out)
    (hr1 : a.w2 > out.2.2.draws (out.2.2.pos - 2) * max a.w1 a.w2)
    (hr2 : a.w1 > out.2.2.draws (out.2.2.pos - 1) * max a.w1 a.w2) :
    a.m1 * out.1.x + a.m2 * out.2.1.x = a.m1 * u1.x + a.m2 * u2.x
    ∧ a.m1 * out.1.y + a.m2 * out.2.1.y = a.m1 * u1.y + a.m2 * u2.y
    ∧ a.m1 * out.1.z + a.m2 * out.2.1.z = a.m1 * u1.z + a.m2 * u2.z := by
  unfold UpdateMomentumPerezElastic at hout
  split at hout
  · cases hout
    exact ⟨rfl, rfl, rfl⟩
  · simp only at hout
    split at hout
    · exact absurd hout (by simp)
    · rename_i cosXs e2 _
      cases hout
      have hp2 : e2.pos + 1 + 1 + 1 - 2 = e2.pos + 1 := by omega
      have hp1 : e2.pos + 1 + 1 + 1 - 1 = e2.pos + 1 + 1 := by omega
      simp only [scatterAndReject, Random, hp1, hp2] at hr1 hr2 ⊢
      rw [if_pos hr1, if_pos hr2]
      simp only [mul_div_cancel₀ _ hm1.ne', mul_div_cancel₀ _ hm2.ne']
      have hB := comFrame_total_momentum F P u1 u2 a.m1 a.m2 hs hc hm1 hm2
      by_cases hb : (comFrame F P u1 u2 a.m1 a.m2).vcms > F.numeric_limits_min
      · obtain ⟨hx, hy, hz⟩ := labFrame_sum_boost F (comFrame F P u1 u2 a.m1 a.m2)
          a.m1 a.m2 (rotateCom F (comFrame F P u1 u2 a.m1 a.m2) cosXs
            (F.sqrt (1 - cosXs * cosXs)) (F.cos (e2.draws e2.pos * 2 * P.pi))
            (F.sin (e2.draws e2.pos * 2 * P.pi))) hb
        exact ⟨hx.trans hB.1, hy.trans hB.2.1, hz.trans hB.2.2⟩
      · obtain ⟨hx, hy, hz⟩ := labFrame_sum_rest F (comFrame F P u1 u2 a.m1 a.m2)
          a.m1 a.m2 (rotateCom F (comFrame F P u1 u2 a.m1 a.m2) cosXs
            (F.sqrt (1 - cosXs * cosXs)) (F.cos (e2.draws e2.pos * 2 * P.pi))
            (F.sin (e2.draws e2.pos * 2 * P.pi))) hb
        rcases hv with h0 | hlt
        · obtain ⟨zx, zy, zz⟩ := vcms_zero_components F P u1 u2 a.m1 a.m2 h0
          simp only [zx, zy, zz, zero_mul] at hB
          exact ⟨hx.trans hB.1, hy.trans hB.2.1, hz.trans hB.2.2⟩
        · exact absurd hlt hb

end PerezMomentum

theorem fast_pair_denominator_ne (m : ℝ) (hm : 0 < m) (hbig : 1 / 2 ^ 1022 < m / 3) :
    rotationDenominator realFns (comFrame realFns (siConst ℝ) ⟨1, 0, 0⟩ ⟨0, 0, 0⟩ m m) ≠ 0 := by
  obtain ⟨_, hy, _, hx0, _, hlo⟩ := fast_pair_frame m hm
  have hp : realFns.sqrt ((comFrame realFns (siConst ℝ) ⟨1, 0, 0⟩ ⟨0, 0, 0⟩ m m).p1sx * (comFrame realFns (siConst ℝ) ⟨1, 0, 0⟩ ⟨0, 0, 0⟩ m m).p1sx + (comFrame realFns (siConst ℝ) ⟨1, 0, 0⟩ ⟨0, 0, 0⟩ m m).p1sy * (comFrame realFns (siConst ℝ) ⟨1, 0, 0⟩ ⟨0, 0, 0⟩ m m).p1sy)
      > realFns.numeric_limits_min := by
    rw [hy]
    show Real.sqrt ((comFrame realFns (siConst ℝ) ⟨1, 0, 0⟩ ⟨0, 0, 0⟩ m m).p1sx * (comFrame realFns (siConst ℝ) ⟨1, 0, 0⟩ ⟨0, 0, 0⟩ m m).p1sx + 0 * 0) > 1 / 2 ^ 1022
    rw [mul_zero, add_zero, Real.sqrt_mul_self hx0]
    exact lt_of_lt_of_le hbig hlo
  have hmin : (0 : ℝ) < realFns.numeric_limits_min := by
    show (0 : ℝ) < 1 / 2 ^ 1022
    positivity
  unfold rotationDenominator
  simp only
  rw [if_pos hp]
  exact ne_of_gt (lt_trans hmin hp)

theorem noRelativeMotion_slow :
    noRelativeMotion realFns ⟨1 / 2 ^ 511, 0, 0⟩ ⟨0, 0, 0⟩ = false := by
  have hε : (0 : ℝ) < 1 / 2 ^ 511 := by positivity
  simp only [noRelativeMotion, realFns, sub_zero, abs_zero, mul_zero, add_zero,
    abs_of_pos hε, Real.sqrt_mul_self hε.le, Real.sqrt_zero, div_self hε.ne']
  norm_num

theorem vcms_slow_below_threshold :
    ¬ (comFrame realFns (siConst ℝ) ⟨1 / 2 ^ 511, 0, 0⟩ ⟨0, 0, 0⟩ 1 1).vcms > realFns.numeric_limits_min :=
  slow_pair_rest (siConst ℝ) (1 / 2 ^ 511) 1 (by positivity) one_pos (by norm_num)

theorem slow_pair_denominator_ne : rotationDenominator realFns (comFrame realFns (siConst ℝ) ⟨1 / 2 ^ 511, 0, 0⟩ ⟨0, 0, 0⟩ 1 1) ≠ 0 := by
  have hε : (0 : ℝ) < 1 / 2 ^ 511 := by positivity
  have hv := vcms_slow_below_threshold
  have hx : (comFrame realFns (siConst ℝ) ⟨1 / 2 ^ 511, 0, 0⟩ ⟨0, 0, 0⟩ 1 1).p1sx = 1 / 2 ^ 511 := by
    show (if (comFrame realFns (siConst ℝ) ⟨1 / 2 ^ 511, 0, 0⟩ ⟨0, 0, 0⟩ 1 1).vcms > realFns.numeric_limits_min then _ else _) = _
    rw [if_neg hv]
    exact mul_one _
  have hy : (comFrame realFns (siConst ℝ) ⟨1 / 2 ^ 511, 0, 0⟩ ⟨0, 0, 0⟩ 1 1).p1sy = 0 := by
    show (if (comFrame realFns (siConst ℝ) ⟨1 / 2 ^ 511, 0, 0⟩ ⟨0, 0, 0⟩ 1 1).vcms > realFns.numeric_limits_min then _ else _) = _
    rw [if_neg hv]
    exact zero_mul _
  have hp : realFns.sqrt ((comFrame realFns (siConst ℝ) ⟨1 / 2 ^ 511, 0, 0⟩ ⟨0, 0, 0⟩ 1 1).p1sx * (comFrame realFns (siConst ℝ) ⟨1 / 2 ^ 511, 0, 0⟩ ⟨0, 0, 0⟩ 1 1).p1sx + (comFrame realFns (siConst ℝ) ⟨1 / 2 ^ 511, 0, 0⟩ ⟨0, 0, 0⟩ 1 1).p1sy * (comFrame realFns (siConst ℝ) ⟨1 / 2 ^ 511, 0, 0⟩ ⟨0, 0, 0⟩ 1 1).p1sy)
      > realFns.numeric_limits_min := by
    rw [hx, hy]
    show Real.sqrt (1 / 2 ^ 511 * (1 / 2 ^ 511) + 0 * 0) > 1 / 2 ^ 1022
    rw [mul_zero, add_zero, Real.sqrt_mul_self hε.le]
    norm_num
  have hmin : (0 : ℝ) < realFns.numeric_limits_min := by
    show (0 : ℝ) < 1 / 2 ^ 1022
    positivity
  unfold rotationDenominator
  simp only
  rw [if_pos hp]
  exact ne_of_gt (lt_trans hmin hp)

/-- C1 as stated fails.  Over the reals, with `u1 = (2^(-511), 0, 0)`,
`u2 = 0`, unit masses and weights and every draw equal to `1/2`, the pair is
not skipped, `0 < vcms <= 2^(-1022)` so the branch without Lorentz transform is
taken, the rotation divides by `p1sp = 2^(-511)`, both rejection tests
succeed, and the x component of the total momentum after the call (which is
`p1fs.x - p1fs.x = 0`) differs from the one before the call, `2^(-511)`. -/
theorem UpdateMomentumPerezElastic_momentum_counterexample :
    ∃ out : Vec3 ℝ × Vec3 ℝ × RandomEngine ℝ,
      UpdateMomentumPerezElastic realFns (siConst ℝ) 1 ⟨1 / 2 ^ 511, 0, 0⟩ ⟨0, 0, 0⟩
        (unitPairArgs ℝ) (halfEngine ℝ) = some out
      ∧ noRelativeMotion realFns ⟨1 / 2 ^ 511, 0, 0⟩ ⟨0, 0, 0⟩ = false
      ∧ (unitPairArgs ℝ).w2 > out.2.2.draws (out.2.2.pos - 2)
          * max (unitPairArgs ℝ).w1 (unitPairArgs ℝ).w2
      ∧ (unitPairArgs ℝ).w1 > out.2.2.draws (out.2.2.pos - 1)
          * max (unitPairArgs ℝ).w1 (unitPairArgs ℝ).w2
      ∧ 0 < (unitPairArgs ℝ).m1 ∧ 0 < (unitPairArgs ℝ).m2
      ∧ ¬ (comFrame realFns (siConst ℝ) ⟨1 / 2 ^ 511, 0, 0⟩ ⟨0, 0, 0⟩ 1 1).vcms > realFns.numeric_limits_min
      ∧ rotationDenominator realFns (comFrame realFns (siConst ℝ) ⟨1 / 2 ^ 511, 0, 0⟩ ⟨0, 0, 0⟩ 1 1) ≠ 0
      ∧ (unitPairArgs ℝ).m1 * out.1.x + (unitPairArgs ℝ).m2 * out.2.1.x
          ≠ (unitPairArgs ℝ).m1 * (1 / 2 ^ 511) + (unitPairArgs ℝ).m2 * 0 := by
  obtain ⟨c, hc⟩ := sampleCosXs_half
    (collisionStrength realFns (siConst ℝ) (comFrame realFns (siConst ℝ) ⟨1 / 2 ^ 511, 0, 0⟩ ⟨0, 0, 0⟩ 1 1) (unitPairArgs ℝ)) 1
  refine ⟨scatterAndReject realFns (siConst ℝ) (comFrame realFns (siConst ℝ) ⟨1 / 2 ^ 511, 0, 0⟩ ⟨0, 0, 0⟩ 1 1) (unitPairArgs ℝ)
    ⟨1 / 2 ^ 511, 0, 0⟩ ⟨0, 0, 0⟩ c ⟨fun _ => 1 / 2, 1⟩, ?_, noRelativeMotion_slow, ?_, ?_,
    by simp only [unitPairArgs]; norm_num, by simp only [unitPairArgs]; norm_num,
    vcms_slow_below_threshold, slow_pair_denominator_ne, ?_⟩
  · unfold UpdateMomentumPerezElastic
    rw [noRelativeMotion_slow]
    simp only [Bool.false_eq_true, if_false]
    have e : sampleCosXs realFns
        (collisionStrength realFns (siConst ℝ)
          (comFrame realFns (siConst ℝ) ⟨1 / 2 ^ 511, 0, 0⟩ ⟨0, 0, 0⟩
            (unitPairArgs ℝ).m1 (unitPairArgs ℝ).m2) (unitPairArgs ℝ)) 1
        (Random (halfEngine ℝ)).1 (Random (halfEngine ℝ)).2
        = some (c, ⟨fun _ => 1 / 2, 1⟩) := hc
    rw [e]
    rfl
  · simp only [scatterAndReject, Random, unitPairArgs]
    norm_num
  · simp only [scatterAndReject, Random, unitPairArgs]
    norm_num
  · have h := (labFrame_sum_rest realFns (comFrame realFns (siConst ℝ) ⟨1 / 2 ^ 511, 0, 0⟩ ⟨0, 0, 0⟩ 1 1) 1 1
      (rotateCom realFns (comFrame realFns (siConst ℝ) ⟨1 / 2 ^ 511, 0, 0⟩ ⟨0, 0, 0⟩ 1 1) c
        (realFns.sqrt (1 - c * c)) (realFns.cos (1 / 2 * 2 * (siConst ℝ).pi))
        (realFns.sin (1 / 2 * 2 * (siConst ℝ).pi))) vcms_slow_below_threshold).1
    have ht : (1 : ℝ) > 1 / 2 * max 1 1 := by norm_num
    simp only [scatterAndReject, Random, unitPairArgs, if_pos ht, div_one, one_mul, mul_zero,
      add_zero]
    rw [h]
    positivity

/-- Witness for C1 (amended), over the reals: `u1 = (1, 0, 0)`, `u2 = 0`, unit
masses and weights, every draw equal to `1/2`.  The call returns, the
Lorentz-transform branch is taken, the rotation denominator is non-zero and
both rejection tests succeed. -/
theorem UpdateMomentumPerezElastic_conserves_momentum_witness :
    ∃ out : Vec3 ℝ × Vec3 ℝ × RandomEngine ℝ,
      UpdateMomentumPerezElastic realFns (siConst ℝ) 1 ⟨1, 0, 0⟩ ⟨0, 0, 0⟩
        (unitPairArgs ℝ) (halfEngine ℝ) = some out
      ∧ (unitPairArgs ℝ).w2 > out.2.2.draws (out.2.2.pos - 2)
          * max (unitPairArgs ℝ).w1 (unitPairArgs ℝ).w2
      ∧ (unitPairArgs ℝ).w1 > out.2.2.draws (out.2.2.pos - 1)
          * max (unitPairArgs ℝ).w1 (unitPairArgs ℝ).w2
      ∧ realFns.numeric_limits_min
          < (comFrame realFns (siConst ℝ) ⟨1, 0, 0⟩ ⟨0, 0, 0⟩
              (unitPairArgs ℝ).m1 (unitPairArgs ℝ).m2).vcms
      ∧ rotationDenominator realFns (comFrame realFns (siConst ℝ) ⟨1, 0, 0⟩ ⟨0, 0, 0⟩
              (unitPairArgs ℝ).m1 (unitPairArgs ℝ).m2) ≠ 0
      ∧ (unitPairArgs ℝ).m1 * out.1.x + (unitPairArgs ℝ).m2 * out.2.1.x
          = (unitPairArgs ℝ).m1 * 1 + (unitPairArgs ℝ).m2 * 0
      ∧ (unitPairArgs ℝ).m1 * out.1.y + (unitPairArgs ℝ).m2 * out.2.1.y
          = (unitPairArgs ℝ).m1 * 0 + (unitPairArgs ℝ).m2 * 0
      ∧ (unitPairArgs ℝ).m1 * out.1.z + (unitPairArgs ℝ).m2 * out.2.1.z
          = (unitPairArgs ℝ).m1 * 0 + (unitPairArgs ℝ).m2 * 0 := by
  obtain ⟨c, hc⟩ := sampleCosXs_half
    (collisionStrength realFns (siConst ℝ) (comFrame realFns (siConst ℝ) ⟨1, 0, 0⟩ ⟨0, 0, 0⟩ 1 1) (unitPairArgs ℝ)) 1
  have hout : UpdateMomentumPerezElastic realFns (siConst ℝ) 1 ⟨1, 0, 0⟩ ⟨0, 0, 0⟩
        (unitPairArgs ℝ) (halfEngine ℝ)
      = some (scatterAndReject realFns (siConst ℝ) (comFrame realFns (siConst ℝ) ⟨1, 0, 0⟩ ⟨0, 0, 0⟩ 1 1) (unitPairArgs ℝ)
          ⟨1, 0, 0⟩ ⟨0, 0, 0⟩ c ⟨fun _ => 1 / 2, 1⟩) := by
    unfold UpdateMomentumPerezElastic
    rw [noRelativeMotion_unit]
    simp only [Bool.false_eq_true, if_false]
    have e : sampleCosXs realFns
        (collisionStrength realFns (siConst ℝ)
          (comFrame realFns (siConst ℝ) ⟨1, 0, 0⟩ ⟨0, 0, 0⟩
            (unitPairArgs ℝ).m1 (unitPairArgs ℝ).m2) (unitPairArgs ℝ)) 1
        (Random (halfEngine ℝ)).1 (Random (halfEngine ℝ)).2
        = some (c, ⟨fun _ => 1 / 2, 1⟩) := hc
    rw [e]
    rfl
  have hr1 : (unitPairArgs ℝ).w2 > (fun _ : ℕ => (1 : ℝ) / 2) 2
      * max (unitPairArgs ℝ).w1 (unitPairArgs ℝ).w2 := by
    simp only [unitPairArgs]
    norm_num
  have hr2 : (unitPairArgs ℝ).w1 > (fun _ : ℕ => (1 : ℝ) / 2) 3
      * max (unitPairArgs ℝ).w1 (unitPairArgs ℝ).w2 := by
    simp only [unitPairArgs]
    norm_num
  have hD : rotationDenominator realFns (comFrame realFns (siConst ℝ) ⟨1, 0, 0⟩ ⟨0, 0, 0⟩ 1 1) ≠ 0 :=
    fast_pair_denominator_ne 1 one_pos (by norm_num)
  exact ⟨_, hout, hr1, hr2, vcms_unit_above_threshold, hD,
    UpdateMomentumPerezElastic_conserves_momentum realFns (siConst ℝ) 1 ⟨1, 0, 0⟩ ⟨0, 0, 0⟩
      (unitPairArgs ℝ) (halfEngine ℝ) _ realFns_sqrtExact
      (by simp only [siConst]; norm_num) (by simp only [unitPairArgs]; norm_num)
      (by simp only [unitPairArgs]; norm_num)
      (Or.inr vcms_unit_above_threshold) (fun _ => hD) hout hr1 hr2⟩

end WarpX
